import Mathlib

/-!
# Marketplace matching and savings estimation

A shallow embedding of the product-matching and savings-estimation code of the
contract-lifecycle application:

* `supabase/functions/aws-marketplace-search/index.ts`
  (`calculateMatchScore`, `enrichWithPricingData`, `searchMarketplaceCatalog`,
  `searchActiveAgreements`, `searchMarketplaceProducts`);
* `src/pages/aws-marketplace-optimization/index.jsx`
  (`loadData`, `performRealTimeSearch`, `getExpiringMarketplaceContractsFromData`,
  `optimizationOpportunities`);
* `src/pages/contract-dashboard/index.jsx`
  (`getRenewalContractsFromData`, `getExpiringContracts`);
* `src/pages/contract-renewal-management/index.jsx` (`getRenewalContracts`);
* `src/pages/aws-marketplace-optimization/components/RecommendationCard.jsx`
  (`getMatchScoreColor`, `getMatchScoreBg`);
* `src/pages/upload-contract/index.jsx`
  (`validateForm`, `handleSave`, the contract-length effect);
* `src/pages/edit-contract/components/ContractForm.jsx`
  (the check of the end date in `validateForm`).

Modelling conventions.

* A JavaScript string is a `List Char` (`Str`).  `toLowerCase` maps `Char.toLower`
  over the string (the ASCII letters), `trim` and the regular expression `\s` use
  the ECMAScript white-space set, `includes` is contiguous-substring containment.
* A JavaScript number is a `Num`: a rational (arithmetic is exact, rounding of
  doubles is not modelled, `+0` and `-0` are one value), `NaN`, `+Infinity` or
  `-Infinity`.
* A field that may be `null` or `undefined` is an `Option`.
* The current instant (`new Date()`) is an explicit argument, in milliseconds.
-/

namespace Marketplace

/-! ## Strings -/

/-- A JavaScript string, as a list of characters. -/
abbrev Str := List Char

/-- White space as matched by `String.prototype.trim` and by `\s`. -/
def isJsWhitespace (c : Char) : Bool :=
  let n := c.toNat
  n == 9 || n == 10 || n == 11 || n == 12 || n == 13 || n == 32 || n == 160 ||
  n == 5760 || (8192 ≤ n && n ≤ 8202) || n == 8232 || n == 8233 || n == 8239 ||
  n == 8287 || n == 12288 || n == 65279

/-- The method `String.prototype.toLowerCase`. -/
def toLowerCase (s : Str) : Str := s.map Char.toLower

/-- The method `String.prototype.trim`. -/
def trim (s : Str) : Str :=
  ((s.dropWhile isJsWhitespace).reverse.dropWhile isJsWhitespace).reverse

/-- The call `hay.includes(needle)`: `needle` occurs in `hay` as a contiguous substring. -/
def includes : Str → Str → Bool
  | [], needle => needle.isEmpty
  | c :: cs, needle => needle.isPrefixOf (c :: cs) || includes cs needle

/-- Worker for `splitWs`: `cur` is the current piece, reversed; `inWs` tells that the
previous character was white space (the run of white space is one separator). -/
def splitWsAux : Str → Str → Bool → List Str
  | [], cur, _ => [cur.reverse]
  | c :: cs, cur, inWs =>
    if isJsWhitespace c then
      if inWs then splitWsAux cs cur true
      else cur.reverse :: splitWsAux cs [] true
    else splitWsAux cs (c :: cur) false

/-- The call `s.split(/\s+/)`. -/
def splitWs (s : Str) : List Str := splitWsAux s [] false

/-- Worker for `splitSpace`: `cur` is the current piece, reversed. -/
def splitSpaceAux : Str → Str → List Str
  | [], cur => [cur.reverse]
  | c :: cs, cur =>
    if c = ' ' then cur.reverse :: splitSpaceAux cs [] else splitSpaceAux cs (c :: cur)

/-- The call `s.split(' ')`. -/
def splitSpace (s : Str) : List Str := splitSpaceAux s []

/-! ## The match scorer (`aws-marketplace-search/index.ts`) -/

/-- The optional `metadata` argument of `calculateMatchScore`, a value of type `any`:
its JavaScript truthiness and its `JSON.stringify` serialization. -/
structure Metadata where
  truthy : Bool
  json : Str
  deriving DecidableEq

/-- The loop `for (const queryWord of queryWords) { if (nameWords.some(...)) matchedWords++ }`. -/
def countMatchedWords (queryWords nameWords : List Str) : Nat :=
  queryWords.foldl
    (fun matchedWords queryWord =>
      if nameWords.any (fun nameWord => includes nameWord queryWord || includes queryWord nameWord)
      then matchedWords + 1 else matchedWords)
    0

/-- The function `calculateMatchScore(searchQuery, productName, metadata?)`. -/
def calculateMatchScore (searchQuery productName : Str) (metadata : Option Metadata) : ℚ :=
  let query := trim (toLowerCase searchQuery)
  let name := trim (toLowerCase productName)
  let score : ℚ := 0
  if name = query then 1
  else
    let score := if includes name query then score + 8 / 10 else score
    let queryWords := (splitWs query).filter (fun w => decide (w.length > 2))
    let nameWords := splitWs name
    let matchedWords := countMatchedWords queryWords nameWords
    let score :=
      if queryWords.length > 0 then
        score + ((matchedWords : ℚ) / (queryWords.length : ℚ)) * (6 / 10)
      else score
    let score :=
      match metadata with
      | some m =>
        if m.truthy then
          if includes (toLowerCase m.json) query then score + 2 / 10 else score
        else score
      | none => score
    min score 1

/-! ## Numbers -/

/-- A JavaScript number. -/
inductive Num where
  | fin (q : ℚ)
  | nan
  | posInf
  | negInf
  deriving DecidableEq

namespace Num

/-- JavaScript truthiness of a number: `0` and `NaN` are falsy. -/
def truthy : Num → Bool
  | fin q => decide (q ≠ 0)
  | nan => false
  | posInf => true
  | negInf => true

/-- The operator `a - b`. -/
def sub : Num → Num → Num
  | fin a, fin b => fin (a - b)
  | fin _, posInf => negInf
  | fin _, negInf => posInf
  | posInf, fin _ => posInf
  | posInf, negInf => posInf
  | negInf, fin _ => negInf
  | negInf, posInf => negInf
  | _, _ => nan

/-- The operator `a * b`. -/
def mul : Num → Num → Num
  | fin a, fin b => fin (a * b)
  | fin a, posInf => if a = 0 then nan else if 0 < a then posInf else negInf
  | fin a, negInf => if a = 0 then nan else if 0 < a then negInf else posInf
  | posInf, fin b => if b = 0 then nan else if 0 < b then posInf else negInf
  | negInf, fin b => if b = 0 then nan else if 0 < b then negInf else posInf
  | posInf, posInf => posInf
  | negInf, negInf => posInf
  | posInf, negInf => negInf
  | negInf, posInf => negInf
  | _, _ => nan

/-- The operator `a / b` (a zero divisor is `+0`). -/
def div : Num → Num → Num
  | fin a, fin b =>
    if b = 0 then (if a = 0 then nan else if 0 < a then posInf else negInf) else fin (a / b)
  | fin _, posInf => fin 0
  | fin _, negInf => fin 0
  | posInf, fin b => if 0 ≤ b then posInf else negInf
  | negInf, fin b => if 0 ≤ b then negInf else posInf
  | _, _ => nan

/-- The comparison `a > b`. -/
def gt : Num → Num → Bool
  | fin a, fin b => decide (b < a)
  | fin _, negInf => true
  | posInf, fin _ => true
  | posInf, negInf => true
  | _, _ => false

end Num

/-- The call `parseFloat(x)` on a field holding a number, `null` or `undefined`:
a number is returned as it is, an absent value gives `NaN`. -/
def parseFloat : Option Num → Num
  | some n => n
  | none => Num.nan

/-- Value of a string of decimal digits. -/
def digitsValue (ds : Str) : Nat :=
  ds.foldl (fun n c => 10 * n + (c.toNat - 48)) 0

/-- The exponent part `e[+-]digits` at the head of `s`, `0` when there is none. -/
def exponentPart (s : Str) : Int :=
  match s with
  | e :: t =>
    if e = 'e' ∨ e = 'E' then
      match t with
      | '+' :: u =>
        if (u.takeWhile Char.isDigit).isEmpty then 0
        else (digitsValue (u.takeWhile Char.isDigit) : Int)
      | '-' :: u =>
        if (u.takeWhile Char.isDigit).isEmpty then 0
        else - (digitsValue (u.takeWhile Char.isDigit) : Int)
      | u =>
        if (u.takeWhile Char.isDigit).isEmpty then 0
        else (digitsValue (u.takeWhile Char.isDigit) : Int)
    else 0
  | [] => 0

/-- The longest unsigned decimal literal at the head of `s` (the grammar
`StrUnsignedDecimalLiteral`), `NaN` when there is none. -/
def parseUnsignedDecimal (s : Str) : Num :=
  if "Infinity".toList.isPrefixOf s then Num.posInf
  else
    let intDigits := s.takeWhile Char.isDigit
    let afterInt := s.dropWhile Char.isDigit
    let fracDigits :=
      match afterInt with
      | '.' :: t => t.takeWhile Char.isDigit
      | _ => []
    let afterFrac :=
      match afterInt with
      | '.' :: t => t.dropWhile Char.isDigit
      | _ => afterInt
    if intDigits.isEmpty && fracDigits.isEmpty then Num.nan
    else
      Num.fin (((digitsValue (intDigits ++ fracDigits) : ℚ) / 10 ^ fracDigits.length)
        * (10 : ℚ) ^ exponentPart afterFrac)

/-- The call `parseFloat(s)` on a string. -/
def parseFloatStr (s : Str) : Num :=
  match s.dropWhile isJsWhitespace with
  | '+' :: u => parseUnsignedDecimal u
  | '-' :: u => Num.sub (Num.fin 0) (parseUnsignedDecimal u)
  | u => parseUnsignedDecimal u

/-! ## Pricing enrichment (`aws-marketplace-search/index.ts`) -/

/-- The field `pricing` of a search result. -/
structure Pricing where
  monthlyCost : Option Num
  currency : Option Str
  pricingModel : Option Str
  deriving DecidableEq

/-- A search result (`interface ProductMatch`). -/
structure ProductMatch where
  productId : Str
  productName : Str
  vendor : Str
  productType : Str
  description : Option Str
  pricing : Option Pricing
  availability : Str
  matchScore : Num
  marketplaceUrl : Option Str
  metadata : Option Metadata
  deriving DecidableEq

/-- One price dimension of a price-list entry: `pricePerUnit?.USD` (absent when
`pricePerUnit` or its `USD` key is missing) and `unit`. -/
structure PriceInfo where
  usd : Option Str
  unit : Option Str
  deriving DecidableEq

/-- One on-demand term: its `priceDimensions` object, as the list of its entries in key
order (empty when the key is missing). -/
structure Term where
  priceDimensions : List (Str × PriceInfo)
  deriving DecidableEq

/-- A parsed price-list entry: `terms?.OnDemand`, as the list of its entries in key order
(empty when it is missing). -/
structure PriceData where
  onDemand : List (Str × Term)
  deriving DecidableEq

/-- What `pricingClient.send(pricingCommand)` followed by `JSON.parse` yields for one
result: an exception (caught by the inner `try`), or the parsed `PriceList`. -/
inductive PricingOutcome where
  | failed
  | priceList (entries : List PriceData)
  deriving DecidableEq

/-- The value `x || dflt` on an optional string (the empty string is falsy). -/
def strOr (x : Option Str) (dflt : Str) : Str :=
  match x with
  | some s => if s.isEmpty then dflt else s
  | none => dflt

/-- Body of the loop of `enrichWithPricingData` for one result. -/
def enrichResult (outcome : PricingOutcome) (result : ProductMatch) : ProductMatch :=
  match outcome with
  | PricingOutcome.failed => result
  | PricingOutcome.priceList [] => result
  | PricingOutcome.priceList (priceData :: _) =>
    match priceData.onDemand with
    | [] => result
    | (_, term) :: _ =>
      match term.priceDimensions with
      | [] => result
      | (_, priceInfo) :: _ =>
        { result with
          pricing := some
            { monthlyCost := some (parseFloatStr (strOr priceInfo.usd "0".toList))
              currency := some "USD".toList
              pricingModel := some (strOr priceInfo.unit "Monthly".toList) } }

/-- The input of a `GetProductsCommand`: its `ServiceCode`, the `Type`, `Field` and `Value`
of its one filter, and its `MaxResults`. -/
structure PricingRequest where
  serviceCode : Str
  filterType : Str
  filterField : Str
  filterValue : Str
  maxResults : Nat
  deriving DecidableEq

/-- The local `pricingCommand` that the loop of `enrichWithPricingData` builds in the
iteration for `result`. -/
def pricingCommand (_result : ProductMatch) : PricingRequest :=
  { serviceCode := "AWSMarketplace".toList
    filterType := "TERM_MATCH".toList
    filterField := "productFamily".toList
    filterValue := "Software".toList
    maxResults := 1 }

/-- The function `enrichWithPricingData(results, credentials)`: for the result at index
`i` the loop builds `pricingCommand` and sends it; `send i request` is the outcome of
`pricingClient.send(request)` in that iteration. -/
def enrichWithPricingData (send : Nat → PricingRequest → PricingOutcome)
    (results : List ProductMatch) : List ProductMatch :=
  (results.enum).map (fun ir => enrichResult (send ir.1 (pricingCommand ir.2)) ir.2)

/-! ## The optimization page (`aws-marketplace-optimization/index.jsx`) -/

/-- A contract record. `endDate` is the time value, in milliseconds, of
`new Date(contract.endDate)`; it is absent for an invalid date. -/
structure Contract where
  id : Str
  name : Str
  client : Str
  value : Option Num
  endDate : Option Int
  status : Str
  providerType : Str
  deriving DecidableEq

/-- A synced or freshly found marketplace product. -/
structure Product where
  productId : Str
  productName : Str
  vendor : Str
  productType : Str
  monthlyCost : Option Num
  currency : Str
  status : Str
  metadata : Option Metadata
  matchScore : Option Num
  marketplaceUrl : Option Str
  deriving DecidableEq

/-- An AWS integration record. -/
structure Integration where
  id : Str
  permissionsMarketplace : Bool
  connectionStatus : Str
  deriving DecidableEq

/-- An optimization opportunity. -/
structure Opportunity where
  contract : Contract
  currentMonthlyCost : Num
  awsMonthlyCost : Num
  monthlySavings : Num
  annualSavings : Num
  savingsPercentage : Num
  awsProduct : Product
  hasDirectMatch : Bool
  deriving DecidableEq

/-- The value `x || null` on an optional number. -/
def numOrNull (x : Option Num) : Option Num :=
  match x with
  | some n => if n.truthy then some n else none
  | none => none

/-- The value `x || 0` on an optional number. -/
def numOrZero (x : Option Num) : Num :=
  match x with
  | some n => if n.truthy then n else Num.fin 0
  | none => Num.fin 0

/-- The template literal of `performRealTimeSearch` that builds the search query of a
contract: its name, a space, its client. -/
def searchQuery (contract : Contract) : Str :=
  contract.name ++ ' ' :: contract.client

/-- The object that `performRealTimeSearch` pushes onto `newProducts` for one search
result. -/
def convertSearchResult (result : ProductMatch) : Product :=
  { productId := result.productId
    productName := result.productName
    vendor := result.vendor
    productType := result.productType
    monthlyCost := numOrNull (result.pricing.bind (fun p => p.monthlyCost))
    currency := strOr (result.pricing.bind (fun p => p.currency)) "USD".toList
    status := result.availability
    metadata := result.metadata
    matchScore := some result.matchScore
    marketplaceUrl := result.marketplaceUrl }

/-- The function `getExpiringMarketplaceContractsFromData`, with the current instant
`today` (milliseconds) made explicit. -/
def getExpiringMarketplaceContractsFromData (today : Int) (contractsData : List Contract) :
    List Contract :=
  let sixtyDaysFromNow := today + 60 * 24 * 60 * 60 * 1000
  contractsData.filter (fun contract =>
    let isMarketplace := decide (contract.providerType = "SaaS/Marketplace".toList)
    let isExpiringSoon :=
      decide (contract.status = "Active".toList) &&
      (match contract.endDate with
       | some endDate => decide (endDate > today) && decide (endDate ≤ sixtyDaysFromNow)
       | none => false)
    isMarketplace && isExpiringSoon)

/-- The local `nameMatch` of the product filter. -/
def nameMatch (contract : Contract) (product : Product) : Bool :=
  let contractNameWords := splitSpace (toLowerCase contract.name)
  let productNameLower := toLowerCase product.productName
  contractNameWords.any (fun word => decide (word.length > 2) && includes productNameLower word)

/-- The local `vendorMatch` of the product filter. -/
def vendorMatch (contract : Contract) (product : Product) : Bool :=
  let contractClientWords := splitSpace (toLowerCase contract.client)
  let vendorLower := toLowerCase product.vendor
  contractClientWords.any (fun word => decide (word.length > 2) && includes vendorLower word)

/-- The local `matchingProducts`: the products that pass the name/vendor gate. -/
def matchingProducts (contract : Contract) (marketplaceProducts : List Product) : List Product :=
  marketplaceProducts.filter (fun product => nameMatch contract product || vendorMatch contract product)

/-- The comparator handed to `sort`: `scoreB - scoreA`. -/
def compareByScore (a b : Product) : Num :=
  let scoreA := numOrZero a.matchScore
  let scoreB := numOrZero b.matchScore
  Num.sub scoreB scoreA

/-- Insertion of `a` in front of a sorted list: `a` stays ahead of `b` unless the
comparator is positive on `(a, b)`. -/
def jsInsert {α : Type} (cmp : α → α → Num) (a : α) : List α → List α
  | [] => [a]
  | b :: l => if Num.gt (cmp a b) (Num.fin 0) then b :: jsInsert cmp a l else a :: b :: l

/-- The method `Array.prototype.sort(cmp)`: a stable sort. -/
def jsSort {α : Type} (cmp : α → α → Num) : List α → List α
  | [] => []
  | a :: l => jsInsert cmp a (jsSort cmp l)

/-- The local `sortedProducts`. -/
def sortedProducts (contract : Contract) (marketplaceProducts : List Product) : List Product :=
  jsSort compareByScore (matchingProducts contract marketplaceProducts)

/-- The callback mapped over the expiring contracts: the opportunity of one contract, or
`null`. -/
def opportunityOf (marketplaceProducts : List Product) (contract : Contract) :
    Option Opportunity :=
  let currentMonthlyCost := Num.div (parseFloat contract.value) (Num.fin 12)
  match (sortedProducts contract marketplaceProducts).head? with
  | none => none
  | some awsProduct =>
    match numOrNull awsProduct.monthlyCost with
    | none => none
    | some _ =>
      let awsMonthlyCost := parseFloat awsProduct.monthlyCost
      let monthlySavings := Num.sub currentMonthlyCost awsMonthlyCost
      let annualSavings := Num.mul monthlySavings (Num.fin 12)
      let savingsPercentage := Num.mul (Num.div monthlySavings currentMonthlyCost) (Num.fin 100)
      some
        { contract := contract
          currentMonthlyCost := currentMonthlyCost
          awsMonthlyCost := awsMonthlyCost
          monthlySavings := monthlySavings
          annualSavings := annualSavings
          savingsPercentage := savingsPercentage
          awsProduct := awsProduct
          hasDirectMatch := true }

/-- The final `filter(opp => opp !== null && opp.monthlySavings > 0)`. -/
def keepOpportunity (opp : Option Opportunity) : Option Opportunity :=
  match opp with
  | some o => if Num.gt o.monthlySavings (Num.fin 0) then some o else none
  | none => none

/-- The memo `optimizationOpportunities`, a function of the state `awsIntegrations`,
`expiringContracts` and `marketplaceProducts`. -/
def optimizationOpportunities (awsIntegrations : List Integration)
    (expiringContracts : List Contract) (marketplaceProducts : List Product) :
    List Opportunity :=
  if awsIntegrations.length = 0 then []
  else (expiringContracts.map (opportunityOf marketplaceProducts)).filterMap keepOpportunity

/-- The filter of `loadData` that yields the state `awsIntegrations`: the connected
integrations with marketplace permission. -/
def connectedMarketplaceIntegrations (integrationsData : List Integration) : List Integration :=
  integrationsData.filter (fun i =>
    i.permissionsMarketplace && decide (i.connectionStatus = "connected".toList))

/-! ### The live search (`performRealTimeSearch`) -/

/-- What one call of `awsMarketplaceService.searchMarketplaceProducts` yields: an exception,
or the list of results. -/
inductive SearchOutcome where
  | failed
  | returned (results : List ProductMatch)
  deriving DecidableEq

/-- The object a search promise resolves to: `{ contract, results, searchQuery }`. -/
structure SearchResult where
  contract : Contract
  results : List ProductMatch
  searchQuery : Str
  deriving DecidableEq

/-- A recommendation record, as stored in the state `searchRecommendations`. -/
structure Recommendation where
  contract : Contract
  searchQuery : Str
  recommendations : List ProductMatch
  timestamp : Int
  totalMatches : Nat
  deriving DecidableEq

/-- The callback of `searchPromises` for the contract at index `i`: the search is issued
with the id of the connected integration and the query of the contract; an exception is
caught and gives an empty result list. -/
def searchPromise (search : Nat → Str → Str → SearchOutcome) (connectedIntegration : Integration)
    (i : Nat) (contract : Contract) : SearchResult :=
  match search i connectedIntegration.id (searchQuery contract) with
  | SearchOutcome.returned results =>
    { contract := contract, results := results, searchQuery := searchQuery contract }
  | SearchOutcome.failed =>
    { contract := contract, results := [], searchQuery := searchQuery contract }

/-- The local `searchResults`: one search per expiring contract, in order. -/
def searchResults (search : Nat → Str → Str → SearchOutcome) (connectedIntegration : Integration)
    (expiringMarketplaceContracts : List Contract) : List SearchResult :=
  (expiringMarketplaceContracts.enum).map
    (fun ic => searchPromise search connectedIntegration ic.1 ic.2)

/-- The local `recommendations`, with the instant `timestamp` of their construction. -/
def buildRecommendations (timestamp : Int) (results : List SearchResult) : List Recommendation :=
  results.map (fun r =>
    { contract := r.contract
      searchQuery := r.searchQuery
      recommendations := r.results
      timestamp := timestamp
      totalMatches := r.results.length })

/-- The local `newProducts`: every result of every search, converted to a product. -/
def newProducts (results : List SearchResult) : List Product :=
  results.flatMap (fun r => r.results.map convertSearchResult)

/-- The local `uniqueNewProducts`: the new products whose id is not among the ids of
`marketplaceProducts`. -/
def uniqueNewProducts (marketplaceProducts : List Product) (fresh : List Product) :
    List Product :=
  let existingProductIds := marketplaceProducts.map (fun p => p.productId)
  fresh.filter (fun p => !(existingProductIds.contains p.productId))

/-- The state of the optimization page that `performRealTimeSearch` writes. -/
structure SearchState where
  searchRecommendations : List Recommendation
  marketplaceProducts : List Product
  deriving DecidableEq

/-- The function `performRealTimeSearch(contractsData, integrationsData)`. `today` is the
current instant, `timestamp` the instant at which the recommendations are stamped,
`search` the outcome of the search issued for the contract at a given index,
`marketplaceProducts` the product list the function reads (the value of the state variable
in its closure) and `state` the state that its two setters update. -/
def performRealTimeSearch (today timestamp : Int) (search : Nat → Str → Str → SearchOutcome)
    (marketplaceProducts : List Product) (contractsData : List Contract)
    (integrationsData : List Integration) (state : SearchState) : SearchState :=
  let expiringMarketplaceContracts := getExpiringMarketplaceContractsFromData today contractsData
  match integrationsData.find? (fun i =>
      i.permissionsMarketplace && decide (i.connectionStatus = "connected".toList)) with
  | none => state
  | some connectedIntegration =>
    if expiringMarketplaceContracts.length = 0 then state
    else
      let results := searchResults search connectedIntegration expiringMarketplaceContracts
      { searchRecommendations := buildRecommendations timestamp results
        marketplaceProducts :=
          state.marketplaceProducts ++ uniqueNewProducts marketplaceProducts (newProducts results) }

/-- The function `loadData`, the one caller of `performRealTimeSearch`, run once when the
page is mounted: it stores the synced products `productsData` and, when there is an
integration, runs the live search. The `marketplaceProducts` that the live search reads is
the state variable of the render that created `loadData`, the initial `[]`; the setter
`setMarketplaceProducts(prev => ...)` works on the stored products. -/
def loadData (today timestamp : Int) (search : Nat → Str → Str → SearchOutcome)
    (contractsData : List Contract) (integrationsData : List Integration)
    (productsData : List Product) : SearchState :=
  let state : SearchState := { searchRecommendations := [], marketplaceProducts := productsData }
  if integrationsData.length > 0 then
    performRealTimeSearch today timestamp search [] contractsData integrationsData state
  else state

/-! ## The dashboard (`contract-dashboard/index.jsx`) -/

/-- The function `getRenewalContractsFromData` of the dashboard (60 days). -/
def getRenewalContractsFromData (today : Int) (contractsData : List Contract) : List Contract :=
  let sixtyDaysFromNow := today + 60 * 24 * 60 * 60 * 1000
  contractsData.filter (fun contract =>
    decide (contract.status = "Active".toList) &&
      (match contract.endDate with
       | some endDate => decide (endDate > today) && decide (endDate ≤ sixtyDaysFromNow)
       | none => false))

/-- The function `getExpiringContracts` of the dashboard (30 days). The field
`totalInvoiced` that the dashboard adds to each contract is not read by the filter and is
left out. -/
def getExpiringContracts (today : Int) (contractsWithInvoices : List Contract) : List Contract :=
  let thirtyDaysFromNow := today + 30 * 24 * 60 * 60 * 1000
  contractsWithInvoices.filter (fun contract =>
    decide (contract.status = "Active".toList) &&
      (match contract.endDate with
       | some endDate => decide (endDate > today) && decide (endDate ≤ thirtyDaysFromNow)
       | none => false))

/-! ## The renewal view (`contract-renewal-management/index.jsx`) -/

/-- The function `Math.ceil`. -/
def Num.ceil : Num → Num
  | Num.fin q => Num.fin (⌈q⌉ : Int)
  | x => x

/-- The comparison `a <= b`. -/
def Num.le : Num → Num → Bool
  | Num.fin a, Num.fin b => decide (a ≤ b)
  | Num.fin _, Num.posInf => true
  | Num.negInf, Num.fin _ => true
  | Num.negInf, Num.negInf => true
  | Num.negInf, Num.posInf => true
  | Num.posInf, Num.posInf => true
  | _, _ => false

/-- The difference `new Date(contract.endDate) - today`, in milliseconds; `NaN` for an
invalid date. -/
def dateDifference (endDate : Option Int) (today : Int) : Num :=
  match endDate with
  | some e => Num.fin ((e - today : Int) : ℚ)
  | none => Num.nan

/-- JavaScript truthiness of an optional number. -/
def optTruthy (x : Option Num) : Bool :=
  match x with
  | some n => n.truthy
  | none => false

/-- A renewal candidate: the contract with the fields the renewal view adds. -/
structure RenewalCandidate where
  contract : Contract
  daysLeft : Num
  urgency : Str
  hasAwsOptimization : Bool
  renewalStatus : Str
  deriving DecidableEq

/-- The local `nameMatch` of the product filter of the renewal view. -/
def renewalNameMatch (contract : Contract) (product : Product) : Bool :=
  let contractNameWords := splitSpace (toLowerCase contract.name)
  let productNameLower := toLowerCase product.productName
  contractNameWords.any (fun word => decide (word.length > 2) && includes productNameLower word)

/-- The local `vendorMatch` of the product filter of the renewal view. -/
def renewalVendorMatch (contract : Contract) (product : Product) : Bool :=
  let contractClientWords := splitSpace (toLowerCase contract.client)
  let vendorLower := toLowerCase product.vendor
  contractClientWords.any (fun word => decide (word.length > 2) && includes vendorLower word)

/-- The local `hasAwsOptimization` of the renewal view. -/
def hasAwsOptimization (awsIntegrations : List Integration) (marketplaceProducts : List Product)
    (contract : Contract) : Bool :=
  if contract.providerType = "SaaS/Marketplace".toList ∧ awsIntegrations.length > 0 ∧
      marketplaceProducts.length > 0 then
    let matchingProducts := marketplaceProducts.filter (fun product =>
      (renewalNameMatch contract product || renewalVendorMatch contract product) &&
        optTruthy product.monthlyCost)
    decide (matchingProducts.length > 0)
  else false

/-- The callback mapped over the filtered contracts of the renewal view. -/
def renewalCandidateOf (today : Int) (awsIntegrations : List Integration)
    (marketplaceProducts : List Product) (contract : Contract) : RenewalCandidate :=
  let daysLeft :=
    Num.ceil (Num.div (dateDifference contract.endDate today) (Num.fin (1000 * 60 * 60 * 24)))
  let urgency := if Num.le daysLeft (Num.fin 30) then "high".toList else "medium".toList
  { contract := contract
    daysLeft := daysLeft
    urgency := urgency
    hasAwsOptimization := hasAwsOptimization awsIntegrations marketplaceProducts contract
    renewalStatus := "not_started".toList }

/-- The function `getRenewalContracts` of the renewal view, a function of the current
instant and of the state `awsIntegrations`, `marketplaceProducts` and `contracts`. -/
def getRenewalContracts (today : Int) (awsIntegrations : List Integration)
    (marketplaceProducts : List Product) (contracts : List Contract) : List RenewalCandidate :=
  let sixtyDaysFromNow := today + 60 * 24 * 60 * 60 * 1000
  (contracts.filter (fun contract =>
    decide (contract.status = "Active".toList) &&
      (match contract.endDate with
       | some endDate => decide (endDate > today) && decide (endDate ≤ sixtyDaysFromNow)
       | none => false))).map
    (renewalCandidateOf today awsIntegrations marketplaceProducts)

/-! ## The search function (`aws-marketplace-search/index.ts`) -/

/-- What `DescribeEntity` followed by `JSON.parse` yields for a catalog entity: an exception
(caught, the entity is skipped), or the details object `detailsJson`, of which the code
reads `Vendor?.Name` and `Description` and which it hands to the scorer as metadata. -/
inductive DetailsOutcome where
  | failed
  | details (detailsJson : Metadata) (vendorName : Option Str) (description : Option Str)
  deriving DecidableEq

/-- An entry of `EntitySummaryList`, with the outcome of its details lookup and the
serialization of the `metadata` object that the code builds for its result. -/
structure CatalogEntity where
  entityId : Option Str
  name : Option Str
  entityType : Option Str
  details : DetailsOutcome
  metadataJson : Str
  deriving DecidableEq

/-- An entry of `AgreementViewSummaries`: the fields the code reads, the serialization of
the agreement itself (it is the scorer's metadata) and the serialization of the `metadata`
object that the code builds for its result. -/
structure Agreement where
  offerName : Option Str
  agreementId : Option Str
  proposerAccountId : Option Str
  agreementType : Option Str
  json : Str
  metadataJson : Str
  deriving DecidableEq

/-- The text that a template literal prints for an optional string. -/
def templateText (x : Option Str) : Str :=
  match x with
  | some s => s
  | none => "undefined".toList

/-- Whether a parsed value is `null`, the one value that `JSON.stringify` prints as
`null`. -/
def isNull (value : Metadata) : Bool := decide (value.json = "null".toList)

/-- Body of the loop of `searchMarketplaceCatalog` for one entity: the result pushed, if
any. `score` is the scorer that the loop calls and `now` the text of `Date.now()`. For
details that parse to `null` and a score above the threshold, the read of
`detailsJson.Vendor` in the object to push throws, and the `catch` of the loop skips the
entity. -/
def catalogResultWith (score : Str → Str → Option Metadata → ℚ) (now : Str)
    (searchQuery : Str) (entity : CatalogEntity) : Option ProductMatch :=
  match entity.details with
  | DetailsOutcome.failed => none
  | DetailsOutcome.details detailsJson vendorName description =>
    let matchScore := score searchQuery (strOr entity.name []) (some detailsJson)
    if matchScore > 3 / 10 then
      if isNull detailsJson then none
      else
        some
          { productId := strOr entity.entityId ("catalog-".toList ++ now)
            productName := strOr entity.name "Unknown Product".toList
            vendor := strOr vendorName "Unknown Vendor".toList
            productType := strOr entity.entityType "SaaS".toList
            description := some (strOr description [])
            pricing := none
            availability := "available".toList
            matchScore := Num.fin matchScore
            marketplaceUrl :=
              some ("https://aws.amazon.com/marketplace/pp/".toList
                ++ templateText entity.entityId)
            metadata := some { truthy := true, json := entity.metadataJson } }
    else none

/-- The function `searchMarketplaceCatalog`: `response` is the `EntitySummaryList` of the
catalog answer, absent when the request failed or the answer has no list. -/
def searchMarketplaceCatalogWith (score : Str → Str → Option Metadata → ℚ) (now : Str)
    (searchQuery : Str) (response : Option (List CatalogEntity)) : List ProductMatch :=
  match response with
  | some entitySummaryList =>
    entitySummaryList.filterMap (catalogResultWith score now searchQuery)
  | none => []

/-- Body of the loop of `searchActiveAgreements` for one agreement: the result pushed, if
any. -/
def agreementResultWith (score : Str → Str → Option Metadata → ℚ) (now : Str)
    (searchQuery : Str) (agreement : Agreement) : Option ProductMatch :=
  let productName := strOr agreement.offerName []
  let matchScore :=
    score searchQuery productName (some { truthy := true, json := agreement.json })
  if matchScore > 3 / 10 then
    some
      { productId := strOr agreement.agreementId ("agreement-".toList ++ now)
        productName := productName
        vendor := strOr agreement.proposerAccountId "Unknown".toList
        productType := strOr agreement.agreementType "Subscription".toList
        description := none
        pricing := none
        availability := "available".toList
        matchScore := Num.fin matchScore
        marketplaceUrl :=
          some ("https://console.aws.amazon.com/marketplace/home#/agreements/".toList
            ++ templateText agreement.agreementId)
        metadata := some { truthy := true, json := agreement.metadataJson } }
  else none

/-- The function `searchActiveAgreements`: `response` is the `AgreementViewSummaries` of
the answer, absent when the request failed or the answer has no list. -/
def searchActiveAgreementsWith (score : Str → Str → Option Metadata → ℚ) (now : Str)
    (searchQuery : Str) (response : Option (List Agreement)) : List ProductMatch :=
  match response with
  | some agreementViewSummaries =>
    agreementViewSummaries.filterMap (agreementResultWith score now searchQuery)
  | none => []

/-- The comparator handed to `sort` by `searchMarketplaceProducts`:
`b.matchScore - a.matchScore`. -/
def compareMatches (a b : ProductMatch) : Num := Num.sub b.matchScore a.matchScore

/-- The list `results` of `searchMarketplaceProducts` before enrichment: the catalog results
followed by the agreement results. -/
def collectResultsWith (score : Str → Str → Option Metadata → ℚ) (now : Str)
    (searchQuery : Str) (catalog : Option (List CatalogEntity))
    (agreements : Option (List Agreement)) : List ProductMatch :=
  searchMarketplaceCatalogWith score now searchQuery catalog ++
    searchActiveAgreementsWith score now searchQuery agreements

/-- The function `searchMarketplaceProducts`: collect, enrich with pricing, sort by
descending score, keep the first `maxResults`. The scorer is an argument, so that the
function can be read with `calculateMatchScore` in exact arithmetic and with the same
scorer as the runtime rounds it: a double score is a rational, a double is above the
double `0.3` exactly when it is above `3 / 10`, and the difference of two doubles has the
sign of their exact difference. -/
def searchMarketplaceProductsWith (score : Str → Str → Option Metadata → ℚ) (now : Str)
    (searchQuery : Str) (maxResults : Nat) (catalog : Option (List CatalogEntity))
    (agreements : Option (List Agreement)) (send : Nat → PricingRequest → PricingOutcome) :
    List ProductMatch :=
  let results := collectResultsWith score now searchQuery catalog agreements
  let enriched := enrichWithPricingData send results
  (jsSort compareMatches enriched).take maxResults

/-- The loop body of `searchMarketplaceCatalog` with the scorer `calculateMatchScore`. -/
def catalogResult (now : Str) (searchQuery : Str) (entity : CatalogEntity) :
    Option ProductMatch :=
  catalogResultWith calculateMatchScore now searchQuery entity

/-- The function `searchMarketplaceCatalog` with the scorer `calculateMatchScore`. -/
def searchMarketplaceCatalog (now : Str) (searchQuery : Str)
    (response : Option (List CatalogEntity)) : List ProductMatch :=
  searchMarketplaceCatalogWith calculateMatchScore now searchQuery response

/-- The loop body of `searchActiveAgreements` with the scorer `calculateMatchScore`. -/
def agreementResult (now : Str) (searchQuery : Str) (agreement : Agreement) :
    Option ProductMatch :=
  agreementResultWith calculateMatchScore now searchQuery agreement

/-- The function `searchActiveAgreements` with the scorer `calculateMatchScore`. -/
def searchActiveAgreements (now : Str) (searchQuery : Str)
    (response : Option (List Agreement)) : List ProductMatch :=
  searchActiveAgreementsWith calculateMatchScore now searchQuery response

/-- The list `results` with the scorer `calculateMatchScore`. -/
def collectResults (now : Str) (searchQuery : Str) (catalog : Option (List CatalogEntity))
    (agreements : Option (List Agreement)) : List ProductMatch :=
  collectResultsWith calculateMatchScore now searchQuery catalog agreements

/-- The function `searchMarketplaceProducts` with the scorer `calculateMatchScore`. -/
def searchMarketplaceProducts (now : Str) (searchQuery : Str) (maxResults : Nat)
    (catalog : Option (List CatalogEntity)) (agreements : Option (List Agreement))
    (send : Nat → PricingRequest → PricingOutcome) : List ProductMatch :=
  searchMarketplaceProductsWith calculateMatchScore now searchQuery maxResults catalog
    agreements send

/-! ## The recommendation card (`RecommendationCard.jsx`) -/

/-- The comparison `a >= b`. -/
def Num.ge : Num → Num → Bool
  | Num.fin a, Num.fin b => decide (b ≤ a)
  | Num.fin _, Num.negInf => true
  | Num.posInf, Num.fin _ => true
  | Num.posInf, Num.posInf => true
  | Num.posInf, Num.negInf => true
  | Num.negInf, Num.negInf => true
  | _, _ => false

/-- The function `getMatchScoreColor`. -/
def getMatchScoreColor (score : Num) : Str :=
  if Num.ge score (Num.fin 80) then "text-success".toList
  else if Num.ge score (Num.fin 60) then "text-warning".toList
  else "text-text-secondary".toList

/-- The function `getMatchScoreBg`. -/
def getMatchScoreBg (score : Num) : Str :=
  if Num.ge score (Num.fin 80) then "bg-success/10 border-success/20".toList
  else if Num.ge score (Num.fin 60) then "bg-warning/10 border-warning/20".toList
  else "bg-muted border-border".toList

/-- The class the card computes for a product: `getMatchScoreBg(product.matchScore || 0)`. -/
def cardMatchScoreBg (product : ProductMatch) : Str :=
  getMatchScoreBg (numOrZero (some product.matchScore))

/-! ## The upload page (`upload-contract/index.jsx`) -/

/-- The state `formData`. The field `value` is the text of the value input: absent for the
empty string, and otherwise the number that `parseFloat` reads from the text (a double, so
that a text such as `1e-400` is read as `0`). The dates come from inputs of type `date`
(the empty string or a valid date, here absent or its time value in milliseconds). -/
structure FormData where
  contractName : Str
  client : Str
  value : Option Num
  status : Str
  startDate : Option Int
  endDate : Option Int
  contractLength : Str
  providerType : Str
  deriving DecidableEq

/-- The object `newErrors` of `validateForm`. -/
structure FormErrors where
  contractName : Option Str
  client : Option Str
  value : Option Str
  status : Option Str
  startDate : Option Str
  endDate : Option Str
  deriving DecidableEq

/-- The errors that `validateForm` collects in manual-entry mode. -/
def manualErrors (formData : FormData) : FormErrors :=
  { contractName :=
      if (trim formData.contractName).isEmpty then some "Contract name is required".toList
      else none
    client := if formData.client.isEmpty then some "Client/Vendor is required".toList else none
    value :=
      match formData.value with
      | none => some "Valid contract value is required".toList
      | some v =>
        if Num.le v (Num.fin 0) then some "Valid contract value is required".toList else none
    status := if formData.status.isEmpty then some "Status is required".toList else none
    startDate :=
      match formData.startDate with
      | none => some "Start date is required".toList
      | some _ => none
    endDate :=
      match formData.endDate with
      | none => some "End date is required".toList
      | some e =>
        match formData.startDate with
        | some s => if e < s then some "End date must be after start date".toList else none
        | none => none }

/-- The empty object `newErrors`. -/
def noErrors : FormErrors :=
  { contractName := none, client := none, value := none, status := none, startDate := none,
    endDate := none }

/-- The function `validateForm`: the errors it sets and the boolean it returns. `file`
tells whether a file is selected and `fileError` is the current file error. -/
def validateForm (entryMethod : Str) (formData : FormData) (file : Bool) (fileError : Str) :
    FormErrors × Bool :=
  let newErrors := if entryMethod = "manual".toList then manualErrors formData else noErrors
  (newErrors,
    decide (newErrors = noErrors) &&
      (decide (entryMethod = "manual".toList) || (file && fileError.isEmpty)))

/-- The payload handed to `contractService.create`. -/
structure ContractData where
  name : Str
  client : Str
  value : Num
  startDate : Option Int
  endDate : Option Int
  length : Str
  remainingAmount : Num
  providerType : Str
  deriving DecidableEq

/-- The value `parseFloat(formData.value)`: the empty string gives `NaN`. -/
def parseFormValue (value : Option Num) : Num :=
  match value with
  | some v => v
  | none => Num.nan

/-- The object `contractData` that `handleSave` builds in manual-entry mode. -/
def manualContractData (formData : FormData) : ContractData :=
  { name := formData.contractName
    client := formData.client
    value := parseFormValue formData.value
    startDate := formData.startDate
    endDate := formData.endDate
    length := formData.contractLength
    remainingAmount := parseFormValue formData.value
    providerType := strOr (some formData.providerType) "SaaS/Original Vendor".toList }

/-- The function `handleSave` in manual-entry mode: the payload created, none when
`validateForm` fails. -/
def handleSaveManual (formData : FormData) (file : Bool) (fileError : Str) :
    Option ContractData :=
  if (validateForm "manual".toList formData file fileError).2 then
    some (manualContractData formData)
  else none

/-- The difference in days computed by the contract-length effect:
`Math.ceil(Math.abs(end - start) / (1000 * 60 * 60 * 24))`. -/
def diffDays (start stop : Int) : Nat :=
  Int.toNat ⌈((Int.natAbs (stop - start) : ℚ) / (1000 * 60 * 60 * 24))⌉

/-- The local `years` of the contract-length effect. -/
def lengthYears (d : Nat) : Nat := d / 365

/-- The local `months` of the contract-length effect. -/
def lengthMonths (d : Nat) : Nat := (d % 365) / 30

/-- The local `days` of the contract-length effect. -/
def lengthDays (d : Nat) : Nat := d % 30

/-- The decimal text of a natural number. -/
def decimalText (n : Nat) : Str := (Nat.repr n).toList

/-- The local `lengthStr` of the contract-length effect, before trimming. -/
def lengthStr (d : Nat) : Str :=
  let years := lengthYears d
  let months := lengthMonths d
  let days := lengthDays d
  let s : Str := []
  let s :=
    if years > 0 then
      s ++ decimalText years ++ " year".toList ++ (if years > 1 then "s".toList else []) ++ " ".toList
    else s
  let s :=
    if months > 0 then
      s ++ decimalText months ++ " month".toList ++ (if months > 1 then "s".toList else [])
        ++ " ".toList
    else s
  if days > 0 ∨ s = [] then
    s ++ decimalText days ++ " day".toList ++ (if days ≠ 1 then "s".toList else [])
  else s

/-- The contract-length effect: the new `contractLength` and the error set on `endDate`,
when both dates are present; nothing happens otherwise. -/
def contractLengthEffect (formData : FormData) : Option (Str × Option Str) :=
  match formData.startDate, formData.endDate with
  | some start, some stop =>
    if stop ≥ start then some (trim (lengthStr (diffDays start stop)), none)
    else some ([], some "End date must be after start date".toList)
  | _, _ => none

/-! ## The edit form (`edit-contract/components/ContractForm.jsx`) -/

/-- The error that `validateForm` of the edit form leaves on `endDate`, for the time values
of its two dates (absent for the empty string): the check of the order of the dates is
`end <= start` and overwrites the error of a missing end date. -/
def editFormEndDateError (startDate endDate : Option Int) : Option Str :=
  let required : Option Str :=
    match endDate with
    | none => some "End date is required".toList
    | some _ => none
  match startDate, endDate with
  | some start, some stop =>
    if stop ≤ start then some "End date must be after start date".toList else required
  | _, _ => required

/-! ## Ranking and renewal window as the specification words them -/

/-- The score by which the optimization page ranks a product: its `matchScore` hint, and
`0` when the hint is absent (or is `0` or `NaN`). -/
def rankingScore (product : Product) : Num := numOrZero product.matchScore

/-- The ranking score as the specification words it: the `matchScore` hint when it is
present, and otherwise the score that the match scorer computes for the contract (through
its search query) and the product. -/
def hintOrComputedScore (contract : Contract) (product : Product) : Num :=
  match product.matchScore with
  | some hint => hint
  | none =>
    Num.fin (calculateMatchScore (searchQuery contract) product.productName product.metadata)

/-- Milliseconds in one day. -/
def msPerDay : Int := 24 * 60 * 60 * 1000

/-- The renewal window as the specification words it: the contract is active and its end
date is strictly after the reference instant `t` and at most `horizonDays` days after it. -/
def inRenewalWindow (horizonDays : Int) (t : Int) (contract : Contract) : Prop :=
  contract.status = "Active".toList ∧
    ∃ e : Int, contract.endDate = some e ∧ t < e ∧ e ≤ t + horizonDays * msPerDay

/-- A monthly cost that is absent or non-negative. -/
def absentOrNonNegative (x : Option Num) : Prop :=
  x = none ∨ x = some Num.posInf ∨ ∃ m : ℚ, 0 ≤ m ∧ x = some (Num.fin m)

/-- A contract value that is zero, negative or not a number. -/
def malformedValue (x : Option Num) : Prop :=
  x = none ∨ x = some Num.nan ∨ x = some Num.negInf ∨ ∃ v : ℚ, v ≤ 0 ∧ x = some (Num.fin v)

/-- The candidate gate as the specification words it: some white-space separated word of
the lower-cased contract name, longer than two characters, occurs in the lower-cased
product name, or the same for the client and the vendor. -/
def whitespaceGate (contract : Contract) (product : Product) : Bool :=
  (splitWs (toLowerCase contract.name)).any
      (fun word => decide (word.length > 2) && includes (toLowerCase product.productName) word) ||
    (splitWs (toLowerCase contract.client)).any
      (fun word => decide (word.length > 2) && includes (toLowerCase product.vendor) word)

/-- The one request of the pricing lookup, as the specification words it: a constant,
for the price list of the product family `Software` of the service `AWSMarketplace`. -/
def constantRequest : PricingRequest :=
  { serviceCode := "AWSMarketplace".toList
    filterType := "TERM_MATCH".toList
    filterField := "productFamily".toList
    filterValue := "Software".toList
    maxResults := 1 }

/-- The pricing that the loop body of `enrichWithPricingData` writes for an answer, none
when the answer leaves the result unchanged. -/
def pricingOf (outcome : PricingOutcome) : Option Pricing :=
  match outcome with
  | PricingOutcome.failed => none
  | PricingOutcome.priceList [] => none
  | PricingOutcome.priceList (priceData :: _) =>
    match priceData.onDemand with
    | [] => none
    | (_, term) :: _ =>
      match term.priceDimensions with
      | [] => none
      | (_, priceInfo) :: _ =>
        some
          { monthlyCost := some (parseFloatStr (strOr priceInfo.usd "0".toList))
            currency := some "USD".toList
            pricingModel := some (strOr priceInfo.unit "Monthly".toList) }

/-- The pricing of a result after the loop body ran with the given answer: the pricing
of the answer, and the pricing that the result had before when the answer holds no price
dimension. -/
def pricingAfter (outcome : PricingOutcome) (before : Option Pricing) : Option Pricing :=
  match pricingOf outcome with
  | some p => some p
  | none => before

/-! ## The scorer as the specification words it -/

/-- The words `W` of the normalised query: its white-space separated words longer than
two characters. -/
def significantWords (q : Str) : List Str :=
  (splitWs q).filter (fun w => decide (w.length > 2))

/-- The number of words of `W` such that some word of the normalised name contains the
word or is contained in it. -/
def matchedCount (q n : Str) : Nat :=
  (significantWords q).countP
    (fun w => (splitWs n).any (fun nameWord => includes nameWord w || includes w nameWord))

/-- Contribution `a`: the containment test of the scorer (the normalised name contains the
normalised query). -/
def containmentPart (q n : Str) : ℚ := if includes n q then 8 / 10 else 0

/-- Contribution `b`: `0.6 * matched / |W|`, and `0` when `W` is empty. -/
def wordPart (q n : Str) : ℚ :=
  if (significantWords q).length = 0 then 0
  else (6 / 10) * (matchedCount q n : ℚ) / ((significantWords q).length : ℚ)

/-- Contribution `c`: `0.2` when the metadata is present (truthy) and its lower-cased
serialization contains the normalised query. -/
def metadataPart (q : Str) (metadata : Option Metadata) : ℚ :=
  match metadata with
  | some m => if m.truthy && includes (toLowerCase m.json) q then 2 / 10 else 0
  | none => 0

/-! ## Example data -/

/-- The contract of the end-to-end scenario, ending 20 days after instant `0`. -/
def acmeContract : Contract :=
  { id := "c1".toList
    name := "Acme Cloud Storage".toList
    client := "Acme".toList
    value := some (Num.fin 120000)
    endDate := some (20 * 24 * 60 * 60 * 1000)
    status := "Active".toList
    providerType := "SaaS/Marketplace".toList }

/-- A product with the given name, vendor, monthly cost and match score. -/
def mkProduct (productId productName vendor : String) (monthlyCost matchScore : Option Num) :
    Product :=
  { productId := productId.toList
    productName := productName.toList
    vendor := vendor.toList
    productType := "SaaS".toList
    monthlyCost := monthlyCost
    currency := "USD".toList
    status := "available".toList
    metadata := none
    matchScore := matchScore
    marketplaceUrl := none }

/-- The first product of the end-to-end scenario. -/
def acmePro : Product :=
  mkProduct "p1" "Acme Cloud Storage Pro" "Acme Inc" (some (Num.fin 8000)) none

/-- The second product of the end-to-end scenario. -/
def unrelatedTool : Product :=
  mkProduct "p2" "Unrelated Tool" "Other" (some (Num.fin 500)) none

/-- A connected integration with marketplace permission. -/
def connectedIntegration : Integration :=
  { id := "i1".toList, permissionsMarketplace := true, connectionStatus := "connected".toList }

/-- A search result with the given name and pricing. -/
def mkResult (productName : String) (pricing : Option Pricing) : ProductMatch :=
  { productId := "r1".toList
    productName := productName.toList
    vendor := "Acme Inc".toList
    productType := "SaaS".toList
    description := none
    pricing := pricing
    availability := "available".toList
    matchScore := Num.fin (9 / 10)
    marketplaceUrl := none
    metadata := none }

/-- A contract of the scenario whose only matching product has no price. -/
def unpricedPro : Product :=
  mkProduct "p3" "Acme Cloud Storage Pro" "Acme Inc" none (some (Num.fin (9 / 10)))

/-- A product of the scenario offered at a price of zero. -/
def freePro : Product :=
  mkProduct "p4" "Acme Cloud Storage Pro" "Acme Inc" (some (Num.fin 0)) (some (Num.fin (9 / 10)))

/-- The opportunity of the end-to-end scenario. -/
def acmeOpportunity : Opportunity :=
  { contract := acmeContract
    currentMonthlyCost := Num.fin 10000
    awsMonthlyCost := Num.fin 8000
    monthlySavings := Num.fin 2000
    annualSavings := Num.fin 24000
    savingsPercentage := Num.fin 20
    awsProduct := acmePro
    hasDirectMatch := true }

/-- A pricing record with a monthly cost of zero. -/
def zeroPricing : Pricing :=
  { monthlyCost := some (Num.fin 0)
    currency := some "USD".toList
    pricingModel := some "Monthly".toList }

/-- A search result of the scenario priced at zero. -/
def freeResult : ProductMatch :=
  mkResult "Acme Cloud Storage Pro" (some zeroPricing)

/-- A price dimension without a USD price. -/
def noUsdDimension : PriceInfo := { usd := none, unit := some "Hrs".toList }

/-- A pricing lookup that answers every request with one entry whose first price dimension
has no USD price. -/
def noUsdLookup (_ : Nat) (_ : PricingRequest) : PricingOutcome :=
  PricingOutcome.priceList
    [{ onDemand := [("term".toList, { priceDimensions := [("dim".toList, noUsdDimension)] })] }]

/-- A gate-passing product of low computed score, without a hint. -/
def acmeTools : Product :=
  mkProduct "p5" "Acme Tools" "Other" (some (Num.fin 100)) none

/-- A product named as the contract of the scenario, without a hint. -/
def acmeExactA : Product :=
  mkProduct "p6" "Acme Cloud Storage" "Other" (some (Num.fin 7000)) none

/-- A second product named as the contract of the scenario, without a hint. -/
def acmeExactB : Product :=
  mkProduct "p7" "Acme Cloud Storage" "Other" (some (Num.fin 7500)) none

/-- A gate-passing product with the hint `0.9`. -/
def hintedHigh : Product :=
  mkProduct "p8" "Acme Backup" "Other" (some (Num.fin 6000)) (some (Num.fin (9 / 10)))

/-- A second gate-passing product with the hint `0.9`. -/
def hintedHighLater : Product :=
  mkProduct "p9" "Acme Archive" "Other" (some (Num.fin 5000)) (some (Num.fin (9 / 10)))

/-- A gate-passing product with the hint `0.5`. -/
def hintedLow : Product :=
  mkProduct "p10" "Acme Notes" "Other" (some (Num.fin 4000)) (some (Num.fin (1 / 2)))

/-- The instant 2025-01-01T00:00:00Z, in milliseconds. -/
def january1 : Int := 1735689600000

/-- An active contract ending on 2025-01-25T00:00:00Z. -/
def januaryContract : Contract :=
  { acmeContract with endDate := some 1737763200000 }

/-- An active contract whose end date is the instant `0`. -/
def expiresNow : Contract :=
  { acmeContract with endDate := some 0 }

/-- The contract of the scenario with a value of zero. -/
def zeroValueContract : Contract :=
  { acmeContract with value := some (Num.fin 0) }

/-- The contract of the end-to-end scenario, ending 20 days after the instant `today`. -/
def scenarioContract (today : Int) : Contract :=
  { acmeContract with endDate := some (today + 20 * msPerDay) }

/-- The opportunity of the end-to-end scenario at the instant `today`. -/
def scenarioOpportunity (today : Int) : Opportunity :=
  { acmeOpportunity with contract := scenarioContract today }

/-- A second expiring marketplace contract. -/
def secondContract : Contract :=
  { acmeContract with id := "c2".toList, name := "Acme Backup".toList }

/-- A search that fails for the first contract and returns one result for the others. -/
def flakySearch (i : Nat) (_ _ : Str) : SearchOutcome :=
  if i = 0 then SearchOutcome.failed else SearchOutcome.returned [freeResult]

/-- A search that returns the same single result for every contract. -/
def sameResultSearch (_ : Nat) (_ _ : Str) : SearchOutcome :=
  SearchOutcome.returned [mkResult "Acme Cloud Storage Pro" none]

/-- A pricing record with a monthly cost of `7000`. -/
def lowerPricing : Pricing :=
  { monthlyCost := some (Num.fin 7000)
    currency := some "USD".toList
    pricingModel := some "Monthly".toList }

/-- A fresh search result for the product id `p1` of the synced product `acmePro`, with a
new price. -/
def repricedResult : ProductMatch :=
  { mkResult "Acme Cloud Storage Pro" (some lowerPricing) with productId := "p1".toList }

/-- A search that returns the repriced result for every contract. -/
def repricedSearch (_ : Nat) (_ _ : Str) : SearchOutcome :=
  SearchOutcome.returned [repricedResult]

/-- The state of the page before the live search, with the given synced products. -/
def stateWith (products : List Product) : SearchState :=
  { searchRecommendations := [], marketplaceProducts := products }

/-- A manual-entry form whose start date and end date are both 2025-01-01. -/
def sameDayForm : FormData :=
  { contractName := "Acme Cloud Storage".toList
    client := "Acme".toList
    value := some (Num.fin 120000)
    status := "Active".toList
    startDate := some 1735689600000
    endDate := some 1735689600000
    contractLength := "0 days".toList
    providerType := "SaaS/Marketplace".toList }

/-- A manual-entry form running from 2025-01-01 to 2026-01-01, 365 days. -/
def oneYearForm : FormData :=
  { sameDayForm with endDate := some 1767225600000, contractLength := [] }

/-- A manual-entry form whose end date is the day before its start date. -/
def backwardsForm : FormData :=
  { sameDayForm with endDate := some 1735603200000 }

/-- A gate-passing product that costs more per month than the contract of the scenario. -/
def expensivePro : Product :=
  mkProduct "p12" "Acme Cloud Storage Pro" "Acme Inc" (some (Num.fin 20000)) none

/-- A contract whose name holds a tab between its two words. -/
def tabContract : Contract :=
  { acmeContract with name := "Big\tData".toList, client := "Zed".toList }

/-- A product named `Data Lake`. -/
def dataLake : Product :=
  mkProduct "p11" "Data Lake" "Other" (some (Num.fin 300)) none

/-- A catalog entity named `Acme Cloud Storage Pro` whose details lookup succeeded. -/
def acmeEntity : CatalogEntity :=
  { entityId := some "e1".toList
    name := some "Acme Cloud Storage Pro".toList
    entityType := some "SaaSProduct".toList
    details :=
      DetailsOutcome.details { truthy := true, json := "[]".toList } (some "Acme Inc".toList) none
    metadataJson := "[]".toList }

/-- An agreement without an offer name. -/
def namelessAgreement : Agreement :=
  { offerName := none
    agreementId := some "a1".toList
    proposerAccountId := none
    agreementType := none
    json := "[]".toList
    metadataJson := "[]".toList }

/-- A pricing service that answers the request for the product family `Software` with one
price of `0.10` USD, and every other request with an empty price list. -/
def tenCentAnswer (_ : Nat) (request : PricingRequest) : PricingOutcome :=
  if request.filterValue = "Software".toList then
    PricingOutcome.priceList
      [{ onDemand := [("term".toList,
          { priceDimensions := [("dim".toList, { usd := some "0.10".toList, unit := none })] })] }]
  else PricingOutcome.priceList []

/-- A catalog entity named as the query `Acme Cloud Storage`, whose details parse to
`null`. -/
def nullDetailsEntity : CatalogEntity :=
  { entityId := some "e2".toList
    name := some "Acme Cloud Storage".toList
    entityType := some "SaaSProduct".toList
    details := DetailsOutcome.details { truthy := false, json := "null".toList } none none
    metadataJson := "[]".toList }

/-- A catalog entity named as the query `Acme Cloud Storage`, whose details lookup
throws. -/
def failedDetailsEntity : CatalogEntity :=
  { nullDetailsEntity with entityId := some "e3".toList, details := DetailsOutcome.failed }

/-- The contract of the scenario with the value `Infinity`. -/
def infiniteValueContract : Contract :=
  { acmeContract with value := some Num.posInf }

/-! ## Lemmas on strings and on the scorer -/

/-- The function `includes` decides contiguous-substring containment. -/
theorem includes_iff_infix (hay needle : Str) :
    includes hay needle = true ↔ needle <:+: hay := by
  induction hay with
  | nil => simp [includes, List.isEmpty_iff]
  | cons c cs ih =>
    unfold includes
    rw [Bool.or_eq_true, ih, List.infix_cons_iff, List.isPrefixOf_iff_prefix]

theorem foldl_count_eq (p : Str → Bool) (l : List Str) (k : Nat) :
    l.foldl (fun m w => if p w then m + 1 else m) k = k + l.countP p := by
  induction l generalizing k with
  | nil => simp
  | cons w l ih =>
    simp only [List.foldl_cons, List.countP_cons]
    rw [ih]
    by_cases h : p w <;> simp [h]; omega

theorem countMatchedWords_eq (queryWords nameWords : List Str) :
    countMatchedWords queryWords nameWords =
      queryWords.countP
        (fun w => nameWords.any (fun nameWord => includes nameWord w || includes w nameWord)) := by
  unfold countMatchedWords
  rw [foldl_count_eq]
  simp

/-- The score of two strings whose normal forms differ, as the capped sum of the three
contributions. -/
theorem calculateMatchScore_of_ne (searchQuery productName : Str) (metadata : Option Metadata)
    (h : trim (toLowerCase productName) ≠ trim (toLowerCase searchQuery)) :
    calculateMatchScore searchQuery productName metadata =
      min (containmentPart (trim (toLowerCase searchQuery)) (trim (toLowerCase productName))
          + wordPart (trim (toLowerCase searchQuery)) (trim (toLowerCase productName))
          + metadataPart (trim (toLowerCase searchQuery)) metadata) 1 := by
  unfold calculateMatchScore
  simp only [if_neg h, countMatchedWords_eq]
  congr 1
  unfold containmentPart wordPart metadataPart matchedCount significantWords
  generalize hW : (List.filter (fun w => decide (w.length > 2))
    (splitWs (trim (toLowerCase searchQuery)))) = W
  by_cases hlen : W.length = 0
  · have hW0 : ¬ (W.length > 0) := by omega
    simp only [hlen, hW0, if_true, if_false]
    cases metadata with
    | none => simp
    | some m =>
      by_cases ht : m.truthy = true <;>
        by_cases hi : includes (toLowerCase m.json) (trim (toLowerCase searchQuery)) = true <;>
        simp [ht, hi]
  · have hW0 : W.length > 0 := by omega
    simp only [hlen, hW0, if_true, if_false]
    cases metadata with
    | none => simp; ring
    | some m =>
      by_cases ht : m.truthy = true <;>
        by_cases hi : includes (toLowerCase m.json) (trim (toLowerCase searchQuery)) = true <;>
        simp [ht, hi] <;> ring

theorem containmentPart_nonneg (q n : Str) : 0 ≤ containmentPart q n := by
  unfold containmentPart
  split <;> norm_num

theorem wordPart_nonneg (q n : Str) : 0 ≤ wordPart q n := by
  unfold wordPart
  split
  · exact le_refl 0
  · positivity

theorem metadataPart_nonneg (q : Str) (metadata : Option Metadata) :
    0 ≤ metadataPart q metadata := by
  unfold metadataPart
  cases metadata with
  | none => exact le_refl 0
  | some m => simp only; split <;> norm_num

theorem toLower_of_isJsWhitespace (c : Char) (h : isJsWhitespace c = true) :
    c.toLower = c := by
  unfold isJsWhitespace at h
  simp only [Bool.or_eq_true, Bool.and_eq_true, beq_iff_eq, decide_eq_true_eq] at h
  unfold Char.toLower
  simp only
  rw [if_neg]
  omega

theorem toLowerCase_of_all_whitespace (w : Str) (h : ∀ c ∈ w, isJsWhitespace c = true) :
    toLowerCase w = w := by
  unfold toLowerCase
  induction w with
  | nil => rfl
  | cons c w ih =>
    simp only [List.map_cons]
    rw [toLower_of_isJsWhitespace c (h c (List.mem_cons_self c w)),
      ih (fun d hd => h d (List.mem_cons_of_mem c hd))]

theorem dropWhile_append_of_all (p : Char → Bool) (a b : Str) (h : ∀ c ∈ a, p c = true) :
    (a ++ b).dropWhile p = b.dropWhile p := by
  induction a with
  | nil => rfl
  | cons c a ih =>
    simp only [List.cons_append, List.dropWhile_cons, h c (List.mem_cons_self c a), if_true]
    exact ih (fun d hd => h d (List.mem_cons_of_mem c hd))

theorem dropWhile_of_all (p : Char → Bool) (a : Str) (h : ∀ c ∈ a, p c = true) :
    a.dropWhile p = [] := by
  have := dropWhile_append_of_all p a [] h
  simpa using this

theorem dropWhile_append_of_not_all (p : Char → Bool) (a b : Str)
    (h : ¬ ∀ c ∈ a, p c = true) :
    (a ++ b).dropWhile p = a.dropWhile p ++ b := by
  induction a with
  | nil => exact absurd (fun c hc => absurd hc (List.not_mem_nil c)) h
  | cons c a ih =>
    by_cases hc : p c = true
    · simp only [List.cons_append, List.dropWhile_cons, hc, if_true]
      apply ih
      intro hall
      apply h
      intro d hd
      rcases List.mem_cons.mp hd with rfl | hd
      · exact hc
      · exact hall d hd
    · simp [List.dropWhile_cons, hc]

/-- Trailing white space does not change the trimmed string. -/
theorem trim_append_whitespace (s w : Str) (h : ∀ c ∈ w, isJsWhitespace c = true) :
    trim (s ++ w) = trim s := by
  unfold trim
  have hrev : ∀ c ∈ w.reverse, isJsWhitespace c = true := fun c hc => h c (List.mem_reverse.mp hc)
  by_cases hs : ∀ c ∈ s, isJsWhitespace c = true
  · rw [dropWhile_append_of_all _ s w hs, dropWhile_of_all _ w h, dropWhile_of_all _ s hs]
  · rw [dropWhile_append_of_not_all _ s w hs, List.reverse_append,
      dropWhile_append_of_all _ _ _ hrev]

/-- The search query of a contract with a blank client has the normal form of the
contract name. -/
theorem normalised_searchQuery_of_blank_client (contract : Contract)
    (h : ∀ c ∈ contract.client, isJsWhitespace c = true) :
    trim (toLowerCase (searchQuery contract)) = trim (toLowerCase contract.name) := by
  have hw : ∀ c ∈ ' ' :: contract.client, isJsWhitespace c = true := by
    intro c hc
    rcases List.mem_cons.mp hc with rfl | hc
    · decide
    · exact h c hc
  have hsplit : toLowerCase (searchQuery contract)
      = toLowerCase contract.name ++ toLowerCase (' ' :: contract.client) := by
    unfold searchQuery toLowerCase
    exact List.map_append _ _ _
  rw [hsplit, toLowerCase_of_all_whitespace _ hw]
  exact trim_append_whitespace _ _ hw

/-! ## Lemmas on the optimization page -/

theorem opportunityOf_eq_some (products : List Product) (contract : Contract)
    (opp : Opportunity) (h : opportunityOf products contract = some opp) :
    ∃ awsProduct m, (sortedProducts contract products).head? = some awsProduct ∧
      numOrNull awsProduct.monthlyCost = some m ∧
      opp =
        { contract := contract
          currentMonthlyCost := Num.div (parseFloat contract.value) (Num.fin 12)
          awsMonthlyCost := parseFloat awsProduct.monthlyCost
          monthlySavings :=
            Num.sub (Num.div (parseFloat contract.value) (Num.fin 12))
              (parseFloat awsProduct.monthlyCost)
          annualSavings :=
            Num.mul (Num.sub (Num.div (parseFloat contract.value) (Num.fin 12))
              (parseFloat awsProduct.monthlyCost)) (Num.fin 12)
          savingsPercentage :=
            Num.mul (Num.div (Num.sub (Num.div (parseFloat contract.value) (Num.fin 12))
              (parseFloat awsProduct.monthlyCost))
              (Num.div (parseFloat contract.value) (Num.fin 12))) (Num.fin 100)
          awsProduct := awsProduct
          hasDirectMatch := true } := by
  unfold opportunityOf at h
  cases hs : (sortedProducts contract products).head? with
  | none => simp [hs] at h
  | some awsProduct =>
    cases hm : numOrNull awsProduct.monthlyCost with
    | none => simp [hs, hm] at h
    | some m =>
      simp only [hs, hm, Option.some.injEq] at h
      exact ⟨awsProduct, m, rfl, hm, h.symm⟩

theorem keepOpportunity_eq_some (o : Option Opportunity) (opp : Opportunity)
    (h : keepOpportunity o = some opp) :
    o = some opp ∧ Num.gt opp.monthlySavings (Num.fin 0) = true := by
  unfold keepOpportunity at h
  cases o with
  | none => simp at h
  | some x =>
    by_cases hg : Num.gt x.monthlySavings (Num.fin 0) = true
    · simp only [hg, if_true, Option.some.injEq] at h
      subst h
      exact ⟨rfl, hg⟩
    · simp [hg] at h

/-- Membership in the list of opportunities. -/
theorem mem_optimizationOpportunities (awsIntegrations : List Integration)
    (expiringContracts : List Contract) (products : List Product) (opp : Opportunity)
    (h : opp ∈ optimizationOpportunities awsIntegrations expiringContracts products) :
    ∃ contract ∈ expiringContracts, opportunityOf products contract = some opp ∧
      Num.gt opp.monthlySavings (Num.fin 0) = true := by
  unfold optimizationOpportunities at h
  by_cases h0 : awsIntegrations.length = 0
  · simp [h0] at h
  · simp only [h0, if_false, List.mem_filterMap, List.mem_map] at h
    obtain ⟨o, ⟨contract, hmem, ho⟩, hk⟩ := h
    have hk2 := keepOpportunity_eq_some o opp hk
    exact ⟨contract, hmem, ho.trans hk2.1, hk2.2⟩

theorem opportunityOf_eq_none_of_no_match (products : List Product) (contract : Contract)
    (h : matchingProducts contract products = []) :
    opportunityOf products contract = none := by
  unfold opportunityOf sortedProducts
  rw [h]
  rfl

theorem opportunityOf_eq_none_of_falsy (products : List Product) (contract : Contract)
    (p : Product) (hp : (sortedProducts contract products).head? = some p)
    (hm : numOrNull p.monthlyCost = none) :
    opportunityOf products contract = none := by
  unfold opportunityOf
  simp only [hp, hm]

theorem no_opportunity_of_none (awsIntegrations : List Integration)
    (expiringContracts : List Contract) (products : List Product) (contract : Contract)
    (h : opportunityOf products contract = none) :
    ∀ opp ∈ optimizationOpportunities awsIntegrations expiringContracts products,
      opp.contract ≠ contract := by
  intro opp hopp heq
  obtain ⟨c, _, hc, _⟩ := mem_optimizationOpportunities _ _ _ _ hopp
  obtain ⟨_, _, _, _, ho⟩ := opportunityOf_eq_some _ _ _ hc
  have hcc : opp.contract = c := by rw [ho]
  rw [hcc] at heq
  rw [heq, h] at hc
  exact Option.noConfusion hc

theorem Num.gt_zero_iff (x : Num) :
    Num.gt x (Num.fin 0) = true ↔ (∃ s : ℚ, x = Num.fin s ∧ 0 < s) ∨ x = Num.posInf := by
  cases x with
  | fin q => simp [Num.gt]
  | nan => simp [Num.gt]
  | posInf => simp [Num.gt]
  | negInf => simp [Num.gt]

theorem acme_scenario :
    optimizationOpportunities [connectedIntegration]
        (getExpiringMarketplaceContractsFromData 0 [acmeContract]) [acmePro, unrelatedTool]
      = [acmeOpportunity] := by
  decide!

/-! ## Theorems on the optimization page -/

/-- C1: for every expiring marketplace contract and every product list, if the product list
is empty, or no product passes the name/vendor gate, or the top-ranked gate-passing product
has a null or absent `monthlyCost`, then the contract gets no opportunity: the per-contract
computation returns `null` and no element of `optimizationOpportunities` belongs to it. -/
theorem no_opportunity_without_priced_match (today : Int) (awsIntegrations : List Integration)
    (contracts : List Contract) (products : List Product) (contract : Contract)
    (_hexp : contract ∈ getExpiringMarketplaceContractsFromData today contracts)
    (h : products = [] ∨ matchingProducts contract products = [] ∨
      ∃ p, (sortedProducts contract products).head? = some p ∧ p.monthlyCost = none) :
    opportunityOf products contract = none ∧
      ∀ opp ∈ optimizationOpportunities awsIntegrations
          (getExpiringMarketplaceContractsFromData today contracts) products,
        opp.contract ≠ contract := by
  have hnone : opportunityOf products contract = none := by
    rcases h with h | h | ⟨p, hp, hm⟩
    · subst h
      exact opportunityOf_eq_none_of_no_match [] contract rfl
    · exact opportunityOf_eq_none_of_no_match products contract h
    · refine opportunityOf_eq_none_of_falsy products contract p hp ?_
      rw [hm]
      rfl
  exact ⟨hnone, no_opportunity_of_none _ _ _ _ hnone⟩

theorem no_opportunity_without_priced_match_witness :
    acmeContract ∈ getExpiringMarketplaceContractsFromData 0 [acmeContract] ∧
      ([unpricedPro, unrelatedTool] = [] ∨
        matchingProducts acmeContract [unpricedPro, unrelatedTool] = [] ∨
        ∃ p, (sortedProducts acmeContract [unpricedPro, unrelatedTool]).head? = some p ∧
          p.monthlyCost = none) ∧
      (opportunityOf [unpricedPro, unrelatedTool] acmeContract = none ∧
        ∀ opp ∈ optimizationOpportunities [connectedIntegration]
            (getExpiringMarketplaceContractsFromData 0 [acmeContract])
            [unpricedPro, unrelatedTool],
          opp.contract ≠ acmeContract) :=
  ⟨by decide!, Or.inr (Or.inr ⟨unpricedPro, by decide!, rfl⟩),
    no_opportunity_without_priced_match 0 [connectedIntegration] [acmeContract]
      [unpricedPro, unrelatedTool] acmeContract (by decide!)
      (Or.inr (Or.inr ⟨unpricedPro, by decide!, rfl⟩))⟩

/-- C2: for every contract list, integration list and product list, every opportunity in
the list returned by `optimizationOpportunities` has `monthlySavings > 0`: the figure is a
positive number (or `+Infinity`), never zero, negative or `NaN`. -/
theorem opportunities_have_positive_savings (today : Int) (awsIntegrations : List Integration)
    (contracts : List Contract) (products : List Product) (opp : Opportunity)
    (hopp : opp ∈ optimizationOpportunities awsIntegrations
      (getExpiringMarketplaceContractsFromData today contracts) products) :
    Num.gt opp.monthlySavings (Num.fin 0) = true ∧
      ((∃ s : ℚ, opp.monthlySavings = Num.fin s ∧ 0 < s) ∨ opp.monthlySavings = Num.posInf) := by
  obtain ⟨_, _, _, hg⟩ := mem_optimizationOpportunities _ _ _ _ hopp
  exact ⟨hg, (Num.gt_zero_iff _).mp hg⟩

theorem opportunities_have_positive_savings_witness :
    acmeOpportunity ∈ optimizationOpportunities [connectedIntegration]
        (getExpiringMarketplaceContractsFromData 0 [acmeContract]) [acmePro, unrelatedTool] ∧
      (Num.gt acmeOpportunity.monthlySavings (Num.fin 0) = true ∧
        ((∃ s : ℚ, acmeOpportunity.monthlySavings = Num.fin s ∧ 0 < s) ∨
          acmeOpportunity.monthlySavings = Num.posInf)) :=
  ⟨by rw [acme_scenario]; exact List.mem_singleton_self _,
    opportunities_have_positive_savings 0 [connectedIntegration] [acmeContract]
      [acmePro, unrelatedTool] acmeOpportunity
      (by rw [acme_scenario]; exact List.mem_singleton_self _)⟩

/-- C3: for every opportunity produced by `optimizationOpportunities` from a contract with
value `v` and a matched product (the top-ranked gate-passing product) with monthly cost
`c`, in exact rational arithmetic: `currentMonthlyCost = v / 12`, `awsMonthlyCost = c`,
`monthlySavings = v / 12 - c`, `annualSavings = 12 * monthlySavings` and
`savingsPercentage = monthlySavings / currentMonthlyCost * 100` (a rational as soon as
`v` is not zero). -/
theorem opportunity_figures (today : Int) (awsIntegrations : List Integration)
    (contracts : List Contract) (products : List Product) (opp : Opportunity) (v c : ℚ)
    (hopp : opp ∈ optimizationOpportunities awsIntegrations
      (getExpiringMarketplaceContractsFromData today contracts) products)
    (hv : opp.contract.value = some (Num.fin v))
    (hc : opp.awsProduct.monthlyCost = some (Num.fin c)) :
    (sortedProducts opp.contract products).head? = some opp.awsProduct ∧
      opp.currentMonthlyCost = Num.fin (v / 12) ∧
      opp.awsMonthlyCost = Num.fin c ∧
      opp.monthlySavings = Num.fin (v / 12 - c) ∧
      opp.annualSavings = Num.fin (12 * (v / 12 - c)) ∧
      opp.savingsPercentage
        = Num.mul (Num.div opp.monthlySavings opp.currentMonthlyCost) (Num.fin 100) ∧
      (v ≠ 0 → opp.savingsPercentage = Num.fin ((v / 12 - c) / (v / 12) * 100)) := by
  obtain ⟨contract, _, ho, _⟩ := mem_optimizationOpportunities _ _ _ _ hopp
  obtain ⟨awsProduct, m, hhead, _, heq⟩ := opportunityOf_eq_some _ _ _ ho
  subst heq
  simp only at hv hc
  have h12 : ¬ ((12 : ℚ) = 0) := by norm_num
  refine ⟨hhead, ?_, ?_, ?_, ?_, rfl, ?_⟩
  · simp only [hv, parseFloat, Num.div, h12, if_false]
  · simp only [hc, parseFloat]
  · simp only [hv, hc, parseFloat, Num.div, Num.sub, h12, if_false]
  · simp only [hv, hc, parseFloat, Num.div, Num.sub, Num.mul, h12, if_false]
    rw [mul_comm]
  · intro hv0
    have hv12 : ¬ (v / 12 = 0) := by
      intro h0
      apply hv0
      field_simp at h0
      exact h0
    simp only [hv, hc, parseFloat, Num.div, Num.sub, Num.mul, h12, hv12, if_false]

theorem opportunity_figures_witness :
    acmeOpportunity ∈ optimizationOpportunities [connectedIntegration]
        (getExpiringMarketplaceContractsFromData 0 [acmeContract]) [acmePro, unrelatedTool] ∧
      acmeOpportunity.contract.value = some (Num.fin 120000) ∧
      acmeOpportunity.awsProduct.monthlyCost = some (Num.fin 8000) ∧
      ((sortedProducts acmeOpportunity.contract [acmePro, unrelatedTool]).head?
          = some acmeOpportunity.awsProduct ∧
        acmeOpportunity.currentMonthlyCost = Num.fin (120000 / 12) ∧
        acmeOpportunity.awsMonthlyCost = Num.fin 8000 ∧
        acmeOpportunity.monthlySavings = Num.fin (120000 / 12 - 8000) ∧
        acmeOpportunity.annualSavings = Num.fin (12 * (120000 / 12 - 8000)) ∧
        acmeOpportunity.savingsPercentage
          = Num.mul (Num.div acmeOpportunity.monthlySavings acmeOpportunity.currentMonthlyCost)
              (Num.fin 100) ∧
        ((120000 : ℚ) ≠ 0 → acmeOpportunity.savingsPercentage
          = Num.fin ((120000 / 12 - 8000) / (120000 / 12) * 100))) :=
  ⟨by rw [acme_scenario]; exact List.mem_singleton_self _, rfl, rfl,
    opportunity_figures 0 [connectedIntegration] [acmeContract] [acmePro, unrelatedTool]
      acmeOpportunity 120000 8000
      (by rw [acme_scenario]; exact List.mem_singleton_self _) rfl rfl⟩

/-- C4, as stated, fails: the product built from a search result whose
`pricing.monthlyCost` is `0` has `monthlyCost = null`, not `0`, and the expiring contract of
value `120000` whose only (hence top-ranked) gate-passing product costs `0` gets no
opportunity at all. -/
theorem zero_price_counterexample :
    freeResult.pricing.bind (fun p => p.monthlyCost) = some (Num.fin 0) ∧
      (convertSearchResult freeResult).monthlyCost = none ∧
      (convertSearchResult freeResult).monthlyCost ≠ some (Num.fin 0) ∧
      acmeContract ∈ getExpiringMarketplaceContractsFromData 0 [acmeContract] ∧
      (sortedProducts acmeContract [freePro, unrelatedTool]).head? = some freePro ∧
      freePro.monthlyCost = some (Num.fin 0) ∧
      optimizationOpportunities [connectedIntegration]
        (getExpiringMarketplaceContractsFromData 0 [acmeContract]) [freePro, unrelatedTool]
        = [] := by
  decide!

/-- C4, amended: a price of exactly zero is treated as an absent price. For every search
result whose `pricing.monthlyCost` is present and equal to `0`, the product built from it in
`performRealTimeSearch` has `monthlyCost = null`, while a present `monthlyCost` that is
neither `0` nor `NaN` is kept as it is; and for an expiring contract whose top-ranked
gate-passing product has `monthlyCost = 0` the engine produces no opportunity, as for an
unpriced product. -/
theorem zero_price_is_absent (result : ProductMatch) (pricing : Pricing) (today : Int)
    (awsIntegrations : List Integration) (contracts : List Contract) (products : List Product)
    (contract : Contract) (p : Product)
    (hpricing : result.pricing = some pricing)
    (_hexp : contract ∈ getExpiringMarketplaceContractsFromData today contracts)
    (hp : (sortedProducts contract products).head? = some p)
    (hzero : p.monthlyCost = some (Num.fin 0)) :
    (pricing.monthlyCost = some (Num.fin 0) → (convertSearchResult result).monthlyCost = none) ∧
      (∀ m : Num, pricing.monthlyCost = some m → m ≠ Num.fin 0 → m ≠ Num.nan →
        (convertSearchResult result).monthlyCost = some m) ∧
      opportunityOf products contract = none ∧
      ∀ opp ∈ optimizationOpportunities awsIntegrations
          (getExpiringMarketplaceContractsFromData today contracts) products,
        opp.contract ≠ contract := by
  have hnone : opportunityOf products contract = none := by
    refine opportunityOf_eq_none_of_falsy products contract p hp ?_
    rw [hzero]
    simp [numOrNull, Num.truthy]
  refine ⟨?_, ?_, hnone, no_opportunity_of_none _ _ _ _ hnone⟩
  · intro h0
    simp [convertSearchResult, hpricing, h0, numOrNull, Num.truthy]
  · intro m hm h0 hnan
    have ht : m.truthy = true := by
      cases m with
      | fin q =>
        have hq : q ≠ 0 := fun e => h0 (by rw [e])
        simp [Num.truthy, hq]
      | nan => exact absurd rfl hnan
      | posInf => rfl
      | negInf => rfl
    simp [convertSearchResult, hpricing, hm, numOrNull, ht]

theorem zero_price_is_absent_witness :
    freeResult.pricing = some zeroPricing ∧
      acmeContract ∈ getExpiringMarketplaceContractsFromData 0 [acmeContract] ∧
      (sortedProducts acmeContract [freePro, unrelatedTool]).head? = some freePro ∧
      freePro.monthlyCost = some (Num.fin 0) ∧
      ((zeroPricing.monthlyCost
          = some (Num.fin 0) → (convertSearchResult freeResult).monthlyCost = none) ∧
        (∀ m : Num, zeroPricing.monthlyCost = some m → m ≠ Num.fin 0 → m ≠ Num.nan →
          (convertSearchResult freeResult).monthlyCost = some m) ∧
        opportunityOf [freePro, unrelatedTool] acmeContract = none ∧
        ∀ opp ∈ optimizationOpportunities [connectedIntegration]
            (getExpiringMarketplaceContractsFromData 0 [acmeContract]) [freePro, unrelatedTool],
          opp.contract ≠ acmeContract) :=
  ⟨rfl, by decide!, by decide!, rfl,
    zero_price_is_absent freeResult zeroPricing 0 [connectedIntegration] [acmeContract]
      [freePro, unrelatedTool] acmeContract freePro rfl (by decide!) (by decide!) rfl⟩

/-- C5, as stated, fails: for a price dimension without a USD price,
`enrichWithPricingData` sets `pricing.monthlyCost` of the result to `0`. -/
theorem missing_usd_counterexample :
    (mkResult "Acme Cloud Storage Pro" none).pricing = none ∧
      noUsdDimension.usd = none ∧
      (enrichWithPricingData noUsdLookup [mkResult "Acme Cloud Storage Pro" none]).map
          (fun r => r.pricing.bind (fun p => p.monthlyCost))
        = [some (Num.fin 0)] := by
  decide!

theorem parseFloatStr_zero : parseFloatStr "0".toList = Num.fin 0 := by
  decide!

theorem getElem?_enrichWithPricingData (send : Nat → PricingRequest → PricingOutcome)
    (results : List ProductMatch) (i : Nat) :
    (enrichWithPricingData send results)[i]?
      = results[i]?.map (fun r => enrichResult (send i (pricingCommand r)) r) := by
  unfold enrichWithPricingData
  rw [List.getElem?_map, List.getElem?_enum]
  cases results[i]? <;> rfl

/-- C5, amended: for every search result for which the pricing lookup returns a price
dimension that has no USD price (`pricePerUnit.USD` missing or empty),
`enrichWithPricingData` sets the result's `pricing.monthlyCost` to `0`, the parsed fallback
string, with currency `USD`; the price is not left absent by this function (the
optimization page maps it to `null` when it builds the product from the result). -/
theorem missing_usd_gives_zero (send : Nat → PricingRequest → PricingOutcome)
    (results : List ProductMatch)
    (i : Nat) (result : ProductMatch) (priceData : PriceData) (entries : List PriceData)
    (termKey : Str) (term : Term) (terms : List (Str × Term))
    (dimensionKey : Str) (priceInfo : PriceInfo) (dimensions : List (Str × PriceInfo))
    (hresult : results[i]? = some result)
    (hsend : send i (pricingCommand result) = PricingOutcome.priceList (priceData :: entries))
    (hterm : priceData.onDemand = (termKey, term) :: terms)
    (hdim : term.priceDimensions = (dimensionKey, priceInfo) :: dimensions)
    (husd : priceInfo.usd = none ∨ priceInfo.usd = some []) :
    ∃ enriched, (enrichWithPricingData send results)[i]? = some enriched ∧
      enriched.pricing = some
        { monthlyCost := some (Num.fin 0)
          currency := some "USD".toList
          pricingModel := some (strOr priceInfo.unit "Monthly".toList) } ∧
      (convertSearchResult enriched).monthlyCost = none := by
  have hstr : strOr priceInfo.usd "0".toList = "0".toList := by
    rcases husd with h | h <;> rw [h] <;> rfl
  have hen : enrichResult (send i (pricingCommand result)) result =
      { result with
        pricing := some
          { monthlyCost := some (Num.fin 0)
            currency := some "USD".toList
            pricingModel := some (strOr priceInfo.unit "Monthly".toList) } } := by
    unfold enrichResult
    rw [hsend]
    simp only [hterm, hdim, hstr, parseFloatStr_zero]
  refine ⟨enrichResult (send i (pricingCommand result)) result, ?_, ?_, ?_⟩
  · rw [getElem?_enrichWithPricingData, hresult]
    rfl
  · rw [hen]
  · rw [hen]
    simp [convertSearchResult, numOrNull, Num.truthy]

theorem missing_usd_gives_zero_witness :
    [mkResult "Acme Cloud Storage Pro" none][0]? = some (mkResult "Acme Cloud Storage Pro" none) ∧
      noUsdLookup 0 (pricingCommand (mkResult "Acme Cloud Storage Pro" none))
        = PricingOutcome.priceList
        [{ onDemand := [("term".toList, { priceDimensions := [("dim".toList, noUsdDimension)] })] }] ∧
      (noUsdDimension.usd = none ∨ noUsdDimension.usd = some []) ∧
      ∃ enriched,
        (enrichWithPricingData noUsdLookup [mkResult "Acme Cloud Storage Pro" none])[0]?
          = some enriched ∧
        enriched.pricing = some
          { monthlyCost := some (Num.fin 0)
            currency := some "USD".toList
            pricingModel := some (strOr noUsdDimension.unit "Monthly".toList) } ∧
        (convertSearchResult enriched).monthlyCost = none :=
  ⟨rfl, rfl, Or.inl rfl,
    missing_usd_gives_zero noUsdLookup [mkResult "Acme Cloud Storage Pro" none] 0
      (mkResult "Acme Cloud Storage Pro" none)
      { onDemand := [("term".toList, { priceDimensions := [("dim".toList, noUsdDimension)] })] }
      [] "term".toList { priceDimensions := [("dim".toList, noUsdDimension)] } []
      "dim".toList noUsdDimension [] rfl rfl rfl rfl (Or.inl rfl)⟩

/-! ## Theorems on the match scorer -/

/-- C6: for every search query, product name and optional metadata value,
`calculateMatchScore` returns a score between `0` and `1`. -/
theorem calculateMatchScore_bounded (searchQuery productName : Str)
    (metadata : Option Metadata) :
    0 ≤ calculateMatchScore searchQuery productName metadata ∧
      calculateMatchScore searchQuery productName metadata ≤ 1 := by
  by_cases h : trim (toLowerCase productName) = trim (toLowerCase searchQuery)
  · have h1 : calculateMatchScore searchQuery productName metadata = 1 := by
      unfold calculateMatchScore
      simp only [if_pos h]
    rw [h1]
    exact ⟨zero_le_one, le_refl 1⟩
  · rw [calculateMatchScore_of_ne searchQuery productName metadata h]
    refine ⟨le_min ?_ zero_le_one, min_le_right _ _⟩
    exact add_nonneg (add_nonneg (containmentPart_nonneg _ _) (wordPart_nonneg _ _))
      (metadataPart_nonneg _ _)

/-- C7: when the query and the product name are equal after lower-casing and trimming,
`calculateMatchScore` returns exactly `1`, whatever the metadata is. -/
theorem calculateMatchScore_exact_match (searchQuery productName : Str)
    (metadata : Option Metadata)
    (h : trim (toLowerCase searchQuery) = trim (toLowerCase productName)) :
    calculateMatchScore searchQuery productName metadata = 1 := by
  unfold calculateMatchScore
  simp only [if_pos h.symm]

theorem calculateMatchScore_exact_match_witness :
    trim (toLowerCase "  SLACK Pro ".toList) = trim (toLowerCase "Slack pro".toList) ∧
      calculateMatchScore "  SLACK Pro ".toList "Slack pro".toList
        (some { truthy := true, json := "[1,2]".toList }) = 1 :=
  ⟨by decide, calculateMatchScore_exact_match _ _ _ (by decide)⟩

/-- C9: for a query `q` and a product name `n` whose lower-cased, trimmed forms `q'` and
`n'` differ, `calculateMatchScore q n m = min 1 (a + b + c)`, with `a = 0.8` when the
containment test succeeds, `b = 0.6 * matched / |W|` over the words `W` of `q'` longer than
two characters (`0` when `W` is empty), and `c = 0.2` when the metadata is present and its
lower-cased serialization contains `q'`. -/
theorem calculateMatchScore_eq_capped_sum (q n : Str) (m : Option Metadata)
    (h : trim (toLowerCase q) ≠ trim (toLowerCase n)) :
    calculateMatchScore q n m =
      min 1 (containmentPart (trim (toLowerCase q)) (trim (toLowerCase n))
        + wordPart (trim (toLowerCase q)) (trim (toLowerCase n))
        + metadataPart (trim (toLowerCase q)) m) := by
  rw [calculateMatchScore_of_ne q n m (fun e => h e.symm)]
  exact min_comm _ _

theorem calculateMatchScore_eq_capped_sum_witness :
    trim (toLowerCase "Acme Cloud Storage".toList) ≠ trim (toLowerCase "Cloud Storage Pro".toList) ∧
      calculateMatchScore "Acme Cloud Storage".toList "Cloud Storage Pro".toList none =
        min 1 (containmentPart (trim (toLowerCase "Acme Cloud Storage".toList))
            (trim (toLowerCase "Cloud Storage Pro".toList))
          + wordPart (trim (toLowerCase "Acme Cloud Storage".toList))
            (trim (toLowerCase "Cloud Storage Pro".toList))
          + metadataPart (trim (toLowerCase "Acme Cloud Storage".toList)) none) :=
  ⟨by decide, calculateMatchScore_eq_capped_sum _ _ _ (by decide)⟩

/-- C10, as stated, fails: the product name `acme` occurs in the query `acme storage`,
the two differ, and the score is `0.3`, below `0.8`. -/
theorem containment_both_directions_counterexample :
    ¬ ∀ (q n : Str) (m : Option Metadata),
        trim (toLowerCase q) ≠ trim (toLowerCase n) → n ≠ [] →
        (includes (trim (toLowerCase q)) (trim (toLowerCase n)) = true ∨
          includes (trim (toLowerCase n)) (trim (toLowerCase q)) = true) →
        8 / 10 ≤ calculateMatchScore q n m := by
  intro hall
  have h := hall "acme storage".toList "acme".toList none (by decide) (by decide)
    (Or.inl (by decide))
  have hv : calculateMatchScore "acme storage".toList "acme".toList none = 3 / 10 := by
    decide!
  rw [hv] at h
  norm_num at h

/-- C10, amended: the `0.8` containment contribution applies in one direction. For a query
and a product name that differ after lower-casing and trimming, when the full query occurs
in the product name `0.8` is added and the score is at least `0.8`; when it does not, no
containment contribution is made (also when the product name occurs in the query) and the
score is the capped sum of the word and metadata contributions. -/
theorem containment_one_direction (q n : Str) (m : Option Metadata)
    (h : trim (toLowerCase q) ≠ trim (toLowerCase n)) :
    (includes (trim (toLowerCase n)) (trim (toLowerCase q)) = true →
        8 / 10 ≤ calculateMatchScore q n m) ∧
    (includes (trim (toLowerCase n)) (trim (toLowerCase q)) = false →
        calculateMatchScore q n m =
          min 1 (wordPart (trim (toLowerCase q)) (trim (toLowerCase n))
            + metadataPart (trim (toLowerCase q)) m)) := by
  rw [calculateMatchScore_of_ne q n m (fun e => h e.symm)]
  constructor
  · intro hin
    have ha : containmentPart (trim (toLowerCase q)) (trim (toLowerCase n)) = 8 / 10 := by
      unfold containmentPart
      simp only [hin, if_true]
    rw [ha]
    refine le_min ?_ (by norm_num)
    have hb := wordPart_nonneg (trim (toLowerCase q)) (trim (toLowerCase n))
    have hc := metadataPart_nonneg (trim (toLowerCase q)) m
    linarith
  · intro hin
    have ha : containmentPart (trim (toLowerCase q)) (trim (toLowerCase n)) = 0 := by
      unfold containmentPart
      simp [hin]
    rw [ha, zero_add]
    exact min_comm _ _

theorem containment_one_direction_witness :
    trim (toLowerCase "Cloud Storage".toList) ≠ trim (toLowerCase "Acme Cloud Storage Pro".toList) ∧
    ((includes (trim (toLowerCase "Acme Cloud Storage Pro".toList))
        (trim (toLowerCase "Cloud Storage".toList)) = true →
        8 / 10 ≤ calculateMatchScore "Cloud Storage".toList "Acme Cloud Storage Pro".toList none) ∧
    (includes (trim (toLowerCase "Acme Cloud Storage Pro".toList))
        (trim (toLowerCase "Cloud Storage".toList)) = false →
        calculateMatchScore "Cloud Storage".toList "Acme Cloud Storage Pro".toList none =
          min 1 (wordPart (trim (toLowerCase "Cloud Storage".toList))
              (trim (toLowerCase "Acme Cloud Storage Pro".toList))
            + metadataPart (trim (toLowerCase "Cloud Storage".toList)) none))) :=
  ⟨by decide, containment_one_direction _ _ _ (by decide)⟩

/-- C8, as stated, fails: the contract named `Slack` with client `Salesforce` and the
product named `Slack` have equal names, the query built from the contract is
`Slack Salesforce`, and the score is `0.3`. -/
theorem live_search_equal_names_counterexample :
    ¬ ∀ (contract : Contract) (productName : Str) (metadata : Option Metadata),
        toLowerCase contract.name = toLowerCase productName →
        calculateMatchScore (searchQuery contract) productName metadata = 1 := by
  intro hall
  have h := hall { acmeContract with name := "Slack".toList, client := "Salesforce".toList }
    "Slack".toList none (by decide)
  have hv : calculateMatchScore
      (searchQuery { acmeContract with name := "Slack".toList, client := "Salesforce".toList })
      "Slack".toList none = 3 / 10 := by
    decide!
  rw [hv] at h
  norm_num at h

/-- C8, amended: for a contract and a product whose names are equal ignoring letter case,
the score obtained in the live search, where the scorer receives the query built from the
contract (its name followed by its client), is `1` when the client of the contract is empty
or consists of white space only, so that the query and the product name have the same
normal form. -/
theorem live_search_equal_names_blank_client (contract : Contract) (productName : Str)
    (metadata : Option Metadata)
    (hname : toLowerCase contract.name = toLowerCase productName)
    (hclient : ∀ c ∈ contract.client, isJsWhitespace c = true) :
    calculateMatchScore (searchQuery contract) productName metadata = 1 := by
  unfold calculateMatchScore
  have hq := normalised_searchQuery_of_blank_client contract hclient
  rw [hname] at hq
  simp only [if_pos hq.symm]

theorem live_search_equal_names_blank_client_witness :
    toLowerCase ({ acmeContract with client := " ".toList } : Contract).name
        = toLowerCase "ACME cloud storage".toList ∧
      (∀ c ∈ ({ acmeContract with client := " ".toList } : Contract).client,
        isJsWhitespace c = true) ∧
      calculateMatchScore (searchQuery { acmeContract with client := " ".toList })
        "ACME cloud storage".toList none = 1 :=
  ⟨by decide, by decide,
    live_search_equal_names_blank_client _ _ _ (by decide) (by decide)⟩

/-! ## Ranking and tie-break -/

theorem numOrZero_ne_nan (x : Option Num) : numOrZero x ≠ Num.nan := by
  unfold numOrZero
  cases x with
  | none => simp
  | some n =>
    cases n <;> simp [Num.truthy]
    split <;> simp

theorem Num.gt_sub_zero (a b : Num) (ha : a ≠ Num.nan) (hb : b ≠ Num.nan) :
    Num.gt (Num.sub b a) (Num.fin 0) = Num.gt b a := by
  cases a <;> cases b <;> simp_all [Num.gt, Num.sub]

theorem Num.gt_irrefl (a : Num) : Num.gt a a = false := by
  cases a <;> simp [Num.gt]

theorem Num.gt_asymm (a b : Num) (h : Num.gt a b = true) : Num.gt b a = false := by
  cases a <;> cases b <;> simp_all [Num.gt]
  exact le_of_lt h

theorem Num.not_gt_trans (a b c : Num) (ha : a ≠ Num.nan) (hb : b ≠ Num.nan) (hc : c ≠ Num.nan)
    (hab : Num.gt a b = false) (hbc : Num.gt b c = false) : Num.gt a c = false := by
  cases a <;> cases b <;> cases c <;> simp_all [Num.gt]
  exact le_trans hab hbc

theorem compareByScore_gt (a b : Product) :
    Num.gt (compareByScore a b) (Num.fin 0) = Num.gt (rankingScore b) (rankingScore a) := by
  unfold compareByScore rankingScore
  exact Num.gt_sub_zero _ _ (numOrZero_ne_nan _) (numOrZero_ne_nan _)

theorem head?_jsInsert {α : Type} (cmp : α → α → Num) (a : α) (l : List α) :
    (jsInsert cmp a l).head? =
      some (match l.head? with
        | none => a
        | some b => if Num.gt (cmp a b) (Num.fin 0) then b else a) := by
  cases l with
  | nil => rfl
  | cons b l =>
    unfold jsInsert
    by_cases h : Num.gt (cmp a b) (Num.fin 0) = true <;> simp [h]

theorem head?_jsSort_cons {α : Type} (cmp : α → α → Num) (a : α) (l : List α) :
    (jsSort cmp (a :: l)).head? =
      some (match (jsSort cmp l).head? with
        | none => a
        | some b => if Num.gt (cmp a b) (Num.fin 0) then b else a) := by
  show (jsInsert cmp a (jsSort cmp l)).head? = _
  exact head?_jsInsert cmp a (jsSort cmp l)

theorem head?_jsSort_eq_none {α : Type} (cmp : α → α → Num) (l : List α)
    (h : (jsSort cmp l).head? = none) : l = [] := by
  cases l with
  | nil => rfl
  | cons a l => rw [head?_jsSort_cons] at h; exact Option.noConfusion h

/-- The head of the sorted products is the earliest product of maximal ranking score. -/
theorem head?_jsSort_compareByScore (l : List Product) (m : Product)
    (h : (jsSort compareByScore l).head? = some m) :
    ∃ pre post, l = pre ++ m :: post ∧
      (∀ x ∈ pre, Num.gt (rankingScore m) (rankingScore x) = true) ∧
      (∀ x ∈ post, Num.gt (rankingScore x) (rankingScore m) = false) := by
  induction l generalizing m with
  | nil => exact Option.noConfusion h
  | cons a l ih =>
    rw [head?_jsSort_cons] at h
    cases hl : (jsSort compareByScore l).head? with
    | none =>
      have hnil := head?_jsSort_eq_none _ _ hl
      subst hnil
      simp only [hl, Option.some.injEq] at h
      subst h
      exact ⟨[], [], rfl, by simp, by simp⟩
    | some b =>
      obtain ⟨pre, post, hdec, hpre, hpost⟩ := ih b hl
      simp only [hl, Option.some.injEq, compareByScore_gt] at h
      by_cases hg : Num.gt (rankingScore b) (rankingScore a) = true
      · simp only [hg, if_true] at h
        subst h
        refine ⟨a :: pre, post, by rw [hdec]; rfl, ?_, hpost⟩
        intro x hx
        rcases List.mem_cons.mp hx with rfl | hx
        · exact hg
        · exact hpre x hx
      · have hg' : Num.gt (rankingScore b) (rankingScore a) = false := by
          simpa using hg
        simp only [hg', Bool.false_eq_true, if_false] at h
        subst h
        refine ⟨[], l, rfl, by simp, ?_⟩
        intro x hx
        rw [hdec] at hx
        have hnn : ∀ p : Product, rankingScore p ≠ Num.nan := fun p => numOrZero_ne_nan _
        rcases List.mem_append.mp hx with hx | hx
        · exact Num.not_gt_trans _ _ _ (hnn x) (hnn b) (hnn a)
            (Num.gt_asymm _ _ (hpre x hx)) hg'
        · rcases List.mem_cons.mp hx with rfl | hx
          · exact hg'
          · exact Num.not_gt_trans _ _ _ (hnn x) (hnn b) (hnn a) (hpost x hx) hg'

theorem mem_of_head?_jsSort (l : List Product) (m : Product)
    (h : (jsSort compareByScore l).head? = some m) : m ∈ l := by
  obtain ⟨pre, post, hdec, _, _⟩ := head?_jsSort_compareByScore l m h
  rw [hdec]
  simp

/-- The earliest product of maximal ranking score is the head of the sorted products. -/
theorem head?_jsSort_of_earliest_maximal (pre post : List Product) (b : Product)
    (hpre : ∀ x ∈ pre, Num.gt (rankingScore b) (rankingScore x) = true)
    (hpost : ∀ x ∈ post, Num.gt (rankingScore x) (rankingScore b) = false) :
    (jsSort compareByScore (pre ++ b :: post)).head? = some b := by
  induction pre with
  | nil =>
    rw [List.nil_append, head?_jsSort_cons]
    cases hl : (jsSort compareByScore post).head? with
    | none => rfl
    | some c =>
      have hc := hpost c (mem_of_head?_jsSort post c hl)
      simp only [compareByScore_gt, hc, Bool.false_eq_true, if_false]
  | cons x pre ih =>
    have ih' := ih (fun y hy => hpre y (List.mem_cons_of_mem x hy))
    rw [List.cons_append, head?_jsSort_cons, ih']
    simp only [compareByScore_gt, hpre x (List.mem_cons_self x pre), if_true]


/-- The gate of the optimization page. -/
theorem mem_matchingProducts (contract : Contract) (products : List Product) (p : Product) :
    p ∈ matchingProducts contract products ↔
      p ∈ products ∧ (nameMatch contract p || vendorMatch contract p) = true := by
  unfold matchingProducts
  exact List.mem_filter

/-- C11, as stated, fails: for the contract `Acme Cloud Storage` and the products
`Acme Tools` and `Acme Cloud Storage`, both gate-passing and both without a hint, the page
selects `Acme Tools`, whose computed score `0.3` is below the computed score `0.6` of the
other product. -/
theorem selected_maximal_computed_score_counterexample :
    ¬ ∀ (today : Int) (contracts : List Contract) (products : List Product)
        (contract : Contract) (p : Product),
        contract ∈ getExpiringMarketplaceContractsFromData today contracts →
        (sortedProducts contract products).head? = some p →
        ∀ q ∈ matchingProducts contract products,
          Num.gt (hintOrComputedScore contract q) (hintOrComputedScore contract p) = false := by
  intro hall
  have h := hall 0 [acmeContract] [acmeTools, acmeExactA] acmeContract acmeTools
    (by decide!) (by decide!) acmeExactA (by decide!)
  revert h
  decide!

/-- C11, amended: for every contract and product list, the product selected as the match of
the contract is a gate-passing product whose ranking score is maximal among all
gate-passing products, where the ranking score of a product is its `matchScore` hint when
the hint is present and `0` when it is absent; a product is selected as soon as one passes
the gate. -/
theorem selected_product_has_maximal_hint (contract : Contract) (products : List Product)
    (p : Product) (h : (sortedProducts contract products).head? = some p) :
    p ∈ products ∧ (nameMatch contract p || vendorMatch contract p) = true ∧
      (∀ q ∈ products, (nameMatch contract q || vendorMatch contract q) = true →
        Num.gt (rankingScore q) (rankingScore p) = false) ∧
      (p.matchScore = none → rankingScore p = Num.fin 0) ∧
      (∀ hint : ℚ, hint ≠ 0 → p.matchScore = some (Num.fin hint) →
        rankingScore p = Num.fin hint) := by
  unfold sortedProducts at h
  obtain ⟨pre, post, hdec, hpre, hpost⟩ := head?_jsSort_compareByScore _ _ h
  have hmem : p ∈ matchingProducts contract products := by
    rw [hdec]
    simp
  have hp := (mem_matchingProducts contract products p).mp hmem
  refine ⟨hp.1, hp.2, ?_, ?_, ?_⟩
  · intro q hq hgate
    have hqm : q ∈ matchingProducts contract products :=
      (mem_matchingProducts contract products q).mpr ⟨hq, hgate⟩
    rw [hdec] at hqm
    rcases List.mem_append.mp hqm with hx | hx
    · exact Num.gt_asymm _ _ (hpre q hx)
    · rcases List.mem_cons.mp hx with rfl | hx
      · exact Num.gt_irrefl _
      · exact hpost q hx
  · intro hnone
    unfold rankingScore
    rw [hnone]
    rfl
  · intro hint hne hsome
    unfold rankingScore
    rw [hsome]
    simp [numOrZero, Num.truthy, hne]

theorem selected_product_has_maximal_hint_witness :
    (sortedProducts acmeContract [hintedLow, unrelatedTool, hintedHigh]).head? = some hintedHigh ∧
      (hintedHigh ∈ [hintedLow, unrelatedTool, hintedHigh] ∧
        (nameMatch acmeContract hintedHigh || vendorMatch acmeContract hintedHigh) = true ∧
        (∀ q ∈ [hintedLow, unrelatedTool, hintedHigh],
          (nameMatch acmeContract q || vendorMatch acmeContract q) = true →
          Num.gt (rankingScore q) (rankingScore hintedHigh) = false) ∧
        (hintedHigh.matchScore = none → rankingScore hintedHigh = Num.fin 0) ∧
        (∀ hint : ℚ, hint ≠ 0 → hintedHigh.matchScore = some (Num.fin hint) →
          rankingScore hintedHigh = Num.fin hint)) :=
  ⟨by decide!, selected_product_has_maximal_hint acmeContract
    [hintedLow, unrelatedTool, hintedHigh] hintedHigh (by decide!)⟩

/-- C12, as stated, fails: for the contract `Acme Cloud Storage` and the gate-passing
products `Acme Tools`, `Acme Cloud Storage` and `Acme Cloud Storage` (none with a hint), the
last two share the maximal score `0.6` that the scorer computes, the earliest of them is the
second product of the list, and the page selects the first product, `Acme Tools`. -/
theorem tie_break_computed_score_counterexample :
    ¬ ∀ (contract : Contract) (pre post : List Product) (b : Product),
        (nameMatch contract b || vendorMatch contract b) = true →
        (∀ x ∈ pre, (nameMatch contract x || vendorMatch contract x) = true →
          Num.gt (hintOrComputedScore contract b) (hintOrComputedScore contract x) = true) →
        (∀ x ∈ post, (nameMatch contract x || vendorMatch contract x) = true →
          Num.gt (hintOrComputedScore contract x) (hintOrComputedScore contract b) = false) →
        (∃ x ∈ post, (nameMatch contract x || vendorMatch contract x) = true ∧
          hintOrComputedScore contract x = hintOrComputedScore contract b) →
        (sortedProducts contract (pre ++ b :: post)).head? = some b := by
  intro hall
  have h := hall acmeContract [acmeTools] [acmeExactB] acmeExactA (by decide!)
    (by decide!) (by decide!) (by decide!)
  revert h
  decide!

/-- C12, amended: for every contract and product list, when several gate-passing products
share the maximal ranking score, the ranking score being the `matchScore` hint when present
and `0` when absent, the product selected as the match is the one of them that appears
earliest in the input product list (every gate-passing product before it ranks strictly
lower, no gate-passing product after it ranks higher); the selection is a function of the
contract and the product list, so evaluating it again selects the same product. -/
theorem tie_break_earliest (contract : Contract) (pre post : List Product) (b : Product)
    (hb : (nameMatch contract b || vendorMatch contract b) = true)
    (hpre : ∀ x ∈ pre, (nameMatch contract x || vendorMatch contract x) = true →
      Num.gt (rankingScore b) (rankingScore x) = true)
    (hpost : ∀ x ∈ post, (nameMatch contract x || vendorMatch contract x) = true →
      Num.gt (rankingScore x) (rankingScore b) = false) :
    (sortedProducts contract (pre ++ b :: post)).head? = some b ∧
      ∀ p q, (sortedProducts contract (pre ++ b :: post)).head? = some p →
        (sortedProducts contract (pre ++ b :: post)).head? = some q → p = q := by
  have hsel : (sortedProducts contract (pre ++ b :: post)).head? = some b := by
    unfold sortedProducts matchingProducts
    rw [List.filter_append, List.filter_cons, if_pos hb]
    apply head?_jsSort_of_earliest_maximal
    · intro x hx
      have hx' := List.mem_filter.mp hx
      exact hpre x hx'.1 hx'.2
    · intro x hx
      have hx' := List.mem_filter.mp hx
      exact hpost x hx'.1 hx'.2
  refine ⟨hsel, ?_⟩
  intro p q hp hq
  rw [hsel] at hp hq
  exact (Option.some.inj hp).symm.trans (Option.some.inj hq)

theorem tie_break_earliest_witness :
    (nameMatch acmeContract hintedHigh || vendorMatch acmeContract hintedHigh) = true ∧
      (∀ x ∈ [hintedLow, unrelatedTool],
        (nameMatch acmeContract x || vendorMatch acmeContract x) = true →
        Num.gt (rankingScore hintedHigh) (rankingScore x) = true) ∧
      (∀ x ∈ [hintedHighLater],
        (nameMatch acmeContract x || vendorMatch acmeContract x) = true →
        Num.gt (rankingScore x) (rankingScore hintedHigh) = false) ∧
      ((sortedProducts acmeContract
          ([hintedLow, unrelatedTool] ++ hintedHigh :: [hintedHighLater])).head?
          = some hintedHigh ∧
        ∀ p q, (sortedProducts acmeContract
            ([hintedLow, unrelatedTool] ++ hintedHigh :: [hintedHighLater])).head? = some p →
          (sortedProducts acmeContract
            ([hintedLow, unrelatedTool] ++ hintedHigh :: [hintedHighLater])).head? = some q →
          p = q) :=
  ⟨by decide!, by decide!, by decide!,
    tie_break_earliest acmeContract [hintedLow, unrelatedTool] [hintedHighLater] hintedHigh
      (by decide!) (by decide!) (by decide!)⟩

/-! ## The renewal window -/

theorem window_test_iff (today bound : Int) (contract : Contract) :
    (decide (contract.status = "Active".toList) &&
      (match contract.endDate with
       | some endDate => decide (endDate > today) && decide (endDate ≤ bound)
       | none => false)) = true ↔
    contract.status = "Active".toList ∧
      ∃ e : Int, contract.endDate = some e ∧ today < e ∧ e ≤ bound := by
  cases hend : contract.endDate with
  | none => simp
  | some e => simp

theorem mem_getExpiringContracts (today : Int) (contracts : List Contract) (c : Contract) :
    c ∈ getExpiringContracts today contracts ↔ c ∈ contracts ∧ inRenewalWindow 30 today c := by
  unfold getExpiringContracts inRenewalWindow msPerDay
  simp only [List.mem_filter, window_test_iff]
  constructor
  · rintro ⟨hc, hs, e, he, h1, h2⟩
    exact ⟨hc, hs, e, he, h1, by omega⟩
  · rintro ⟨hc, hs, e, he, h1, h2⟩
    exact ⟨hc, hs, e, he, h1, by omega⟩

theorem mem_getRenewalContractsFromData (today : Int) (contracts : List Contract)
    (c : Contract) :
    c ∈ getRenewalContractsFromData today contracts ↔
      c ∈ contracts ∧ inRenewalWindow 60 today c := by
  unfold getRenewalContractsFromData inRenewalWindow msPerDay
  simp only [List.mem_filter, window_test_iff]
  constructor
  · rintro ⟨hc, hs, e, he, h1, h2⟩
    exact ⟨hc, hs, e, he, h1, by omega⟩
  · rintro ⟨hc, hs, e, he, h1, h2⟩
    exact ⟨hc, hs, e, he, h1, by omega⟩

theorem mem_getRenewalContracts (today : Int) (awsIntegrations : List Integration)
    (products : List Product) (contracts : List Contract) (rc : RenewalCandidate) :
    rc ∈ getRenewalContracts today awsIntegrations products contracts ↔
      ∃ c, (c ∈ contracts ∧ inRenewalWindow 60 today c) ∧
        renewalCandidateOf today awsIntegrations products c = rc := by
  unfold getRenewalContracts inRenewalWindow msPerDay
  simp only [List.mem_map, List.mem_filter, window_test_iff]
  constructor
  · rintro ⟨c, ⟨hc, hs, e, he, h1, h2⟩, hrc⟩
    exact ⟨c, ⟨hc, hs, e, he, h1, by omega⟩, hrc⟩
  · rintro ⟨c, ⟨hc, hs, e, he, h1, h2⟩, hrc⟩
    exact ⟨c, ⟨hc, hs, e, he, h1, by omega⟩, hrc⟩

theorem mem_getExpiringMarketplaceContractsFromData (today : Int) (contracts : List Contract)
    (c : Contract) :
    c ∈ getExpiringMarketplaceContractsFromData today contracts ↔
      c ∈ contracts ∧ c.providerType = "SaaS/Marketplace".toList ∧
        inRenewalWindow 60 today c := by
  unfold getExpiringMarketplaceContractsFromData inRenewalWindow msPerDay
  simp only [List.mem_filter, Bool.and_eq_true, decide_eq_true_eq]
  have hw := window_test_iff today (today + 60 * 24 * 60 * 60 * 1000) c
  simp only [Bool.and_eq_true, decide_eq_true_eq] at hw
  rw [hw]
  constructor
  · rintro ⟨hc, hp, hs, e, he, h1, h2⟩
    exact ⟨hc, hp, hs, e, he, h1, by omega⟩
  · rintro ⟨hc, hp, hs, e, he, h1, h2⟩
    exact ⟨hc, hp, hs, e, he, h1, by omega⟩

theorem renewalCandidateOf_contract (today : Int) (awsIntegrations : List Integration)
    (products : List Product) (c : Contract) :
    (renewalCandidateOf today awsIntegrations products c).contract = c := rfl

/-- The figures of a renewal candidate whose contract has a valid end date. -/
theorem renewalCandidateOf_daysLeft (today : Int) (awsIntegrations : List Integration)
    (products : List Product) (c : Contract) (e : Int) (he : c.endDate = some e) :
    (renewalCandidateOf today awsIntegrations products c).daysLeft
        = Num.fin ((⌈((e - today : Int) : ℚ) / (msPerDay : ℚ)⌉ : Int) : ℚ) ∧
      (renewalCandidateOf today awsIntegrations products c).urgency
        = if ⌈((e - today : Int) : ℚ) / (msPerDay : ℚ)⌉ ≤ 30 then "high".toList
          else "medium".toList := by
  have hd : ¬ ((1000 * 60 * 60 * 24 : ℚ) = 0) := by norm_num
  have hms : (msPerDay : ℚ) = 1000 * 60 * 60 * 24 := by
    unfold msPerDay
    norm_num
  rw [hms]
  unfold renewalCandidateOf
  simp only [he, dateDifference]
  generalize ((e - today : Int) : ℚ) = y
  simp only [Num.div, hd, if_false, Num.ceil, Num.le]
  generalize ⌈y / (1000 * 60 * 60 * 24)⌉ = k
  refine ⟨trivial, ?_⟩
  have hiff : ((k : ℚ) ≤ 30) ↔ k ≤ 30 := by exact_mod_cast Iff.rfl
  by_cases h30 : k ≤ 30
  · simp only [decide_eq_true_eq, hiff.mpr h30, h30, if_true]
  · have h30' : ¬ ((k : ℚ) ≤ 30) := fun h => h30 (hiff.mp h)
    simp only [decide_eq_true_eq, h30', h30, if_false]

theorem renewal_candidate_nonzero (today : Int) (awsIntegrations : List Integration)
    (products : List Product) (contracts : List Contract) (rc : RenewalCandidate)
    (h : rc ∈ getRenewalContracts today awsIntegrations products contracts) :
    rc.daysLeft ≠ Num.fin 0 := by
  obtain ⟨c, ⟨_, _, e, he, h1, _⟩, heq⟩ := (mem_getRenewalContracts _ _ _ _ _).mp h
  have hfig := (renewalCandidateOf_daysLeft today awsIntegrations products c e he).1
  rw [heq] at hfig
  have hms : (0 : ℚ) < (msPerDay : ℚ) := by
    unfold msPerDay
    norm_num
  have hpos : 0 < ⌈((e - today : Int) : ℚ) / (msPerDay : ℚ)⌉ := by
    apply Int.ceil_pos.mpr
    apply div_pos _ hms
    have : (0 : Int) < e - today := by omega
    exact_mod_cast this
  intro h0
  rw [hfig] at h0
  have := Num.fin.inj h0
  have h00 : ⌈((e - today : Int) : ℚ) / (msPerDay : ℚ)⌉ = 0 := by exact_mod_cast this
  omega

/-- C13: for every contract list, reference instant `t` and horizon (30 days for the
dashboard banner, 60 days for renewal management and optimization eligibility), a contract
is selected by the filter if and only if it is in the list, its status is `Active` and
`t < endDate <= t + h days` (the optimization page also asks for the marketplace provider
type); with `t` = 2025-01-01 an active contract ending 2025-01-25 is selected for `h = 30`
and is in no window shorter than 24 days. -/
theorem renewal_window_iff :
    (∀ (today : Int) (contracts : List Contract) (c : Contract),
      c ∈ getExpiringContracts today contracts ↔
        c ∈ contracts ∧ inRenewalWindow 30 today c) ∧
    (∀ (today : Int) (contracts : List Contract) (c : Contract),
      c ∈ getRenewalContractsFromData today contracts ↔
        c ∈ contracts ∧ inRenewalWindow 60 today c) ∧
    (∀ (today : Int) (awsIntegrations : List Integration) (products : List Product)
        (contracts : List Contract) (c : Contract),
      (∃ rc ∈ getRenewalContracts today awsIntegrations products contracts, rc.contract = c) ↔
        c ∈ contracts ∧ inRenewalWindow 60 today c) ∧
    (∀ (today : Int) (contracts : List Contract) (c : Contract),
      c ∈ getExpiringMarketplaceContractsFromData today contracts ↔
        c ∈ contracts ∧ c.providerType = "SaaS/Marketplace".toList ∧
          inRenewalWindow 60 today c) ∧
    januaryContract ∈ getExpiringContracts january1 [januaryContract] ∧
    inRenewalWindow 30 january1 januaryContract ∧
    (∀ h : Int, h < 24 → ¬ inRenewalWindow h january1 januaryContract) ∧
    (∀ h : Int, 24 ≤ h → inRenewalWindow h january1 januaryContract) := by
  refine ⟨mem_getExpiringContracts, mem_getRenewalContractsFromData, ?_,
    mem_getExpiringMarketplaceContractsFromData, by decide, ?_, ?_, ?_⟩
  · intro today awsIntegrations products contracts c
    constructor
    · rintro ⟨rc, hrc, hc⟩
      obtain ⟨c', hc', heq⟩ := (mem_getRenewalContracts _ _ _ _ _).mp hrc
      rw [← heq, renewalCandidateOf_contract] at hc
      rw [← hc]
      exact hc'
    · intro hc
      exact ⟨renewalCandidateOf today awsIntegrations products c,
        (mem_getRenewalContracts _ _ _ _ _).mpr ⟨c, hc, rfl⟩, rfl⟩
  · refine ⟨by decide, 1737763200000, rfl, ?_, ?_⟩ <;>
      simp only [january1, msPerDay] <;> omega
  · rintro h hlt ⟨_, e, he, _, h2⟩
    have he' : e = 1737763200000 := by
      have : januaryContract.endDate = some 1737763200000 := rfl
      rw [this] at he
      exact (Option.some.inj he).symm
    simp only [january1, msPerDay] at h2
    omega
  · intro h hge
    refine ⟨by decide, 1737763200000, rfl, ?_, ?_⟩ <;>
      simp only [january1, msPerDay] <;> omega

/-- C14: for every candidate returned by `getRenewalContracts` at the reference instant `t`,
`daysLeft = ceil((endDate - t) / one day)` and `urgency` is `high` when `daysLeft <= 30` and
`medium` otherwise; an end date exactly 24 days after `t` gives `daysLeft = 24` and urgency
`high`. -/
theorem renewal_candidate_days_left (today : Int) (awsIntegrations : List Integration)
    (products : List Product) (contracts : List Contract) (rc : RenewalCandidate)
    (h : rc ∈ getRenewalContracts today awsIntegrations products contracts) :
    ∃ e : Int, rc.contract.endDate = some e ∧
      rc.daysLeft = Num.fin ((⌈((e - today : Int) : ℚ) / (msPerDay : ℚ)⌉ : Int) : ℚ) ∧
      rc.urgency = (if ⌈((e - today : Int) : ℚ) / (msPerDay : ℚ)⌉ ≤ 30 then "high".toList
        else "medium".toList) ∧
      (e = today + 24 * msPerDay →
        rc.daysLeft = Num.fin 24 ∧ rc.urgency = "high".toList) := by
  obtain ⟨c, ⟨_, _, e, he, _, _⟩, heq⟩ := (mem_getRenewalContracts _ _ _ _ _).mp h
  have hfig := renewalCandidateOf_daysLeft today awsIntegrations products c e he
  rw [heq] at hfig
  have hc : rc.contract = c := by rw [← heq]; rfl
  refine ⟨e, by rw [hc]; exact he, hfig.1, hfig.2, ?_⟩
  intro h24
  have hx : ((e - today : Int) : ℚ) / (msPerDay : ℚ) = ((24 : Int) : ℚ) := by
    have : e - today = 24 * msPerDay := by omega
    rw [this]
    unfold msPerDay
    push_cast
    norm_num
  have hceil : ⌈((e - today : Int) : ℚ) / (msPerDay : ℚ)⌉ = 24 := by
    rw [hx]
    exact Int.ceil_intCast 24
  rw [hfig.1, hfig.2, hceil]
  exact ⟨by norm_num, by decide⟩

theorem renewal_candidate_days_left_witness :
    renewalCandidateOf january1 [connectedIntegration] [acmePro] januaryContract
        ∈ getRenewalContracts january1 [connectedIntegration] [acmePro] [januaryContract] ∧
      ∃ e : Int,
        (renewalCandidateOf january1 [connectedIntegration] [acmePro]
          januaryContract).contract.endDate = some e ∧
        (renewalCandidateOf january1 [connectedIntegration] [acmePro] januaryContract).daysLeft
          = Num.fin ((⌈((e - january1 : Int) : ℚ) / (msPerDay : ℚ)⌉ : Int) : ℚ) ∧
        (renewalCandidateOf january1 [connectedIntegration] [acmePro] januaryContract).urgency
          = (if ⌈((e - january1 : Int) : ℚ) / (msPerDay : ℚ)⌉ ≤ 30 then "high".toList
            else "medium".toList) ∧
        (e = january1 + 24 * msPerDay →
          (renewalCandidateOf january1 [connectedIntegration] [acmePro]
            januaryContract).daysLeft = Num.fin 24 ∧
          (renewalCandidateOf january1 [connectedIntegration] [acmePro]
            januaryContract).urgency = "high".toList) :=
  ⟨by decide!,
    renewal_candidate_days_left january1 [connectedIntegration] [acmePro] [januaryContract] _
      (by decide!)⟩

/-- C15: every renewal candidate returned by `getRenewalContracts` has status `Active` and
an integer `daysLeft` with `0 < daysLeft <= 60`, for every contract list and reference
instant. -/
theorem renewal_candidate_invariant (today : Int) (awsIntegrations : List Integration)
    (products : List Product) (contracts : List Contract) (rc : RenewalCandidate)
    (h : rc ∈ getRenewalContracts today awsIntegrations products contracts) :
    rc.contract.status = "Active".toList ∧
      ∃ d : Int, rc.daysLeft = Num.fin (d : ℚ) ∧ 0 < d ∧ d ≤ 60 := by
  obtain ⟨c, ⟨_, hs, e, he, h1, h2⟩, heq⟩ := (mem_getRenewalContracts _ _ _ _ _).mp h
  have hfig := renewalCandidateOf_daysLeft today awsIntegrations products c e he
  rw [heq] at hfig
  have hc : rc.contract = c := by rw [← heq]; rfl
  have hms : (0 : ℚ) < (msPerDay : ℚ) := by
    unfold msPerDay
    norm_num
  refine ⟨by rw [hc]; exact hs, _, hfig.1, ?_, ?_⟩
  · apply Int.ceil_pos.mpr
    apply div_pos _ hms
    have : (0 : Int) < e - today := by omega
    exact_mod_cast this
  · apply Int.ceil_le.mpr
    rw [div_le_iff₀ hms]
    have : e - today ≤ 60 * msPerDay := by omega
    exact_mod_cast this

theorem renewal_candidate_invariant_witness :
    renewalCandidateOf january1 [connectedIntegration] [acmePro] januaryContract
        ∈ getRenewalContracts january1 [connectedIntegration] [acmePro] [januaryContract] ∧
      ((renewalCandidateOf january1 [connectedIntegration] [acmePro]
          januaryContract).contract.status = "Active".toList ∧
        ∃ d : Int,
          (renewalCandidateOf january1 [connectedIntegration] [acmePro]
            januaryContract).daysLeft = Num.fin (d : ℚ) ∧ 0 < d ∧ d ≤ 60) :=
  ⟨by decide!,
    renewal_candidate_invariant january1 [connectedIntegration] [acmePro] [januaryContract] _
      (by decide!)⟩

/-- C16, as stated, fails: the active contract whose end date is the reference instant `0`
has `daysLeft` evaluating to `0`, and it is in neither the 60-day renewal list nor the
30-day list of the dashboard. -/
theorem expires_today_counterexample :
    expiresNow.status = "Active".toList ∧
      expiresNow.endDate = some 0 ∧
      (renewalCandidateOf 0 [connectedIntegration] [acmePro] expiresNow).daysLeft = Num.fin 0 ∧
      getRenewalContracts 0 [connectedIntegration] [acmePro] [expiresNow] = [] ∧
      getRenewalContractsFromData 0 [expiresNow] = [] ∧
      getExpiringContracts 0 [expiresNow] = [] := by
  decide!

/-- C16, amended: an active contract whose `daysLeft` evaluates to `0` at the reference
instant (in particular one whose end date equals the reference instant) is not included in
the result for either horizon: the filters require an end date strictly after the reference
instant, and no returned candidate has `daysLeft = 0`. -/
theorem expires_today_excluded (today : Int) (awsIntegrations : List Integration)
    (products : List Product) (contracts : List Contract) (c : Contract)
    (hzero : (renewalCandidateOf today awsIntegrations products c).daysLeft = Num.fin 0) :
    (∀ rc ∈ getRenewalContracts today awsIntegrations products contracts,
        rc.contract ≠ c ∧ rc.daysLeft ≠ Num.fin 0) ∧
      c ∉ getRenewalContractsFromData today contracts ∧
      c ∉ getExpiringContracts today contracts ∧
      (c.endDate = some today →
        (renewalCandidateOf today awsIntegrations products c).daysLeft = Num.fin 0) := by
  have hms : (0 : ℚ) < (msPerDay : ℚ) := by
    unfold msPerDay
    norm_num
  have hout : ∀ h : Int, ¬ inRenewalWindow h today c := by
    rintro h ⟨_, e, he, h1, _⟩
    have hfig := (renewalCandidateOf_daysLeft today awsIntegrations products c e he).1
    rw [hzero] at hfig
    have hceil : ⌈((e - today : Int) : ℚ) / (msPerDay : ℚ)⌉ = 0 := by
      have := Num.fin.inj hfig
      exact_mod_cast this.symm
    have hpos : 0 < ⌈((e - today : Int) : ℚ) / (msPerDay : ℚ)⌉ := by
      apply Int.ceil_pos.mpr
      apply div_pos _ hms
      have : (0 : Int) < e - today := by omega
      exact_mod_cast this
    omega
  refine ⟨?_, ?_, ?_, ?_⟩
  · intro rc hrc
    have hinv := renewal_candidate_nonzero today awsIntegrations products contracts rc hrc
    refine ⟨?_, hinv⟩
    intro hc
    obtain ⟨c', hc', heq⟩ := (mem_getRenewalContracts _ _ _ _ _).mp hrc
    rw [← heq, renewalCandidateOf_contract] at hc
    rw [hc] at hc'
    exact hout 60 hc'.2
  · intro hmem
    exact hout 60 ((mem_getRenewalContractsFromData _ _ _).mp hmem).2
  · intro hmem
    exact hout 30 ((mem_getExpiringContracts _ _ _).mp hmem).2
  · intro _
    exact hzero

theorem expires_today_excluded_witness :
    (renewalCandidateOf 0 [connectedIntegration] [acmePro] expiresNow).daysLeft = Num.fin 0 ∧
      ((∀ rc ∈ getRenewalContracts 0 [connectedIntegration] [acmePro] [expiresNow, acmeContract],
          rc.contract ≠ expiresNow ∧ rc.daysLeft ≠ Num.fin 0) ∧
        expiresNow ∉ getRenewalContractsFromData 0 [expiresNow, acmeContract] ∧
        expiresNow ∉ getExpiringContracts 0 [expiresNow, acmeContract] ∧
        (expiresNow.endDate = some 0 →
          (renewalCandidateOf 0 [connectedIntegration] [acmePro] expiresNow).daysLeft
            = Num.fin 0)) :=
  ⟨by decide!,
    expires_today_excluded 0 [connectedIntegration] [acmePro] [expiresNow, acmeContract]
      expiresNow (by decide!)⟩

/-! ## Malformed contracts and the end-to-end scenario -/

theorem savings_not_positive (value cost : Option Num) (hv : malformedValue value)
    (hc : cost = some Num.posInf ∨ ∃ m : ℚ, 0 ≤ m ∧ cost = some (Num.fin m)) :
    Num.gt (Num.sub (Num.div (parseFloat value) (Num.fin 12)) (parseFloat cost)) (Num.fin 0)
      = false := by
  have h12 : ¬ ((12 : ℚ) = 0) := by norm_num
  have h12' : (0 : ℚ) ≤ 12 := by norm_num
  rcases hv with hv | hv | hv | ⟨v, hv0, hv⟩ <;> rcases hc with hc | ⟨m, hm0, hc⟩ <;>
    subst hv <;> subst hc <;>
    simp only [parseFloat, Num.div, Num.sub, Num.gt, h12, h12', if_true, if_false]
  simp only [decide_eq_false_iff_not, not_lt]
  have : v / 12 ≤ 0 := div_nonpos_of_nonpos_of_nonneg hv0 h12'
  linarith

theorem mem_products_of_head?_sortedProducts (contract : Contract) (products : List Product)
    (p : Product) (h : (sortedProducts contract products).head? = some p) : p ∈ products := by
  unfold sortedProducts at h
  exact ((mem_matchingProducts contract products p).mp (mem_of_head?_jsSort _ _ h)).1

theorem numOrNull_eq_some (x : Option Num) (m : Num) (h : numOrNull x = some m) :
    x = some m ∧ m.truthy = true := by
  unfold numOrNull at h
  cases x with
  | none => exact Option.noConfusion h
  | some n =>
    by_cases ht : n.truthy = true
    · simp only [ht, if_true, Option.some.injEq] at h
      subst h
      exact ⟨rfl, ht⟩
    · simp [ht] at h

/-- A contract with a malformed value gets no opportunity from the engine. -/
theorem keepOpportunity_malformed_value (products : List Product) (contract : Contract)
    (hval : malformedValue contract.value)
    (hprod : ∀ p ∈ products, absentOrNonNegative p.monthlyCost) :
    keepOpportunity (opportunityOf products contract) = none := by
  cases ho : opportunityOf products contract with
  | none => rfl
  | some opp =>
    obtain ⟨awsProduct, m, hhead, hm, heq⟩ := opportunityOf_eq_some _ _ _ ho
    have hmem := mem_products_of_head?_sortedProducts _ _ _ hhead
    have hcost := numOrNull_eq_some _ _ hm
    have hc : awsProduct.monthlyCost = some Num.posInf ∨
        ∃ m : ℚ, 0 ≤ m ∧ awsProduct.monthlyCost = some (Num.fin m) := by
      rcases hprod awsProduct hmem with h | h | h
      · rw [h] at hcost
        exact Option.noConfusion hcost.1
      · exact Or.inl h
      · exact Or.inr h
    have hs := savings_not_positive contract.value awsProduct.monthlyCost hval hc
    unfold keepOpportunity
    simp only [heq, hs, Bool.false_eq_true, if_false]

/-- C17: a malformed contract never yields a savings figure. For every contract whose end
date is unparseable, or whose value is zero, negative or not parseable as a number, and for
every product list whose monthly costs are absent or non-negative,
`optimizationOpportunities` produces no opportunity for that contract. -/
theorem malformed_contract_no_opportunity (today : Int) (awsIntegrations : List Integration)
    (contracts : List Contract) (products : List Product) (contract : Contract)
    (hbad : contract.endDate = none ∨ malformedValue contract.value)
    (hprod : ∀ p ∈ products, absentOrNonNegative p.monthlyCost) :
    ∀ opp ∈ optimizationOpportunities awsIntegrations
        (getExpiringMarketplaceContractsFromData today contracts) products,
      opp.contract ≠ contract := by
  intro opp hopp heq
  obtain ⟨c, hc, ho, hg⟩ := mem_optimizationOpportunities _ _ _ _ hopp
  obtain ⟨_, _, _, _, hfields⟩ := opportunityOf_eq_some _ _ _ ho
  have hcc : opp.contract = c := by rw [hfields]
  rw [hcc] at heq
  subst heq
  rcases hbad with hend | hval
  · obtain ⟨_, _, _, e, he, _, _⟩ := (mem_getExpiringMarketplaceContractsFromData _ _ _).mp hc
    rw [hend] at he
    exact Option.noConfusion he
  · have hk := keepOpportunity_malformed_value products c hval hprod
    rw [ho] at hk
    unfold keepOpportunity at hk
    simp only [hg, if_true] at hk
    exact Option.noConfusion hk

theorem malformed_contract_no_opportunity_witness :
    (zeroValueContract.endDate = none ∨ malformedValue zeroValueContract.value) ∧
      (∀ p ∈ [acmePro, unrelatedTool], absentOrNonNegative p.monthlyCost) ∧
      ∀ opp ∈ optimizationOpportunities [connectedIntegration]
          (getExpiringMarketplaceContractsFromData 0 [zeroValueContract])
          [acmePro, unrelatedTool],
        opp.contract ≠ zeroValueContract :=
  have hbad : zeroValueContract.endDate = none ∨ malformedValue zeroValueContract.value :=
    Or.inr (Or.inr (Or.inr (Or.inr ⟨0, le_refl 0, rfl⟩)))
  have hprod : ∀ p ∈ [acmePro, unrelatedTool], absentOrNonNegative p.monthlyCost := by
    intro p hp
    rcases List.mem_cons.mp hp with rfl | hp
    · exact Or.inr (Or.inr ⟨8000, by norm_num, rfl⟩)
    · rcases List.mem_cons.mp hp with rfl | hp
      · exact Or.inr (Or.inr ⟨500, by norm_num, rfl⟩)
      · exact absurd hp (List.not_mem_nil p)
  ⟨hbad, hprod,
    malformed_contract_no_opportunity 0 [connectedIntegration] [zeroValueContract]
      [acmePro, unrelatedTool] zeroValueContract hbad hprod⟩

/-- The opportunity of a contract depends on its name, client and value only. -/
theorem opportunityOf_congr (products : List Product) (c c' : Contract)
    (hn : c'.name = c.name) (hcl : c'.client = c.client) (hv : c'.value = c.value) :
    opportunityOf products c' =
      (opportunityOf products c).map (fun o => { o with contract := c' }) := by
  have hs : sortedProducts c' products = sortedProducts c products := by
    unfold sortedProducts matchingProducts nameMatch vendorMatch
    rw [hn, hcl]
  unfold opportunityOf
  rw [hs, hv]
  cases (sortedProducts c products).head? with
  | none => rfl
  | some awsProduct =>
    dsimp only
    cases numOrNull awsProduct.monthlyCost with
    | none => rfl
    | some m => rfl

theorem opportunityOf_acme :
    opportunityOf [acmePro, unrelatedTool] acmeContract = some acmeOpportunity := by
  decide!

/-- C19: the end-to-end scenario. For the active `SaaS/Marketplace` contract named
`Acme Cloud Storage` with client `Acme`, value `120000` and end date 20 days after the
reference instant, a connected marketplace integration and the products
`Acme Cloud Storage Pro` (vendor `Acme Inc`, monthly cost `8000`) and `Unrelated Tool`
(vendor `Other`, monthly cost `500`), the engine produces exactly one opportunity, matched
to the first product, with `currentMonthlyCost = 10000`, `awsMonthlyCost = 8000`,
`monthlySavings = 2000`, `annualSavings = 24000` and `savingsPercentage = 20`. -/
theorem end_to_end_scenario (today : Int) :
    (scenarioContract today).name = "Acme Cloud Storage".toList ∧
      (scenarioContract today).client = "Acme".toList ∧
      (scenarioContract today).value = some (Num.fin 120000) ∧
      (scenarioContract today).endDate = some (today + 20 * msPerDay) ∧
      (scenarioContract today).status = "Active".toList ∧
      (scenarioContract today).providerType = "SaaS/Marketplace".toList ∧
      acmePro = mkProduct "p1" "Acme Cloud Storage Pro" "Acme Inc" (some (Num.fin 8000)) none ∧
      unrelatedTool = mkProduct "p2" "Unrelated Tool" "Other" (some (Num.fin 500)) none ∧
      ∃ opp : Opportunity,
        optimizationOpportunities (connectedMarketplaceIntegrations [connectedIntegration])
            (getExpiringMarketplaceContractsFromData today [scenarioContract today])
            [acmePro, unrelatedTool] = [opp] ∧
          opp.contract = scenarioContract today ∧
          opp.awsProduct = acmePro ∧
          opp.currentMonthlyCost = Num.fin 10000 ∧
          opp.awsMonthlyCost = Num.fin 8000 ∧
          opp.monthlySavings = Num.fin 2000 ∧
          opp.annualSavings = Num.fin 24000 ∧
          opp.savingsPercentage = Num.fin 20 := by
  refine ⟨rfl, rfl, rfl, rfl, rfl, rfl, rfl, rfl, scenarioOpportunity today, ?_,
    rfl, rfl, rfl, rfl, rfl, rfl, rfl⟩
  have hexp : getExpiringMarketplaceContractsFromData today [scenarioContract today]
      = [scenarioContract today] := by
    have hmem : scenarioContract today ∈
        getExpiringMarketplaceContractsFromData today [scenarioContract today] := by
      rw [mem_getExpiringMarketplaceContractsFromData]
      refine ⟨List.mem_singleton_self _, rfl, rfl, today + 20 * msPerDay, rfl, ?_, ?_⟩ <;>
        simp only [msPerDay] <;> omega
    unfold getExpiringMarketplaceContractsFromData at hmem ⊢
    rw [List.mem_filter] at hmem
    rw [List.filter_cons, if_pos hmem.2]
    rfl
  have hopp : opportunityOf [acmePro, unrelatedTool] (scenarioContract today)
      = some (scenarioOpportunity today) := by
    rw [opportunityOf_congr [acmePro, unrelatedTool] acmeContract (scenarioContract today)
      rfl rfl rfl, opportunityOf_acme]
    rfl
  have hpos : Num.gt (scenarioOpportunity today).monthlySavings (Num.fin 0) = true := by
    show Num.gt (Num.fin 2000) (Num.fin 0) = true
    decide!
  have hint : connectedMarketplaceIntegrations [connectedIntegration] = [connectedIntegration] := by
    decide
  rw [hexp, hint]
  unfold optimizationOpportunities
  simp only [List.length_singleton, one_ne_zero, if_false, List.map_cons, List.map_nil, hopp,
    List.filterMap_cons, List.filterMap_nil, keepOpportunity, hpos, if_true]

/-! ## The live search -/

theorem getElem?_searchResults (search : Nat → Str → Str → SearchOutcome)
    (connectedIntegration : Integration) (l : List Contract) (i : Nat) :
    (searchResults search connectedIntegration l)[i]? =
      l[i]?.map (searchPromise search connectedIntegration i) := by
  unfold searchResults
  rw [List.getElem?_map, List.getElem?_enum]
  cases l[i]? <;> rfl

theorem performRealTimeSearch_eq (today timestamp : Int)
    (search : Nat → Str → Str → SearchOutcome) (marketplaceProducts : List Product)
    (contractsData : List Contract) (integrationsData : List Integration) (state : SearchState)
    (connectedIntegration : Integration)
    (hci : integrationsData.find? (fun i =>
      i.permissionsMarketplace && decide (i.connectionStatus = "connected".toList))
        = some connectedIntegration)
    (hne : getExpiringMarketplaceContractsFromData today contractsData ≠ []) :
    performRealTimeSearch today timestamp search marketplaceProducts contractsData
        integrationsData state =
      { searchRecommendations := buildRecommendations timestamp
          (searchResults search connectedIntegration
            (getExpiringMarketplaceContractsFromData today contractsData))
        marketplaceProducts := state.marketplaceProducts ++
          uniqueNewProducts marketplaceProducts
            (newProducts (searchResults search connectedIntegration
              (getExpiringMarketplaceContractsFromData today contractsData))) } := by
  have hlen : ¬ (getExpiringMarketplaceContractsFromData today contractsData).length = 0 := by
    intro h0
    exact hne (List.length_eq_zero.mp h0)
  unfold performRealTimeSearch
  simp only [hci, hlen, if_false]

/-- C18: for every list of expiring marketplace contracts and every outcome of the
per-contract searches, `performRealTimeSearch` builds exactly one recommendation record per
contract, in contract order: the record at the position of a contract holds that contract
and its query; it has an empty result list and `totalMatches = 0` when the search of that
contract failed, and exactly the returned list otherwise. -/
theorem one_recommendation_per_contract (today timestamp : Int)
    (search : Nat → Str → Str → SearchOutcome) (marketplaceProducts : List Product)
    (contractsData : List Contract) (integrationsData : List Integration) (state : SearchState)
    (connectedIntegration : Integration) (i : Nat) (contract : Contract)
    (hci : integrationsData.find? (fun i =>
      i.permissionsMarketplace && decide (i.connectionStatus = "connected".toList))
        = some connectedIntegration)
    (hcontract : (getExpiringMarketplaceContractsFromData today contractsData)[i]?
      = some contract) :
    (performRealTimeSearch today timestamp search marketplaceProducts contractsData
        integrationsData state).searchRecommendations.length
      = (getExpiringMarketplaceContractsFromData today contractsData).length ∧
    ∃ r, (performRealTimeSearch today timestamp search marketplaceProducts contractsData
        integrationsData state).searchRecommendations[i]? = some r ∧
      r.contract = contract ∧
      r.searchQuery = searchQuery contract ∧
      (search i connectedIntegration.id (searchQuery contract) = SearchOutcome.failed →
        r.recommendations = [] ∧ r.totalMatches = 0) ∧
      (∀ results,
        search i connectedIntegration.id (searchQuery contract)
          = SearchOutcome.returned results →
        r.recommendations = results ∧ r.totalMatches = results.length) := by
  have hne : getExpiringMarketplaceContractsFromData today contractsData ≠ [] := by
    intro h0
    rw [h0] at hcontract
    exact Option.noConfusion hcontract
  rw [performRealTimeSearch_eq today timestamp search marketplaceProducts contractsData
    integrationsData state connectedIntegration hci hne]
  refine ⟨?_, ?_⟩
  · simp [buildRecommendations, searchResults]
  · have hs := getElem?_searchResults search connectedIntegration
      (getExpiringMarketplaceContractsFromData today contractsData) i
    rw [hcontract] at hs
    refine ⟨⟨(searchPromise search connectedIntegration i contract).contract,
      (searchPromise search connectedIntegration i contract).searchQuery,
      (searchPromise search connectedIntegration i contract).results, timestamp,
      (searchPromise search connectedIntegration i contract).results.length⟩, ?_, ?_⟩
    · show (buildRecommendations timestamp _)[i]? = _
      unfold buildRecommendations
      rw [List.getElem?_map, hs]
      rfl
    · unfold searchPromise
      cases hout : search i connectedIntegration.id (searchQuery contract) with
      | failed => simp
      | returned results => simp

theorem one_recommendation_per_contract_witness :
    [connectedIntegration].find? (fun i =>
        i.permissionsMarketplace && decide (i.connectionStatus = "connected".toList))
      = some connectedIntegration ∧
    (getExpiringMarketplaceContractsFromData 0 [acmeContract, secondContract])[0]?
      = some acmeContract ∧
    ((performRealTimeSearch 0 5 flakySearch [] [acmeContract, secondContract]
        [connectedIntegration] (stateWith [])).searchRecommendations.length
      = (getExpiringMarketplaceContractsFromData 0 [acmeContract, secondContract]).length ∧
    ∃ r, (performRealTimeSearch 0 5 flakySearch [] [acmeContract, secondContract]
        [connectedIntegration] (stateWith [])).searchRecommendations[0]? = some r ∧
      r.contract = acmeContract ∧
      r.searchQuery = searchQuery acmeContract ∧
      (flakySearch 0 connectedIntegration.id (searchQuery acmeContract) = SearchOutcome.failed →
        r.recommendations = [] ∧ r.totalMatches = 0) ∧
      (∀ results,
        flakySearch 0 connectedIntegration.id (searchQuery acmeContract)
          = SearchOutcome.returned results →
        r.recommendations = results ∧ r.totalMatches = results.length)) :=
  ⟨by decide, by decide,
    one_recommendation_per_contract 0 5 flakySearch [] [acmeContract, secondContract]
      [connectedIntegration] (stateWith []) connectedIntegration 0 acmeContract
      (by decide) (by decide)⟩

theorem uniqueNewProducts_nil (fresh : List Product) : uniqueNewProducts [] fresh = fresh := by
  unfold uniqueNewProducts
  simp

/-- The live search that `loadData` starts compares the fresh products with the empty
list, so every fresh product is appended to the synced products, whatever its id. -/
theorem loadData_marketplaceProducts (today timestamp : Int)
    (search : Nat → Str → Str → SearchOutcome) (contractsData : List Contract)
    (integrationsData : List Integration) (productsData : List Product)
    (connectedIntegration : Integration)
    (hci : integrationsData.find? (fun i =>
      i.permissionsMarketplace && decide (i.connectionStatus = "connected".toList))
        = some connectedIntegration)
    (hne : getExpiringMarketplaceContractsFromData today contractsData ≠ []) :
    (loadData today timestamp search contractsData integrationsData productsData).marketplaceProducts
      = productsData ++ newProducts (searchResults search connectedIntegration
          (getExpiringMarketplaceContractsFromData today contractsData)) := by
  have hpos : integrationsData.length > 0 := by
    cases integrationsData with
    | nil => exact Option.noConfusion hci
    | cons a l => exact Nat.succ_pos _
  unfold loadData
  simp only [hpos, if_true]
  rw [performRealTimeSearch_eq today timestamp search [] contractsData integrationsData _
    connectedIntegration hci hne, uniqueNewProducts_nil]

/-- C20 at failing inputs. With no synced product and two expiring marketplace contracts
whose searches both return the product id `r1`, the product list that `loadData` leaves
holds the id `r1` twice. With the synced product `acmePro` (id `p1`) and one contract whose
search returns a repriced record for the id `p1`, the list holds both records, the synced
one and the fresh one, under the one id. -/
theorem merge_keeps_duplicates :
    (loadData 0 5 sameResultSearch [acmeContract, secondContract] [connectedIntegration]
        []).marketplaceProducts.map (fun p => p.productId)
      = ["r1".toList, "r1".toList] ∧
      (convertSearchResult repricedResult).productId = acmePro.productId ∧
      convertSearchResult repricedResult ≠ acmePro ∧
      (loadData 0 5 repricedSearch [acmeContract] [connectedIntegration]
        [acmePro]).marketplaceProducts = [acmePro, convertSearchResult repricedResult] := by
  decide!

/-! ## The score bands of the recommendation card -/

theorem calculateMatchScore_le_one (searchQuery productName : Str)
    (metadata : Option Metadata) :
    calculateMatchScore searchQuery productName metadata ≤ 1 := by
  by_cases h : trim (toLowerCase productName) = trim (toLowerCase searchQuery)
  · unfold calculateMatchScore
    simp only [if_pos h]
    exact le_refl 1
  · rw [calculateMatchScore_of_ne searchQuery productName metadata h]
    exact min_le_right _ _

/-- C30: for every match score `s` that `calculateMatchScore` can return, the recommendation
card puts `s` in its lowest band: `getMatchScoreColor(s)` is `text-text-secondary` and
`getMatchScoreBg(s)` is `bg-muted border-border` (also through `product.matchScore || 0`);
the tests `s >= 80` and `s >= 60` fail for every scorer output. -/
theorem match_score_lowest_band (searchQuery productName : Str) (metadata : Option Metadata) :
    getMatchScoreColor (Num.fin (calculateMatchScore searchQuery productName metadata))
        = "text-text-secondary".toList ∧
      getMatchScoreBg (Num.fin (calculateMatchScore searchQuery productName metadata))
        = "bg-muted border-border".toList ∧
      (∀ product : ProductMatch,
        product.matchScore = Num.fin (calculateMatchScore searchQuery productName metadata) →
        cardMatchScoreBg product = "bg-muted border-border".toList) ∧
      Num.ge (Num.fin (calculateMatchScore searchQuery productName metadata)) (Num.fin 80)
        = false ∧
      Num.ge (Num.fin (calculateMatchScore searchQuery productName metadata)) (Num.fin 60)
        = false := by
  have hb := calculateMatchScore_le_one searchQuery productName metadata
  generalize calculateMatchScore searchQuery productName metadata = s at hb
  have h80 : Num.ge (Num.fin s) (Num.fin 80) = false := by
    simp only [Num.ge, decide_eq_false_iff_not, not_le]
    linarith
  have h60 : Num.ge (Num.fin s) (Num.fin 60) = false := by
    simp only [Num.ge, decide_eq_false_iff_not, not_le]
    linarith
  have hbg : getMatchScoreBg (Num.fin s) = "bg-muted border-border".toList := by
    unfold getMatchScoreBg
    simp only [h80, h60, Bool.false_eq_true, if_false]
  refine ⟨?_, hbg, ?_, h80, h60⟩
  · unfold getMatchScoreColor
    simp only [h80, h60, Bool.false_eq_true, if_false]
  · intro product hp
    unfold cardMatchScoreBg numOrZero
    rw [hp]
    by_cases h0 : s = 0
    · subst h0
      simp only [Num.truthy, ne_eq, not_true_eq_false, decide_False, Bool.false_eq_true,
        if_false]
      exact hbg
    · simp only [Num.truthy, ne_eq, h0, not_false_eq_true, decide_True, if_true]
      exact hbg

/-! ## Empty product names -/

theorem includes_nil (w : Str) : includes w [] = true := by
  cases w <;> rfl

theorem wordPart_empty_name (q : Str) (hw : significantWords q ≠ []) :
    wordPart q [] = 6 / 10 := by
  have hlen : (significantWords q).length ≠ 0 := fun h => hw (List.length_eq_zero.mp h)
  have hcount : matchedCount q [] = (significantWords q).length := by
    unfold matchedCount
    rw [List.countP_eq_length]
    intro w _
    have hs : splitWs [] = [[]] := rfl
    rw [hs]
    simp [includes_nil]
  unfold wordPart
  rw [if_neg hlen, hcount]
  have hpos : ((significantWords q).length : ℚ) ≠ 0 := by exact_mod_cast hlen
  field_simp
  ring

/-- The score against a name that is empty after trimming. -/
theorem score_empty_name (q n : Str) (m : Option Metadata)
    (hw : significantWords (trim (toLowerCase q)) ≠ [])
    (hn : trim (toLowerCase n) = []) :
    6 / 10 ≤ calculateMatchScore q n m := by
  have hne : trim (toLowerCase n) ≠ trim (toLowerCase q) := by
    intro heq
    rw [hn] at heq
    apply hw
    rw [← heq]
    rfl
  rw [calculateMatchScore_of_ne q n m hne, hn, wordPart_empty_name _ hw]
  refine le_min ?_ (by norm_num)
  have ha := containmentPart_nonneg (trim (toLowerCase q)) []
  have hc := metadataPart_nonneg (trim (toLowerCase q)) m
  linarith

/-- C27: for every query with at least one word longer than two characters (among the
white-space separated words of its lower-cased, trimmed form) and every product name that
is empty after trimming, `calculateMatchScore` returns at least `0.6`; hence an agreement
without an offer name passes the `0.3` threshold of `searchActiveAgreements` and is in its
result. -/
theorem empty_name_scores_at_least_six_tenths (q n : Str) (m : Option Metadata)
    (hw : significantWords (trim (toLowerCase q)) ≠ [])
    (hn : trim (toLowerCase n) = []) :
    6 / 10 ≤ calculateMatchScore q n m ∧
      ∀ (now : Str) (agreement : Agreement) (agreements : List Agreement),
        agreement ∈ agreements →
        (agreement.offerName = none ∨ agreement.offerName = some []) →
        ∃ r, agreementResult now q agreement = some r ∧
          r ∈ searchActiveAgreements now q (some agreements) ∧
          r.productName = [] ∧
          ∃ s : ℚ, r.matchScore = Num.fin s ∧ 6 / 10 ≤ s := by
  refine ⟨score_empty_name q n m hw hn, ?_⟩
  intro now agreement agreements hmem hoffer
  have hname : strOr agreement.offerName [] = [] := by
    rcases hoffer with h | h <;> rw [h] <;> rfl
  have hscore := score_empty_name q [] (some { truthy := true, json := agreement.json }) hw rfl
  have hgt : calculateMatchScore q [] (some { truthy := true, json := agreement.json })
      > 3 / 10 := by linarith
  have hres : ∃ r, agreementResult now q agreement = some r ∧ r.productName = [] ∧
      r.matchScore = Num.fin
        (calculateMatchScore q [] (some { truthy := true, json := agreement.json })) := by
    unfold agreementResult agreementResultWith
    simp only [hname, hgt, if_true]
    exact ⟨_, rfl, rfl, rfl⟩
  obtain ⟨r, hr, hpn, hms⟩ := hres
  refine ⟨r, hr, ?_, hpn, _, hms, hscore⟩
  unfold searchActiveAgreements searchActiveAgreementsWith
  exact List.mem_filterMap.mpr ⟨agreement, hmem, hr⟩

theorem empty_name_scores_at_least_six_tenths_witness :
    significantWords (trim (toLowerCase "Acme Cloud Storage Acme".toList)) ≠ [] ∧
      trim (toLowerCase "  ".toList) = [] ∧
      (6 / 10 ≤ calculateMatchScore "Acme Cloud Storage Acme".toList "  ".toList none ∧
        ∀ (now : Str) (agreement : Agreement) (agreements : List Agreement),
          agreement ∈ agreements →
          (agreement.offerName = none ∨ agreement.offerName = some []) →
          ∃ r, agreementResult now "Acme Cloud Storage Acme".toList agreement = some r ∧
            r ∈ searchActiveAgreements now "Acme Cloud Storage Acme".toList (some agreements) ∧
            r.productName = [] ∧
            ∃ s : ℚ, r.matchScore = Num.fin s ∧ 6 / 10 ≤ s) :=
  ⟨by decide, by decide,
    empty_name_scores_at_least_six_tenths _ _ none (by decide) (by decide)⟩

/-! ## Windows and urgency tiers -/

/-- C24: for every contract list and a common reference instant, the contracts selected by
the 30-day filter `getExpiringContracts` of the dashboard are exactly the contracts of the
60-day renewal list whose urgency is `high`. -/
theorem thirty_day_window_is_high_urgency (today : Int) (awsIntegrations : List Integration)
    (products : List Product) (contracts : List Contract) (c : Contract) :
    c ∈ getExpiringContracts today contracts ↔
      ∃ rc ∈ getRenewalContracts today awsIntegrations products contracts,
        rc.contract = c ∧ rc.urgency = "high".toList := by
  have hms : (0 : ℚ) < (msPerDay : ℚ) := by
    unfold msPerDay
    norm_num
  have hkey : ∀ e : Int, ⌈((e - today : Int) : ℚ) / (msPerDay : ℚ)⌉ ≤ 30 ↔
      e ≤ today + 30 * msPerDay := by
    intro e
    rw [Int.ceil_le, div_le_iff₀ hms]
    constructor
    · intro h
      have h' : ((e - today : Int) : ℚ) ≤ ((30 * msPerDay : Int) : ℚ) := by
        push_cast at h ⊢
        exact h
      have := Int.cast_le.mp h'
      omega
    · intro h
      have h' : e - today ≤ 30 * msPerDay := by omega
      have := (Int.cast_le (R := ℚ)).mpr h'
      push_cast at this ⊢
      exact this
  rw [mem_getExpiringContracts]
  constructor
  · rintro ⟨hc, hs, e, he, h1, h2⟩
    have h60 : inRenewalWindow 60 today c := by
      refine ⟨hs, e, he, h1, ?_⟩
      have : (0 : Int) < msPerDay := by unfold msPerDay; norm_num
      nlinarith
    refine ⟨renewalCandidateOf today awsIntegrations products c,
      (mem_getRenewalContracts _ _ _ _ _).mpr ⟨c, ⟨hc, h60⟩, rfl⟩, rfl, ?_⟩
    rw [(renewalCandidateOf_daysLeft today awsIntegrations products c e he).2,
      if_pos ((hkey e).mpr h2)]
  · rintro ⟨rc, hrc, hcontract, hurg⟩
    obtain ⟨c', ⟨hc', hs, e, he, h1, _⟩, heq⟩ := (mem_getRenewalContracts _ _ _ _ _).mp hrc
    have hcc : c' = c := by
      rw [← hcontract, ← heq]
      rfl
    subst hcc
    refine ⟨hc', hs, e, he, h1, ?_⟩
    rw [← heq, (renewalCandidateOf_daysLeft today awsIntegrations products c' e he).2] at hurg
    by_cases h30 : ⌈((e - today : Int) : ℚ) / (msPerDay : ℚ)⌉ ≤ 30
    · exact (hkey e).mp h30
    · rw [if_neg h30] at hurg
      exact absurd hurg (by decide)

/-! ## Bounds on the figures of an opportunity -/

/-- C28, as stated, fails: for the contract of the scenario with the value `Infinity` and
the product `acmePro` of monthly cost `8000`, the opportunity is returned, its
`currentMonthlyCost` is `Infinity` and its `savingsPercentage` is `NaN`, which is not
between `0` and `100`. -/
theorem infinite_value_counterexample :
    (optimizationOpportunities [connectedIntegration]
        (getExpiringMarketplaceContractsFromData 0 [infiniteValueContract]) [acmePro]).map
        (fun opp => (opp.contract.value, opp.awsProduct.monthlyCost, opp.awsMonthlyCost,
          opp.currentMonthlyCost, opp.savingsPercentage))
      = [(some Num.posInf, some (Num.fin 8000), Num.fin 8000, Num.posInf, Num.nan)] ∧
      Num.gt Num.nan (Num.fin 0) = false := by
  decide!

/-- C28, amended: for every opportunity returned by `optimizationOpportunities` whose
matched product has a positive monthly cost `c`, `awsMonthlyCost` is `c`, and either the
contract value is a positive number `v`, `c < currentMonthlyCost = v / 12`, the divisor
`currentMonthlyCost` is not zero and `0 < savingsPercentage ≤ 100`, or the contract value
is `Infinity`, `currentMonthlyCost` is `Infinity` and `savingsPercentage` is `NaN`. In the
exact arithmetic of this development the percentage is below `100`; the bound is stated
as `≤ 100` because the double quotient can round to `100` (value `1.2e17`, cost `1`). -/
theorem opportunity_bounds (today : Int) (awsIntegrations : List Integration)
    (contracts : List Contract) (products : List Product) (opp : Opportunity) (c : ℚ)
    (hopp : opp ∈ optimizationOpportunities awsIntegrations
      (getExpiringMarketplaceContractsFromData today contracts) products)
    (hc : opp.awsProduct.monthlyCost = some (Num.fin c)) (hpos : 0 < c) :
    opp.awsMonthlyCost = Num.fin c ∧
      ((∃ v p : ℚ, opp.contract.value = some (Num.fin v) ∧ 0 < v ∧
          opp.currentMonthlyCost = Num.fin (v / 12) ∧
          c < v / 12 ∧ v / 12 ≠ 0 ∧
          opp.savingsPercentage = Num.fin p ∧ 0 < p ∧ p ≤ 100) ∨
        (opp.contract.value = some Num.posInf ∧
          opp.currentMonthlyCost = Num.posInf ∧
          opp.savingsPercentage = Num.nan)) := by
  obtain ⟨contract, _, ho, hg⟩ := mem_optimizationOpportunities _ _ _ _ hopp
  obtain ⟨awsProduct, m, _, _, heq⟩ := opportunityOf_eq_some _ _ _ ho
  subst heq
  simp only at hc hg ⊢
  have h12 : ¬ ((12 : ℚ) = 0) := by norm_num
  have h12' : (0 : ℚ) ≤ 12 := by norm_num
  rw [hc] at hg ⊢
  refine ⟨rfl, ?_⟩
  cases hv : contract.value with
  | none =>
    rw [hv] at hg
    simp [parseFloat, Num.div, Num.sub, Num.gt] at hg
  | some n =>
    rw [hv] at hg
    cases n with
    | nan => simp [parseFloat, Num.div, Num.sub, Num.gt] at hg
    | negInf => simp [parseFloat, Num.div, Num.sub, Num.gt, h12'] at hg
    | posInf =>
      right
      refine ⟨rfl, ?_, ?_⟩
      · simp only [parseFloat, Num.div, h12', if_true]
      · simp only [parseFloat, Num.div, h12', if_true, Num.sub, Num.mul]
    | fin v =>
      left
      simp only [parseFloat, Num.div, h12, if_false, Num.sub, Num.gt, decide_eq_true_eq] at hg
      have hcur : c < v / 12 := by linarith
      have hcur0 : 0 < v / 12 := by linarith
      have hv0 : 0 < v := by
        have : v = v / 12 * 12 := by ring
        rw [this]
        positivity
      have hne : ¬ (v / 12 = 0) := ne_of_gt hcur0
      refine ⟨v, (v / 12 - c) / (v / 12) * 100, rfl, hv0, ?_, hcur, hne, ?_, ?_, ?_⟩
      · simp only [parseFloat, Num.div, h12, if_false]
      · simp only [parseFloat, Num.div, h12, hne, if_false, Num.sub, Num.mul]
      · have : 0 < (v / 12 - c) / (v / 12) := div_pos hg hcur0
        linarith
      · have : (v / 12 - c) / (v / 12) < 1 := by
          rw [div_lt_one hcur0]
          linarith
        linarith

theorem opportunity_bounds_witness :
    acmeOpportunity ∈ optimizationOpportunities [connectedIntegration]
        (getExpiringMarketplaceContractsFromData 0 [acmeContract]) [acmePro, unrelatedTool] ∧
      acmeOpportunity.awsProduct.monthlyCost = some (Num.fin 8000) ∧
      (0 : ℚ) < 8000 ∧
      acmeOpportunity.awsMonthlyCost = Num.fin 8000 ∧
      ((∃ v p : ℚ, acmeOpportunity.contract.value = some (Num.fin v) ∧ 0 < v ∧
          acmeOpportunity.currentMonthlyCost = Num.fin (v / 12) ∧
          8000 < v / 12 ∧ v / 12 ≠ 0 ∧
          acmeOpportunity.savingsPercentage = Num.fin p ∧ 0 < p ∧ p ≤ 100) ∨
        (acmeOpportunity.contract.value = some Num.posInf ∧
          acmeOpportunity.currentMonthlyCost = Num.posInf ∧
          acmeOpportunity.savingsPercentage = Num.nan)) :=
  ⟨by rw [acme_scenario]; exact List.mem_singleton_self _, rfl, by norm_num,
    opportunity_bounds 0 [connectedIntegration] [acmeContract] [acmePro, unrelatedTool]
      acmeOpportunity 8000 (by rw [acme_scenario]; exact List.mem_singleton_self _) rfl
      (by norm_num)⟩

/-! ## The upload form -/

/-- C21 at a failing input: the manual-entry form whose start date and end date are both
2025-01-01 (and whose other fields are valid) passes `validateForm` with no error on
`endDate`, and `handleSave` builds a payload whose end date equals its start date, not one
strictly after it. The same function rejects the form whose end date is the day before
with the message `End date must be after start date`, and the check of the edit form
rejects the equal dates with that same message. -/
theorem equal_dates_accepted :
    sameDayForm.startDate = some 1735689600000 ∧
      sameDayForm.endDate = some 1735689600000 ∧
      (validateForm "manual".toList sameDayForm false []).2 = true ∧
      (validateForm "manual".toList sameDayForm false []).1.endDate = none ∧
      handleSaveManual sameDayForm false [] = some (manualContractData sameDayForm) ∧
      (manualContractData sameDayForm).endDate = (manualContractData sameDayForm).startDate ∧
      (validateForm "manual".toList backwardsForm false []).1.endDate
        = some "End date must be after start date".toList ∧
      handleSaveManual backwardsForm false [] = none ∧
      editFormEndDateError sameDayForm.startDate sameDayForm.endDate
        = some "End date must be after start date".toList := by
  decide!

/-- C29 at a failing input: for the start date 2025-01-01 and the end date 2026-01-01 the
day difference is `365`, and the page computes `years = 1`, `months = 0` and `days = 5`
(the remainder of `365` by `30`), printing `1 year 5 days`; the printed parts add up to
`370`, not `365`. -/
theorem contract_length_one_year :
    oneYearForm.startDate = some 1735689600000 ∧
      oneYearForm.endDate = some 1767225600000 ∧
      diffDays 1735689600000 1767225600000 = 365 ∧
      lengthYears 365 = 1 ∧ lengthMonths 365 = 0 ∧ lengthDays 365 = 5 ∧
      365 * lengthYears 365 + 30 * lengthMonths 365 + lengthDays 365 = 370 ∧
      contractLengthEffect oneYearForm = some ("1 year 5 days".toList, none) := by
  decide!

/-! ## The savings flag of the renewal view -/

theorem hasAwsOptimization_iff (awsIntegrations : List Integration) (products : List Product)
    (contract : Contract) :
    hasAwsOptimization awsIntegrations products contract = true ↔
      contract.providerType = "SaaS/Marketplace".toList ∧ awsIntegrations ≠ [] ∧
        ∃ p ∈ products, (nameMatch contract p || vendorMatch contract p) = true ∧
          optTruthy p.monthlyCost = true := by
  unfold hasAwsOptimization
  have hfilter : ∀ l : List Product,
      (l.filter (fun product =>
        (renewalNameMatch contract product || renewalVendorMatch contract product) &&
          optTruthy product.monthlyCost)).length > 0 ↔
      ∃ p ∈ l, (nameMatch contract p || vendorMatch contract p) = true ∧
        optTruthy p.monthlyCost = true := by
    intro l
    show 0 < _ ↔ _
    rw [List.length_pos, ne_eq, List.filter_eq_nil_iff]
    constructor
    · intro h
      by_contra hno
      apply h
      intro p hp hsat
      apply hno
      rw [Bool.and_eq_true] at hsat
      exact ⟨p, hp, hsat.1, hsat.2⟩
    · rintro ⟨p, hp, hg, ht⟩ hall
      exact hall p hp (Bool.and_eq_true _ _ ▸ ⟨hg, ht⟩)
  constructor
  · intro h
    by_cases hcond : contract.providerType = "SaaS/Marketplace".toList ∧
        awsIntegrations.length > 0 ∧ products.length > 0
    · rw [if_pos hcond] at h
      refine ⟨hcond.1, List.length_pos.mp hcond.2.1, ?_⟩
      exact (hfilter products).mp (of_decide_eq_true h)
    · rw [if_neg hcond] at h
      exact Bool.noConfusion h
  · rintro ⟨hp, hints, p, hmem, hg, ht⟩
    have hcond : contract.providerType = "SaaS/Marketplace".toList ∧
        awsIntegrations.length > 0 ∧ products.length > 0 :=
      ⟨hp, List.length_pos.mpr hints, List.length_pos.mpr (List.ne_nil_of_mem hmem)⟩
    rw [if_pos hcond]
    exact decide_eq_true ((hfilter products).mpr ⟨p, hmem, hg, ht⟩)

/-- C25, as stated, fails: the contract of the scenario (`10000` a month) with the single
gate-passing product priced at `20000` a month is a renewal candidate flagged
`hasAwsOptimization`, and `optimizationOpportunities` computes no opportunity on the same
data. -/
theorem savings_flag_counterexample :
    renewalCandidateOf 0 [connectedIntegration] [expensivePro] acmeContract
        ∈ getRenewalContracts 0 [connectedIntegration] [expensivePro] [acmeContract] ∧
      (renewalCandidateOf 0 [connectedIntegration] [expensivePro] acmeContract).hasAwsOptimization
        = true ∧
      optimizationOpportunities [connectedIntegration]
        (getExpiringMarketplaceContractsFromData 0 [acmeContract]) [expensivePro] = [] := by
  decide!

/-- C25, amended: the flag of the renewal view is necessary for an opportunity, not
sufficient. For every contract list, connected-integration list and product list, every
contract for which `optimizationOpportunities` computes an opportunity is a renewal
candidate with `hasAwsOptimization = true` on the same data; and the flag of a contract is
true exactly when the contract is of the marketplace type, an integration is connected and
some gate-passing product has a truthy `monthlyCost`. -/
theorem opportunity_implies_savings_flag (today : Int) (awsIntegrations : List Integration)
    (contracts : List Contract) (products : List Product) (opp : Opportunity)
    (hopp : opp ∈ optimizationOpportunities awsIntegrations
      (getExpiringMarketplaceContractsFromData today contracts) products) :
    renewalCandidateOf today awsIntegrations products opp.contract
        ∈ getRenewalContracts today awsIntegrations products contracts ∧
      (renewalCandidateOf today awsIntegrations products opp.contract).hasAwsOptimization
        = true ∧
      ∀ c : Contract,
        (renewalCandidateOf today awsIntegrations products c).hasAwsOptimization = true ↔
          c.providerType = "SaaS/Marketplace".toList ∧ awsIntegrations ≠ [] ∧
            ∃ p ∈ products, (nameMatch c p || vendorMatch c p) = true ∧
              optTruthy p.monthlyCost = true := by
  have hints : awsIntegrations ≠ [] := by
    intro hnil
    subst hnil
    exact absurd hopp (List.not_mem_nil opp)
  obtain ⟨contract, hc, ho, _⟩ := mem_optimizationOpportunities _ _ _ _ hopp
  obtain ⟨awsProduct, m, hhead, hm, heq⟩ := opportunityOf_eq_some _ _ _ ho
  have hcc : opp.contract = contract := by rw [heq]
  rw [hcc]
  obtain ⟨hmem, hprov, hwin⟩ := (mem_getExpiringMarketplaceContractsFromData _ _ _).mp hc
  have hp : awsProduct ∈ matchingProducts contract products := by
    unfold sortedProducts at hhead
    exact mem_of_head?_jsSort _ _ hhead
  have hp' := (mem_matchingProducts contract products awsProduct).mp hp
  have hcost := numOrNull_eq_some _ _ hm
  have htruthy : optTruthy awsProduct.monthlyCost = true := by
    rw [hcost.1]
    exact hcost.2
  refine ⟨(mem_getRenewalContracts _ _ _ _ _).mpr ⟨contract, ⟨hmem, hwin⟩, rfl⟩, ?_, ?_⟩
  · exact (hasAwsOptimization_iff awsIntegrations products contract).mpr
      ⟨hprov, hints, awsProduct, hp'.1, hp'.2, htruthy⟩
  · intro c
    exact hasAwsOptimization_iff awsIntegrations products c

theorem opportunity_implies_savings_flag_witness :
    acmeOpportunity ∈ optimizationOpportunities [connectedIntegration]
        (getExpiringMarketplaceContractsFromData 0 [acmeContract]) [acmePro, unrelatedTool] ∧
      (renewalCandidateOf 0 [connectedIntegration] [acmePro, unrelatedTool]
          acmeOpportunity.contract
        ∈ getRenewalContracts 0 [connectedIntegration] [acmePro, unrelatedTool] [acmeContract] ∧
      (renewalCandidateOf 0 [connectedIntegration] [acmePro, unrelatedTool]
          acmeOpportunity.contract).hasAwsOptimization = true ∧
      ∀ c : Contract,
        (renewalCandidateOf 0 [connectedIntegration] [acmePro, unrelatedTool]
            c).hasAwsOptimization = true ↔
          c.providerType = "SaaS/Marketplace".toList ∧ [connectedIntegration] ≠ [] ∧
            ∃ p ∈ [acmePro, unrelatedTool], (nameMatch c p || vendorMatch c p) = true ∧
              optTruthy p.monthlyCost = true) :=
  ⟨by rw [acme_scenario]; exact List.mem_singleton_self _,
    opportunity_implies_savings_flag 0 [connectedIntegration] [acmeContract]
      [acmePro, unrelatedTool] acmeOpportunity
      (by rw [acme_scenario]; exact List.mem_singleton_self _)⟩

/-! ## The candidate gate -/

theorem isJsWhitespace_toLower (c : Char) :
    isJsWhitespace c.toLower = isJsWhitespace c := by
  by_cases h : 65 ≤ c.toNat ∧ c.toNat ≤ 90
  · have hc : c = Char.ofNat c.toNat := (Char.ofNat_toNat c).symm
    obtain ⟨h1, h2⟩ := h
    generalize c.toNat = n at hc h1 h2
    subst hc
    interval_cases n <;> decide
  · have : c.toLower = c := by
      unfold Char.toLower
      simp only
      rw [if_neg]
      intro hh
      exact h hh
    rw [this]

theorem only_spaces_toLowerCase (s : Str)
    (h : ∀ c ∈ s, isJsWhitespace c = true → c = ' ') :
    ∀ c ∈ toLowerCase s, isJsWhitespace c = true → c = ' ' := by
  intro c hc hws
  unfold toLowerCase at hc
  obtain ⟨d, hd, rfl⟩ := List.mem_map.mp hc
  rw [isJsWhitespace_toLower] at hws
  rw [h d hd hws]
  rfl

/-- On a string whose only white space is the space character, splitting at white space and
splitting at single spaces give the same words longer than two characters. -/
theorem filter_splitWsAux_eq (s cur : Str) (inWs : Bool)
    (hs : ∀ c ∈ s, isJsWhitespace c = true → c = ' ')
    (hinv : inWs = true → cur = []) :
    (splitWsAux s cur inWs).filter (fun w => decide (w.length > 2)) =
      (splitSpaceAux s cur).filter (fun w => decide (w.length > 2)) := by
  induction s generalizing cur inWs with
  | nil => rfl
  | cons c cs ih =>
    have hcs : ∀ d ∈ cs, isJsWhitespace d = true → d = ' ' :=
      fun d hd => hs d (List.mem_cons_of_mem c hd)
    have hsp : isJsWhitespace ' ' = true := by decide
    unfold splitWsAux splitSpaceAux
    by_cases hw : isJsWhitespace c = true
    · have hc : c = ' ' := hs c (List.mem_cons_self c cs) hw
      subst hc
      simp only [hsp, if_true]
      cases inWs with
      | true =>
        have hcur := hinv rfl
        subst hcur
        simp only [if_true, List.reverse_nil]
        rw [ih [] true hcs (fun _ => rfl)]
        rfl
      | false =>
        simp only [Bool.false_eq_true, if_false, List.filter_cons]
        rw [ih [] true hcs (fun _ => rfl)]
    · have hc : ¬ c = ' ' := by
        intro h
        apply hw
        rw [h]
        exact hsp
      simp only [hw, hc, Bool.false_eq_true, if_false]
      exact ih (c :: cur) false hcs (fun h => Bool.noConfusion h)

theorem any_significant_eq (l : List Str) (f : Str → Bool) :
    l.any (fun w => decide (w.length > 2) && f w) =
      (l.filter (fun w => decide (w.length > 2))).any f := by
  induction l with
  | nil => rfl
  | cons w l ih =>
    rw [List.any_cons, List.filter_cons]
    by_cases h : w.length > 2
    · rw [if_pos (decide_eq_true h), List.any_cons, ih, decide_eq_true h, Bool.true_and]
    · rw [if_neg (fun hd => h (of_decide_eq_true hd)), ih, decide_eq_false h, Bool.false_and,
        Bool.false_or]

theorem any_word_iff (l : List Str) (hay : Str) :
    l.any (fun word => decide (word.length > 2) && includes hay word) = true ↔
      ∃ w ∈ l, w.length > 2 ∧ w <:+: hay := by
  rw [List.any_eq_true]
  constructor
  · rintro ⟨w, hw, hsat⟩
    rw [Bool.and_eq_true, decide_eq_true_eq, includes_iff_infix] at hsat
    exact ⟨w, hw, hsat.1, hsat.2⟩
  · rintro ⟨w, hw, hlen, hin⟩
    refine ⟨w, hw, ?_⟩
    rw [Bool.and_eq_true, decide_eq_true_eq, includes_iff_infix]
    exact ⟨hlen, hin⟩

/-- C22, as stated, fails: for the contract named `Big<tab>Data` with client `Zed` and the
product `Data Lake` of vendor `Other`, the white-space separated word `data` of the name
occurs in the product name, yet the product does not pass the gate of either page, which
splits the name at single spaces into the one word `big<tab>data`. -/
theorem whitespace_gate_counterexample :
    ¬ ∀ (contract : Contract) (product : Product),
        (nameMatch contract product || vendorMatch contract product) = true ↔
          whitespaceGate contract product = true := by
  intro hall
  have h := (hall tabContract dataLake).mpr (by decide)
  revert h
  decide

/-- C22, amended: a product passes the candidate gate for a contract if and only if some
space-separated word (a piece of the string between single space characters) of the
lower-cased contract name that is longer than two characters occurs as a substring of the
lower-cased product name, or some such word of the lower-cased contract client occurs in
the lower-cased vendor; when the contract name and client hold no white space other than
the space character these are the white-space separated words. The optimization page and
the renewal-management page apply the same name/vendor test. -/
theorem gate_iff_space_separated_word (contract : Contract) (product : Product) :
    ((nameMatch contract product || vendorMatch contract product) = true ↔
      (∃ w ∈ splitSpace (toLowerCase contract.name),
          w.length > 2 ∧ w <:+: toLowerCase product.productName) ∨
        (∃ w ∈ splitSpace (toLowerCase contract.client),
          w.length > 2 ∧ w <:+: toLowerCase product.vendor)) ∧
      ((renewalNameMatch contract product || renewalVendorMatch contract product)
        = (nameMatch contract product || vendorMatch contract product)) ∧
      ((∀ c ∈ contract.name ++ contract.client, isJsWhitespace c = true → c = ' ') →
        (nameMatch contract product || vendorMatch contract product)
          = whitespaceGate contract product) := by
  refine ⟨?_, rfl, ?_⟩
  · unfold nameMatch vendorMatch
    simp only [Bool.or_eq_true, any_word_iff]
  · intro hsp
    have hname : ∀ c ∈ contract.name, isJsWhitespace c = true → c = ' ' :=
      fun c hc => hsp c (List.mem_append_left _ hc)
    have hclient : ∀ c ∈ contract.client, isJsWhitespace c = true → c = ' ' :=
      fun c hc => hsp c (List.mem_append_right _ hc)
    have h1 := filter_splitWsAux_eq (toLowerCase contract.name) [] false
      (only_spaces_toLowerCase _ hname) (fun h => Bool.noConfusion h)
    have h2 := filter_splitWsAux_eq (toLowerCase contract.client) [] false
      (only_spaces_toLowerCase _ hclient) (fun h => Bool.noConfusion h)
    unfold nameMatch vendorMatch whitespaceGate splitSpace splitWs
    simp only [any_significant_eq]
    rw [h1, h2]

/-! ## The search function -/

theorem jsInsert_perm {α : Type} (cmp : α → α → Num) (a : α) (l : List α) :
    (jsInsert cmp a l).Perm (a :: l) := by
  induction l with
  | nil => exact List.Perm.refl _
  | cons b l ih =>
    unfold jsInsert
    by_cases h : Num.gt (cmp a b) (Num.fin 0) = true
    · rw [if_pos h]
      exact (List.Perm.cons b ih).trans (List.Perm.swap a b l)
    · rw [if_neg h]

theorem jsSort_perm {α : Type} (cmp : α → α → Num) (l : List α) :
    (jsSort cmp l).Perm l := by
  induction l with
  | nil => exact List.Perm.refl _
  | cons a l ih =>
    show (jsInsert cmp a (jsSort cmp l)).Perm (a :: l)
    exact (jsInsert_perm cmp a (jsSort cmp l)).trans (List.Perm.cons a ih)

theorem compareMatches_gt (a b : ProductMatch) (ha : a.matchScore ≠ Num.nan)
    (hb : b.matchScore ≠ Num.nan) :
    Num.gt (compareMatches a b) (Num.fin 0) = Num.gt b.matchScore a.matchScore := by
  unfold compareMatches
  exact Num.gt_sub_zero _ _ ha hb

theorem jsInsert_descending (a : ProductMatch) (l : List ProductMatch)
    (ha : a.matchScore ≠ Num.nan) (hl : ∀ x ∈ l, x.matchScore ≠ Num.nan)
    (hs : l.Pairwise (fun x y => Num.gt y.matchScore x.matchScore = false)) :
    (jsInsert compareMatches a l).Pairwise
      (fun x y => Num.gt y.matchScore x.matchScore = false) := by
  induction l with
  | nil => exact List.pairwise_singleton _ _
  | cons b l ih =>
    have hb := hl b (List.mem_cons_self b l)
    have hl' : ∀ x ∈ l, x.matchScore ≠ Num.nan := fun x hx => hl x (List.mem_cons_of_mem b hx)
    obtain ⟨hbl, hsl⟩ := List.pairwise_cons.mp hs
    unfold jsInsert
    rw [compareMatches_gt a b ha hb]
    by_cases h : Num.gt b.matchScore a.matchScore = true
    · rw [if_pos h]
      refine List.pairwise_cons.mpr ⟨?_, ih hl' hsl⟩
      intro x hx
      rcases List.mem_cons.mp ((jsInsert_perm compareMatches a l).subset hx) with rfl | hx
      · exact Num.gt_asymm _ _ h
      · exact hbl x hx
    · have h' : Num.gt b.matchScore a.matchScore = false := by simpa using h
      rw [if_neg h]
      refine List.pairwise_cons.mpr ⟨?_, hs⟩
      intro x hx
      rcases List.mem_cons.mp hx with rfl | hx
      · exact h'
      · exact Num.not_gt_trans _ _ _ (hl' x hx) hb ha (hbl x hx) h'

theorem jsSort_descending (l : List ProductMatch) (hl : ∀ x ∈ l, x.matchScore ≠ Num.nan) :
    (jsSort compareMatches l).Pairwise
      (fun x y => Num.gt y.matchScore x.matchScore = false) := by
  induction l with
  | nil => exact List.Pairwise.nil
  | cons a l ih =>
    have hl' : ∀ x ∈ l, x.matchScore ≠ Num.nan := fun x hx => hl x (List.mem_cons_of_mem a hx)
    show (jsInsert compareMatches a (jsSort compareMatches l)).Pairwise _
    apply jsInsert_descending a _ (hl a (List.mem_cons_self a l))
    · intro x hx
      exact hl' x ((jsSort_perm compareMatches l).subset hx)
    · exact ih hl'

theorem enrichResult_pricing (outcome : PricingOutcome) (r : ProductMatch) :
    (enrichResult outcome r).pricing =
      match pricingOf outcome with
      | some p => some p
      | none => r.pricing := by
  unfold enrichResult pricingOf
  cases outcome with
  | failed => rfl
  | priceList entries =>
    cases entries with
    | nil => rfl
    | cons priceData rest =>
      simp only
      cases priceData.onDemand with
      | nil => rfl
      | cons t ts =>
        obtain ⟨tk, term⟩ := t
        simp only
        cases term.priceDimensions with
        | nil => rfl
        | cons d ds =>
          obtain ⟨dk, priceInfo⟩ := d
          rfl

theorem enrichResult_matchScore (outcome : PricingOutcome) (r : ProductMatch) :
    (enrichResult outcome r).matchScore = r.matchScore := by
  unfold enrichResult
  cases outcome with
  | failed => rfl
  | priceList entries =>
    cases entries with
    | nil => rfl
    | cons priceData rest =>
      simp only
      cases priceData.onDemand with
      | nil => rfl
      | cons t ts =>
        obtain ⟨tk, term⟩ := t
        simp only
        cases term.priceDimensions with
        | nil => rfl
        | cons d ds =>
          obtain ⟨dk, priceInfo⟩ := d
          rfl

theorem mem_enrichWithPricingData (send : Nat → PricingRequest → PricingOutcome)
    (results : List ProductMatch) (r : ProductMatch)
    (h : r ∈ enrichWithPricingData send results) :
    ∃ i, ∃ r0 ∈ results, r = enrichResult (send i (pricingCommand r0)) r0 := by
  unfold enrichWithPricingData at h
  obtain ⟨⟨i, r0⟩, hmem, heq⟩ := List.mem_map.mp h
  have hget : results[i]? = some r0 := List.mk_mem_enum_iff_getElem?.mp hmem
  exact ⟨i, r0, List.mem_iff_getElem?.mpr ⟨i, hget⟩, heq.symm⟩

theorem catalogResultWith_eq_some (score : Str → Str → Option Metadata → ℚ) (now q : Str)
    (entity : CatalogEntity) (r : ProductMatch)
    (h : catalogResultWith score now q entity = some r) :
    ∃ detailsJson vendorName description,
      entity.details = DetailsOutcome.details detailsJson vendorName description ∧
      isNull detailsJson = false ∧
      score q (strOr entity.name []) (some detailsJson) > 3 / 10 ∧
      r.matchScore = Num.fin (score q (strOr entity.name []) (some detailsJson)) ∧
      r.productName = strOr entity.name "Unknown Product".toList ∧
      r.pricing = none := by
  unfold catalogResultWith at h
  cases hd : entity.details with
  | failed =>
    rw [hd] at h
    exact Option.noConfusion h
  | details detailsJson vendorName description =>
    rw [hd] at h
    simp only at h
    by_cases hs : score q (strOr entity.name []) (some detailsJson) > 3 / 10
    · rw [if_pos hs] at h
      cases hn : isNull detailsJson with
      | true =>
        rw [hn] at h
        exact Option.noConfusion h
      | false =>
        rw [hn] at h
        have hr := (Option.some.inj h).symm
        subst hr
        exact ⟨detailsJson, vendorName, description, rfl, hn, hs, rfl, rfl, rfl⟩
    · rw [if_neg hs] at h
      exact Option.noConfusion h

theorem agreementResultWith_eq_some (score : Str → Str → Option Metadata → ℚ) (now q : Str)
    (agreement : Agreement) (r : ProductMatch)
    (h : agreementResultWith score now q agreement = some r) :
    score q (strOr agreement.offerName [])
        (some { truthy := true, json := agreement.json }) > 3 / 10 ∧
      r.matchScore = Num.fin (score q (strOr agreement.offerName [])
        (some { truthy := true, json := agreement.json })) ∧
      r.productName = strOr agreement.offerName [] ∧
      r.pricing = none := by
  unfold agreementResultWith at h
  simp only at h
  by_cases hs : score q (strOr agreement.offerName [])
      (some { truthy := true, json := agreement.json }) > 3 / 10
  · rw [if_pos hs] at h
    have hr := (Option.some.inj h).symm
    subst hr
    exact ⟨hs, rfl, rfl, rfl⟩
  · rw [if_neg hs] at h
    exact Option.noConfusion h

/-- The candidates: the results that the two loops push. -/
theorem mem_collectResultsWith (score : Str → Str → Option Metadata → ℚ) (now q : Str)
    (catalog : Option (List CatalogEntity)) (agreements : Option (List Agreement))
    (r : ProductMatch) :
    r ∈ collectResultsWith score now q catalog agreements ↔
      (∃ entity ∈ catalog.getD [], catalogResultWith score now q entity = some r) ∨
        (∃ agreement ∈ agreements.getD [],
          agreementResultWith score now q agreement = some r) := by
  unfold collectResultsWith searchMarketplaceCatalogWith searchActiveAgreementsWith
  rw [List.mem_append]
  cases catalog <;> cases agreements <;> simp [List.mem_filterMap]

theorem collectResultsWith_score (score : Str → Str → Option Metadata → ℚ) (now q : Str)
    (catalog : Option (List CatalogEntity)) (agreements : Option (List Agreement))
    (r : ProductMatch) (h : r ∈ collectResultsWith score now q catalog agreements) :
    (∃ s : ℚ, r.matchScore = Num.fin s ∧ 3 / 10 < s) ∧ r.pricing = none := by
  rcases (mem_collectResultsWith score now q catalog agreements r).mp h with
    ⟨e, _, he⟩ | ⟨a, _, ha⟩
  · obtain ⟨_, _, _, _, _, hs, hm, _, hp⟩ := catalogResultWith_eq_some score now q e r he
    exact ⟨⟨_, hm, hs⟩, hp⟩
  · obtain ⟨hs, hm, _, hp⟩ := agreementResultWith_eq_some score now q a r ha
    exact ⟨⟨_, hm, hs⟩, hp⟩

theorem enriched_score (score : Str → Str → Option Metadata → ℚ) (now q : Str)
    (catalog : Option (List CatalogEntity)) (agreements : Option (List Agreement))
    (send : Nat → PricingRequest → PricingOutcome) (r : ProductMatch)
    (h : r ∈ enrichWithPricingData send (collectResultsWith score now q catalog agreements)) :
    ∃ s : ℚ, r.matchScore = Num.fin s ∧ 3 / 10 < s := by
  obtain ⟨i, r0, hr0, heq⟩ := mem_enrichWithPricingData _ _ _ h
  obtain ⟨⟨s, hs, hgt⟩, _⟩ := collectResultsWith_score score now q catalog agreements r0 hr0
  exact ⟨s, by rw [heq, enrichResult_matchScore, hs], hgt⟩

theorem enrichResult_identity (outcome : PricingOutcome) (r : ProductMatch) :
    (enrichResult outcome r).productId = r.productId ∧
      (enrichResult outcome r).productName = r.productName := by
  unfold enrichResult
  cases outcome with
  | failed => exact ⟨rfl, rfl⟩
  | priceList entries =>
    cases entries with
    | nil => exact ⟨rfl, rfl⟩
    | cons priceData rest =>
      simp only
      cases priceData.onDemand with
      | nil => exact ⟨rfl, rfl⟩
      | cons t ts =>
        obtain ⟨tk, term⟩ := t
        simp only
        cases term.priceDimensions with
        | nil => exact ⟨rfl, rfl⟩
        | cons d ds => exact ⟨rfl, rfl⟩

/-- C23, as stated, fails: the catalog record `nullDetailsEntity` is named as the query, so
that `calculateMatchScore` gives it the score `1`, above `0.3`; its details parse to `null`,
the loop skips it, and `searchMarketplaceProducts` returns the empty list. The same holds
for the record `failedDetailsEntity`, whose details lookup throws. -/
theorem null_details_counterexample :
    nullDetailsEntity.details
        = DetailsOutcome.details { truthy := false, json := "null".toList } none none ∧
      calculateMatchScore "Acme Cloud Storage".toList (strOr nullDetailsEntity.name [])
        (some { truthy := false, json := "null".toList }) = 1 ∧
      catalogResult "1".toList "Acme Cloud Storage".toList nullDetailsEntity = none ∧
      searchMarketplaceProducts "1".toList "Acme Cloud Storage".toList 5
        (some [nullDetailsEntity]) (some []) tenCentAnswer = [] ∧
      failedDetailsEntity.details = DetailsOutcome.failed ∧
      calculateMatchScore "Acme Cloud Storage".toList (strOr failedDetailsEntity.name [])
        none = 1 ∧
      searchMarketplaceProducts "1".toList "Acme Cloud Storage".toList 5
        (some [failedDetailsEntity]) (some []) tenCentAnswer = [] := by
  decide!

/-- C23, amended: for every query, every set of catalog and agreement records and every
`maxResults`, the list returned by `searchMarketplaceProducts` is the first `maxResults`
elements of the (priced) candidates ordered by non-increasing `matchScore`, where the
candidates are exactly the agreement records whose score against the query is strictly
greater than `0.3` and the catalog records whose details lookup succeeded, with details
other than `null`, and whose score is strictly greater than `0.3`; hence the result has at
most `maxResults` entries, is sorted by descending score and holds no product scoring
`0.3` or less. The statement holds for every scorer that the function is run with, in
particular for `calculateMatchScore`. -/
theorem search_returns_top_candidates (score : Str → Str → Option Metadata → ℚ)
    (now q : Str) (maxResults : Nat)
    (catalog : Option (List CatalogEntity)) (agreements : Option (List Agreement))
    (send : Nat → PricingRequest → PricingOutcome) :
    searchMarketplaceProducts now q maxResults catalog agreements send
        = searchMarketplaceProductsWith calculateMatchScore now q maxResults catalog
            agreements send ∧
      (searchMarketplaceProductsWith score now q maxResults catalog agreements send).length
        ≤ maxResults ∧
      (searchMarketplaceProductsWith score now q maxResults catalog agreements send).Pairwise
        (fun x y => Num.gt y.matchScore x.matchScore = false) ∧
      (∀ r ∈ searchMarketplaceProductsWith score now q maxResults catalog agreements send,
        ∃ s : ℚ, r.matchScore = Num.fin s ∧ 3 / 10 < s) ∧
      (∃ ranked : List ProductMatch,
        ranked.Perm
          (enrichWithPricingData send (collectResultsWith score now q catalog agreements)) ∧
        ranked.Pairwise (fun x y => Num.gt y.matchScore x.matchScore = false) ∧
        searchMarketplaceProductsWith score now q maxResults catalog agreements send
          = ranked.take maxResults) ∧
      (enrichWithPricingData send (collectResultsWith score now q catalog agreements)).map
          (fun r => (r.productId, r.productName, r.matchScore))
        = (collectResultsWith score now q catalog agreements).map
          (fun r => (r.productId, r.productName, r.matchScore)) ∧
      (∀ r, r ∈ collectResultsWith score now q catalog agreements ↔
        (∃ entity ∈ catalog.getD [], catalogResultWith score now q entity = some r) ∨
          (∃ agreement ∈ agreements.getD [],
            agreementResultWith score now q agreement = some r)) ∧
      (∀ entity : CatalogEntity, entity.details = DetailsOutcome.failed →
        catalogResultWith score now q entity = none) ∧
      (∀ (entity : CatalogEntity) detailsJson vendorName description,
        entity.details = DetailsOutcome.details detailsJson vendorName description →
        ((catalogResultWith score now q entity).isSome = true ↔
          score q (strOr entity.name []) (some detailsJson) > 3 / 10 ∧
            detailsJson.json ≠ "null".toList)) ∧
      (∀ agreement : Agreement,
        (agreementResultWith score now q agreement).isSome = true ↔
          score q (strOr agreement.offerName [])
            (some { truthy := true, json := agreement.json }) > 3 / 10) := by
  have hnn : ∀ x ∈ enrichWithPricingData send (collectResultsWith score now q catalog agreements),
      x.matchScore ≠ Num.nan := by
    intro x hx
    obtain ⟨s, hs, _⟩ := enriched_score score now q catalog agreements send x hx
    rw [hs]
    exact fun h => Num.noConfusion h
  have hsorted := jsSort_descending _ hnn
  have hperm := jsSort_perm compareMatches
    (enrichWithPricingData send (collectResultsWith score now q catalog agreements))
  refine ⟨rfl, ?_, ?_, ?_, ⟨_, hperm, hsorted, rfl⟩, ?_,
    mem_collectResultsWith score now q catalog agreements, ?_, ?_, ?_⟩
  · unfold searchMarketplaceProductsWith
    exact List.length_take_le _ _
  · unfold searchMarketplaceProductsWith
    exact hsorted.sublist (List.take_sublist _ _)
  · intro r hr
    unfold searchMarketplaceProductsWith at hr
    exact enriched_score score now q catalog agreements send r
      (hperm.subset (List.mem_of_mem_take hr))
  · generalize collectResultsWith score now q catalog agreements = l
    apply List.ext_getElem?
    intro i
    rw [List.getElem?_map, getElem?_enrichWithPricingData, List.getElem?_map]
    cases l[i]? with
    | none => rfl
    | some r =>
      simp only [Option.map_some']
      have hm := enrichResult_matchScore (send i (pricingCommand r)) r
      have hid := enrichResult_identity (send i (pricingCommand r)) r
      rw [hm, hid.1, hid.2]
  · intro entity hd
    unfold catalogResultWith
    rw [hd]
  · intro entity detailsJson vendorName description hd
    unfold catalogResultWith
    rw [hd]
    simp only
    by_cases hs : score q (strOr entity.name []) (some detailsJson) > 3 / 10
    · rw [if_pos hs]
      by_cases hn : detailsJson.json = "null".toList
      · have hnull : isNull detailsJson = true := by
          unfold isNull
          exact decide_eq_true hn
        rw [hnull]
        simp only [if_true, Option.isSome_none, Bool.false_eq_true, false_iff, not_and,
          not_not]
        exact fun _ => hn
      · have hnull : isNull detailsJson = false := by
          unfold isNull
          exact decide_eq_false hn
        rw [hnull]
        simp only [Bool.false_eq_true, if_false, Option.isSome_some, true_iff]
        exact ⟨hs, hn⟩
    · rw [if_neg hs]
      simp only [Option.isSome_none, Bool.false_eq_true, false_iff, not_and]
      exact fun h => absurd h hs
  · intro agreement
    unfold agreementResultWith
    simp only
    by_cases hs : score q (strOr agreement.offerName [])
        (some { truthy := true, json := agreement.json }) > 3 / 10
    · simp only [if_pos hs, Option.isSome_some, true_iff]
      exact hs
    · simp only [if_neg hs, Option.isSome_none, Bool.false_eq_true, false_iff]
      exact hs

/-- The pricing of an enriched result: the pricing of the answer when the answer holds a
price dimension, and the pricing the result had before otherwise. -/
theorem enrichResult_pricing_of_none (outcome : PricingOutcome) (r : ProductMatch)
    (h : r.pricing = none) : (enrichResult outcome r).pricing = pricingOf outcome := by
  rw [enrichResult_pricing]
  cases pricingOf outcome with
  | some p => rfl
  | none => exact h

/-- C26: within one call of `enrichWithPricingData` the request that the loop builds is
the same constant request for every result, whatever its `productId`, `productName` and
`vendor`; so for a pricing service that answers equal requests equally, the pricing of
every result after the call is that of the answer to the one request (a result keeps what
it had when that answer holds no price dimension), and any two results of the list that
`searchMarketplaceProducts` enriches, and any two results that it returns, end up with the
same pricing (`monthlyCost`, `currency`, `pricingModel`). -/
theorem constant_pricing_request (send : Nat → PricingRequest → PricingOutcome)
    (hsend : ∀ (i j : Nat) (request : PricingRequest), send i request = send j request) :
    (∀ result : ProductMatch, pricingCommand result = constantRequest) ∧
      (∀ result1 result2 : ProductMatch, pricingCommand result1 = pricingCommand result2) ∧
      (∀ (results : List ProductMatch) (i : Nat) (result : ProductMatch),
        results[i]? = some result →
        ∃ enriched, (enrichWithPricingData send results)[i]? = some enriched ∧
          enriched.pricing = pricingAfter (send 0 constantRequest) result.pricing) ∧
      (∀ (score : Str → Str → Option Metadata → ℚ) (now q : Str)
          (catalog : Option (List CatalogEntity)) (agreements : Option (List Agreement)),
        ∀ r1 ∈ enrichWithPricingData send (collectResultsWith score now q catalog agreements),
        ∀ r2 ∈ enrichWithPricingData send (collectResultsWith score now q catalog agreements),
          r1.pricing = r2.pricing ∧ r1.pricing = pricingOf (send 0 constantRequest)) ∧
      (∀ (now q : Str) (maxResults : Nat) (catalog : Option (List CatalogEntity))
          (agreements : Option (List Agreement)),
        ∀ r1 ∈ searchMarketplaceProducts now q maxResults catalog agreements send,
        ∀ r2 ∈ searchMarketplaceProducts now q maxResults catalog agreements send,
          r1.pricing = r2.pricing ∧ r1.pricing = pricingOf (send 0 constantRequest)) := by
  have hone : ∀ (score : Str → Str → Option Metadata → ℚ) (now q : Str)
      (catalog : Option (List CatalogEntity)) (agreements : Option (List Agreement)),
      ∀ r ∈ enrichWithPricingData send (collectResultsWith score now q catalog agreements),
        r.pricing = pricingOf (send 0 constantRequest) := by
    intro score now q catalog agreements r hr
    obtain ⟨i, r0, hr0, heq⟩ := mem_enrichWithPricingData _ _ _ hr
    have hnone := (collectResultsWith_score score now q catalog agreements r0 hr0).2
    rw [heq, enrichResult_pricing_of_none _ _ hnone, hsend i 0]
    rfl
  refine ⟨fun _ => rfl, fun _ _ => rfl, ?_, ?_, ?_⟩
  · intro results i result hresult
    refine ⟨enrichResult (send i (pricingCommand result)) result, ?_, ?_⟩
    · rw [getElem?_enrichWithPricingData, hresult]
      rfl
    · rw [enrichResult_pricing, hsend i 0]
      rfl
  · intro score now q catalog agreements r1 h1 r2 h2
    have e1 := hone score now q catalog agreements r1 h1
    have e2 := hone score now q catalog agreements r2 h2
    exact ⟨e1.trans e2.symm, e1⟩
  · intro now q maxResults catalog agreements r1 h1 r2 h2
    have hsub : ∀ r ∈ searchMarketplaceProducts now q maxResults catalog agreements send,
        r ∈ enrichWithPricingData send
          (collectResultsWith calculateMatchScore now q catalog agreements) := by
      intro r hr
      unfold searchMarketplaceProducts searchMarketplaceProductsWith at hr
      exact (jsSort_perm compareMatches _).subset (List.mem_of_mem_take hr)
    have e1 := hone calculateMatchScore now q catalog agreements r1 (hsub r1 h1)
    have e2 := hone calculateMatchScore now q catalog agreements r2 (hsub r2 h2)
    exact ⟨e1.trans e2.symm, e1⟩

theorem constant_pricing_request_witness :
    (∀ (i j : Nat) (request : PricingRequest),
        tenCentAnswer i request = tenCentAnswer j request) ∧
      ((∀ result : ProductMatch, pricingCommand result = constantRequest) ∧
        (∀ result1 result2 : ProductMatch, pricingCommand result1 = pricingCommand result2) ∧
        (∀ (results : List ProductMatch) (i : Nat) (result : ProductMatch),
          results[i]? = some result →
          ∃ enriched, (enrichWithPricingData tenCentAnswer results)[i]? = some enriched ∧
            enriched.pricing = pricingAfter (tenCentAnswer 0 constantRequest) result.pricing) ∧
        (∀ (score : Str → Str → Option Metadata → ℚ) (now q : Str)
            (catalog : Option (List CatalogEntity)) (agreements : Option (List Agreement)),
          ∀ r1 ∈ enrichWithPricingData tenCentAnswer
              (collectResultsWith score now q catalog agreements),
          ∀ r2 ∈ enrichWithPricingData tenCentAnswer
              (collectResultsWith score now q catalog agreements),
            r1.pricing = r2.pricing ∧
              r1.pricing = pricingOf (tenCentAnswer 0 constantRequest)) ∧
        (∀ (now q : Str) (maxResults : Nat) (catalog : Option (List CatalogEntity))
            (agreements : Option (List Agreement)),
          ∀ r1 ∈ searchMarketplaceProducts now q maxResults catalog agreements tenCentAnswer,
          ∀ r2 ∈ searchMarketplaceProducts now q maxResults catalog agreements tenCentAnswer,
            r1.pricing = r2.pricing ∧
              r1.pricing = pricingOf (tenCentAnswer 0 constantRequest))) :=
  ⟨fun _ _ _ => rfl, constant_pricing_request tenCentAnswer (fun _ _ _ => rfl)⟩

/-- An evaluation of the search function: the catalog entity and the agreement without an
offer name both score `0.6` against the query, both are returned, in this order, with the
same pricing. -/
theorem search_example :
    (searchMarketplaceProducts "1".toList "Acme Cloud Storage Acme".toList 5 (some [acmeEntity])
        (some [namelessAgreement]) tenCentAnswer).map
        (fun r => (r.productName, r.matchScore, r.pricing.bind (fun p => p.monthlyCost)))
      = [("Acme Cloud Storage Pro".toList, Num.fin (6 / 10), some (Num.fin (1 / 10))),
         ([], Num.fin (6 / 10), some (Num.fin (1 / 10)))] := by
  decide!

end Marketplace
